import Mathlib

/-!
The package renproject/tx: bounded codec, transaction hashing and status-tagged
transactions.

A shallow embedding of `tx.go`, `version.go`, `status.go` and `txutil/txutil.go`, and of the
selector classifier as the specification describes it.

Go strings and byte slices are lists of bytes.  A Go slice that is written in
place is modelled by explicit state passing: a marshal call returns the bytes it
stored at the front of the slice it was given together with the unconsumed tail,
so that the memory of the slice after the call is `written ++ buf`.
-/

set_option autoImplicit false

/-- One byte (Go `byte` / `uint8`). -/
abbrev Byte := Fin 256

/-- Byte strings: Go `[]byte` contents and Go `string` values. -/
abbrev Bytes := List Byte

/-- Bytes of an ASCII string literal. -/
def ascii (s : String) : Bytes :=
  s.data.map (fun c => Fin.ofNat (c.toNat % 256))

/-- Errors returned by the codec (`surge.ErrUnexpectedEndOfBuffer`, and an
error raised by the typed-value codec), and errors built by `fmt.Errorf`, which
carry their message. -/
inductive Error where
  | ErrUnexpectedEndOfBuffer
  | ErrTyped (code : Nat)
  | Errorf (msg : Bytes)
deriving DecidableEq, Repr

/-- Result `(buf, rem, err)` of a marshal call, with the bytes the call stored
at the front of the slice it was given. -/
structure Ret where
  written : Bytes
  buf : Bytes
  rem : Int
  err : Option Error
deriving DecidableEq, Repr

/-- Result `(buf, rem, err)` of an unmarshal call, with the value of the
receiver after the call. -/
structure URet (α : Type) where
  val : α
  buf : Bytes
  rem : Int
  err : Option Error
deriving DecidableEq, Repr

/-- Sequencing of two marshal calls on the same slice:
`if buf, rem, err = first; err != nil { return buf, rem, err }; return second(buf, rem)`. -/
def Ret.andThen (r : Ret) (f : Bytes → Int → Ret) : Ret :=
  match r.err with
  | some _ => r
  | none =>
    let r2 := f r.buf r.rem
    ⟨r.written ++ r2.written, r2.buf, r2.rem, r2.err⟩

namespace surge

/-- Modelled from the spec: `surge.MaxBytes`, the default memory quota of the
bounded codec (the surge library is not part of the sources; 64 MiB). -/
def MaxBytes : Int := 64 * 1024 * 1024

/-- Modelled from the spec: `surge.SizeHintU8`, a status is a single byte. -/
def SizeHintU8 : Nat := 1

/-- Modelled from the spec: `surge.SizeHintU32`, the size of a length prefix. -/
def SizeHintU32 : Nat := 4

/-- Big-endian bytes of a 32-bit unsigned integer. -/
def putU32 (x : Nat) : Bytes :=
  [Fin.ofNat (x / 16777216 % 256), Fin.ofNat (x / 65536 % 256),
   Fin.ofNat (x / 256 % 256), Fin.ofNat (x % 256)]

/-- Big-endian value of the first four bytes of a buffer. -/
def getU32 (buf : Bytes) : Nat :=
  match buf with
  | b0 :: b1 :: b2 :: b3 :: _ => b0.val * 16777216 + b1.val * 65536 + b2.val * 256 + b3.val
  | _ => 0

/-- Modelled from the spec: `surge.MarshalU8`; one byte is written when both
the buffer and the quota have room for it. -/
def MarshalU8 (x : Byte) (buf : Bytes) (rem : Int) : Ret :=
  if buf.length < SizeHintU8 ∨ rem < SizeHintU8 then
    ⟨[], buf, rem, some Error.ErrUnexpectedEndOfBuffer⟩
  else
    ⟨[x], buf.drop SizeHintU8, rem - SizeHintU8, none⟩

/-- Modelled from the spec: `surge.UnmarshalU8`; the receiver keeps its value
when the call fails. -/
def UnmarshalU8 (x : Byte) (buf : Bytes) (rem : Int) : URet Byte :=
  match buf with
  | [] => ⟨x, buf, rem, some Error.ErrUnexpectedEndOfBuffer⟩
  | b :: tl =>
    if rem < SizeHintU8 then ⟨x, buf, rem, some Error.ErrUnexpectedEndOfBuffer⟩
    else ⟨b, tl, rem - SizeHintU8, none⟩

/-- Modelled from the spec: `surge.MarshalU32`, the length prefix writer
(`x` is a `uint32`). -/
def MarshalU32 (x : Nat) (buf : Bytes) (rem : Int) : Ret :=
  if buf.length < SizeHintU32 ∨ rem < SizeHintU32 then
    ⟨[], buf, rem, some Error.ErrUnexpectedEndOfBuffer⟩
  else
    ⟨putU32 (x % 4294967296), buf.drop SizeHintU32, rem - SizeHintU32, none⟩

/-- Modelled from the spec: `surge.SizeHintString`, length prefix plus the
bytes of the string. -/
def SizeHintString (v : Bytes) : Nat := SizeHintU32 + v.length

/-- Modelled from the spec: `surge.MarshalString`; the `uint32(len(v))` prefix
and then the bytes of the string, each under the buffer and quota check. -/
def MarshalString (v : Bytes) (buf : Bytes) (rem : Int) : Ret :=
  let r := MarshalU32 (v.length % 4294967296) buf rem
  match r.err with
  | some _ => r
  | none =>
    if r.buf.length < v.length ∨ r.rem < v.length then
      ⟨r.written, r.buf, r.rem, some Error.ErrUnexpectedEndOfBuffer⟩
    else
      ⟨r.written ++ v, r.buf.drop v.length, r.rem - v.length, none⟩

/-- Modelled from the spec: `surge.UnmarshalString`; the length prefix is read
and checked against the buffer and the quota before the string is built. The
receiver keeps its value when the call fails. -/
def UnmarshalString (v : Bytes) (buf : Bytes) (rem : Int) : URet Bytes :=
  if buf.length < SizeHintU32 ∨ rem < SizeHintU32 then
    ⟨v, buf, rem, some Error.ErrUnexpectedEndOfBuffer⟩
  else
    let n := getU32 buf
    let buf1 := buf.drop SizeHintU32
    let rem1 := rem - SizeHintU32
    if buf1.length < n ∨ rem1 < n then
      ⟨v, buf1, rem1, some Error.ErrUnexpectedEndOfBuffer⟩
    else
      ⟨buf1.take n, buf1.drop n, rem1 - n, none⟩

end surge

namespace id

/-- The 32-byte digest type `id.Hash`. -/
abbrev Hash := { l : Bytes // l.length = 32 }

/-- The zero value `id.Hash{}`. -/
def Hash.zero : Hash := ⟨List.replicate 32 0, by simp⟩

/-- Modelled from the spec: the binary form of a hash is its 32 bytes, written
under the buffer and quota check. -/
def Hash.Marshal (h : Hash) (buf : Bytes) (rem : Int) : Ret :=
  if buf.length < 32 ∨ rem < 32 then
    ⟨[], buf, rem, some Error.ErrUnexpectedEndOfBuffer⟩
  else
    ⟨h.val, buf.drop 32, rem - 32, none⟩

/-- Modelled from the spec: a hash is read back from the next 32 bytes; the
receiver keeps its value when the call fails. -/
def Hash.Unmarshal (h : Hash) (buf : Bytes) (rem : Int) : URet Hash :=
  if hc : buf.length < 32 ∨ rem < 32 then
    ⟨h, buf, rem, some Error.ErrUnexpectedEndOfBuffer⟩
  else
    ⟨⟨buf.take 32, by
        have hlen : ¬ buf.length < 32 := fun hlt => hc (Or.inl hlt)
        simp only [List.length_take]
        omega⟩, buf.drop 32, rem - 32, none⟩

end id

/-- The external collaborators of the package: the hash primitive `id.NewHash`
and the codec of the typed values `pack.Typed` (its zero value, the empty value
`pack.NewTyped()`, its exact encoding, size hint, and bounded marshal and
unmarshal). -/
structure External (Typed : Type) where
  NewHash : Bytes → id.Hash
  zero : Typed
  NewTyped : Typed
  encode : Typed → Bytes
  SizeHint : Typed → Nat
  Marshal : Typed → Bytes → Int → Ret
  Unmarshal : Typed → Bytes → Int → URet Typed

/-- The bounded encode/decode contract the typed-value codec is assumed to meet:
the size hint is the exact encoded length; an encode succeeds exactly when the
buffer and the quota have room, writes the encoding, and lowers the quota by its
length; a decode of an encoding reads the value back when the quota has room and
fails otherwise. -/
structure External.Lawful {Typed : Type} (E : External Typed) : Prop where
  size_encode : ∀ x, (E.encode x).length = E.SizeHint x
  marshal_ok : ∀ x buf (rem : Int), E.SizeHint x ≤ buf.length → (E.SizeHint x : Int) ≤ rem →
    E.Marshal x buf rem = ⟨E.encode x, buf.drop (E.SizeHint x), rem - E.SizeHint x, none⟩
  marshal_err : ∀ x buf (rem : Int), buf.length < E.SizeHint x ∨ rem < (E.SizeHint x : Int) →
    (E.Marshal x buf rem).err ≠ none
  unmarshal_ok : ∀ x0 x rest (rem : Int), (E.SizeHint x : Int) ≤ rem →
    E.Unmarshal x0 (E.encode x ++ rest) rem = ⟨x, rest, rem - E.SizeHint x, none⟩
  unmarshal_err : ∀ x0 x rest (rem : Int), rem < (E.SizeHint x : Int) →
    (E.Unmarshal x0 (E.encode x ++ rest) rem).err ≠ none

namespace tx

/-- A transaction version, `type Version string`. -/
abbrev Version := Bytes

/-- The constant `Version0 = Version("0")`. -/
def Version0 : Version := ascii "0"

/-- The constant `Version1 = Version("1")`. -/
def Version1 : Version := ascii "1"

/-- The method `Version.String`. -/
def Version.String (v : Version) : Bytes :=
  if v = Version0 then ascii "0"
  else if v = Version1 then ascii "1"
  else ascii ""

/-- The method `Version.SizeHint`. -/
def Version.SizeHint (v : Version) : Nat :=
  surge.SizeHintString (Version.String v)

/-- The method `Version.Marshal`. -/
def Version.Marshal (v : Version) (buf : Bytes) (rem : Int) : Ret :=
  surge.MarshalString (Version.String v) buf rem

/-- The method `Version.Unmarshal`. -/
def Version.Unmarshal (v : Version) (buf : Bytes) (rem : Int) : URet Version :=
  surge.UnmarshalString v buf rem

/-- A transaction selector, `type Selector string`. -/
abbrev Selector := Bytes

/-- Modelled from the spec: `Selector.SizeHint` (selector.go is not among the
sources); a selector is encoded as its string form with a length prefix. -/
def Selector.SizeHint (s : Selector) : Nat :=
  surge.SizeHintString s

/-- Modelled from the spec: `Selector.Marshal` (selector.go is not among the
sources); a selector is encoded as its string form with a length prefix. -/
def Selector.Marshal (s : Selector) (buf : Bytes) (rem : Int) : Ret :=
  surge.MarshalString s buf rem

/-- Modelled from the spec: `Selector.Unmarshal` (selector.go is not among the
sources); the mirror of `Selector.Marshal`. -/
def Selector.Unmarshal (s : Selector) (buf : Bytes) (rem : Int) : URet Selector :=
  surge.UnmarshalString s buf rem

/-- The record `Tx`. -/
structure Tx (Typed : Type) where
  Hash : id.Hash
  Version : Version
  Selector : Selector
  Input : Typed
  Output : Typed
deriving DecidableEq

/-- The zero value `Tx{}`. -/
def Tx.zero {Typed : Type} (E : External Typed) : Tx Typed :=
  ⟨id.Hash.zero, [], [], E.zero, E.zero⟩

/-- A transaction status, `type Status uint8`. -/
abbrev Status := Byte

/-- The constant `StatusNil = Status(0)`. -/
def StatusNil : Status := 0

/-- The constant `StatusConfirming = Status(1)`. -/
def StatusConfirming : Status := 1

/-- The constant `StatusPending = Status(2)`. -/
def StatusPending : Status := 2

/-- The constant `StatusExecuting = Status(3)`. -/
def StatusExecuting : Status := 3

/-- The constant `StatusDone = Status(4)`. -/
def StatusDone : Status := 4

/-- The record `WithStatus`: a transaction and its status. -/
structure WithStatus (Typed : Type) where
  Tx : Tx Typed
  Status : Status
deriving DecidableEq

/-- The zero value `WithStatus{}`. -/
def WithStatus.zero {Typed : Type} (E : External Typed) : WithStatus Typed :=
  ⟨Tx.zero E, 0⟩

/-- Modelled from the spec: `surge.SizeHint` of a `Tx` (the reflection-driven
codec of the surge library is not part of the sources): the sum of the size
hints of `Hash`, `Version`, `Selector`, `Input` and `Output`. -/
def Tx.SizeHint {Typed : Type} (E : External Typed) (t : Tx Typed) : Nat :=
  32 + Version.SizeHint t.Version + Selector.SizeHint t.Selector
    + E.SizeHint t.Input + E.SizeHint t.Output

/-- Modelled from the spec: `surge.Marshal` of a `Tx` (the reflection-driven
codec of the surge library is not part of the sources): the fields are encoded
in the order `Hash`, `Version`, `Selector`, `Input`, `Output`, and the first
failing field ends the call. -/
def Tx.Marshal {Typed : Type} (E : External Typed) (t : Tx Typed) (buf : Bytes) (rem : Int) :
    Ret :=
  ((((id.Hash.Marshal t.Hash buf rem).andThen (Version.Marshal t.Version)).andThen
    (Selector.Marshal t.Selector)).andThen (E.Marshal t.Input)).andThen (E.Marshal t.Output)

/-- Modelled from the spec: `surge.Unmarshal` of a `*Tx` (the reflection-driven
codec of the surge library is not part of the sources): the fields are decoded
in the order `Hash`, `Version`, `Selector`, `Input`, `Output` into the receiver,
and the first failing field ends the call. -/
def Tx.Unmarshal {Typed : Type} (E : External Typed) (t : Tx Typed) (buf : Bytes) (rem : Int) :
    URet (Tx Typed) :=
  let r1 := id.Hash.Unmarshal t.Hash buf rem
  let t1 : Tx Typed := { t with Hash := r1.val }
  match r1.err with
  | some e => ⟨t1, r1.buf, r1.rem, some e⟩
  | none =>
    let r2 := Version.Unmarshal t1.Version r1.buf r1.rem
    let t2 : Tx Typed := { t1 with Version := r2.val }
    match r2.err with
    | some e => ⟨t2, r2.buf, r2.rem, some e⟩
    | none =>
      let r3 := Selector.Unmarshal t2.Selector r2.buf r2.rem
      let t3 : Tx Typed := { t2 with Selector := r3.val }
      match r3.err with
      | some e => ⟨t3, r3.buf, r3.rem, some e⟩
      | none =>
        let r4 := E.Unmarshal t3.Input r3.buf r3.rem
        let t4 : Tx Typed := { t3 with Input := r4.val }
        match r4.err with
        | some e => ⟨t4, r4.buf, r4.rem, some e⟩
        | none =>
          let r5 := E.Unmarshal t4.Output r4.buf r4.rem
          ⟨{ t4 with Output := r5.val }, r5.buf, r5.rem, r5.err⟩

/-- The function `NewTxHashIntoBuffer`. The three encodes write into `data` in
place; the digest is taken of the whole of `data` as it stands afterwards. -/
def NewTxHashIntoBuffer {Typed : Type} (E : External Typed) (version : Version)
    (selector : Selector) (input : Typed) (data : Bytes) : id.Hash × Option Error :=
  let r1 := Version.Marshal version data surge.MaxBytes
  match r1.err with
  | some e => (id.Hash.zero, some e)
  | none =>
    let r2 := Selector.Marshal selector r1.buf r1.rem
    match r2.err with
    | some e => (id.Hash.zero, some e)
    | none =>
      let r3 := E.Marshal input r2.buf r2.rem
      match r3.err with
      | some e => (id.Hash.zero, some e)
      | none => (E.NewHash (r1.written ++ (r2.written ++ (r3.written ++ r3.buf))), none)

/-- The function `NewTxHash`: a zeroed buffer of the summed size hints, handed
to `NewTxHashIntoBuffer`. -/
def NewTxHash {Typed : Type} (E : External Typed) (version : Version) (selector : Selector)
    (input : Typed) : id.Hash × Option Error :=
  let buf : Bytes := List.replicate
    (surge.SizeHintString version + surge.SizeHintString selector + E.SizeHint input) 0
  NewTxHashIntoBuffer E version selector input buf

/-- The function `NewTx`. -/
def NewTx {Typed : Type} (E : External Typed) (selector : Selector) (input : Typed) :
    Tx Typed × Option Error :=
  match NewTxHash E Version1 selector input with
  | (_, some e) => (Tx.zero E, some e)
  | (hash, none) =>
    ({ Hash := hash, Version := Version1, Selector := selector, Input := input,
       Output := E.zero }, none)

/-- The method `WithStatus.SizeHint`. -/
def WithStatus.SizeHint {Typed : Type} (E : External Typed) (w : WithStatus Typed) : Nat :=
  Tx.SizeHint E w.Tx + surge.SizeHintU8

/-- The method `WithStatus.Marshal`. -/
def WithStatus.Marshal {Typed : Type} (E : External Typed) (w : WithStatus Typed)
    (buf : Bytes) (rem : Int) : Ret :=
  (Tx.Marshal E w.Tx buf rem).andThen (surge.MarshalU8 w.Status)

/-- The method `WithStatus.Unmarshal`. -/
def WithStatus.Unmarshal {Typed : Type} (E : External Typed) (w : WithStatus Typed)
    (buf : Bytes) (rem : Int) : URet (WithStatus Typed) :=
  let r1 := Tx.Unmarshal E w.Tx buf rem
  match r1.err with
  | some e => ⟨{ w with Tx := r1.val }, r1.buf, r1.rem, some e⟩
  | none =>
    let r2 := surge.UnmarshalU8 0 r1.buf r1.rem
    match r2.err with
    | some e => ⟨{ w with Tx := r1.val }, r2.buf, r2.rem, some e⟩
    | none => ⟨{ Tx := r1.val, Status := r2.val }, r2.buf, r2.rem, none⟩

end tx

namespace txutil

/-- The function `RandomGoodTx`, as a function of the selector and the input it
draws from the random source; `none` stands for a panic. -/
def RandomGoodTx {Typed : Type} (E : External Typed) (randomSelector : tx.Selector)
    (input : Typed) : Option (tx.Tx Typed) :=
  match tx.NewTx E randomSelector input with
  | (_, some _) => none
  | (transaction, none) =>
    let transaction : tx.Tx Typed :=
      { transaction with Version := tx.Version1, Output := E.NewTyped }
    match tx.NewTxHash E transaction.Version transaction.Selector transaction.Input with
    | (_, some _) => none
    | (hash, none) => some { transaction with Hash := hash }

end txutil

/-- A small instance of the typed-value codec for concrete evaluation: a value is
either empty, encoded as the byte 0, or one byte `b`, encoded as 1 followed by `b`. -/
def sampleSizeHint (x : Option Byte) : Nat :=
  match x with
  | none => 1
  | some _ => 2

/-- Encoding of the sample codec. -/
def sampleEncode (x : Option Byte) : Bytes :=
  match x with
  | none => [0]
  | some b => [1, b]

/-- Bounded marshal of the sample codec. -/
def sampleMarshal (x : Option Byte) (buf : Bytes) (rem : Int) : Ret :=
  if buf.length < sampleSizeHint x ∨ rem < sampleSizeHint x then
    ⟨[], buf, rem, some Error.ErrUnexpectedEndOfBuffer⟩
  else
    ⟨sampleEncode x, buf.drop (sampleSizeHint x), rem - sampleSizeHint x, none⟩

/-- Bounded unmarshal of the sample codec. -/
def sampleUnmarshal (x0 : Option Byte) (buf : Bytes) (rem : Int) : URet (Option Byte) :=
  match buf with
  | [] => ⟨x0, buf, rem, some Error.ErrUnexpectedEndOfBuffer⟩
  | t :: tl =>
    if t = 0 then
      if rem < 1 then ⟨x0, buf, rem, some Error.ErrUnexpectedEndOfBuffer⟩
      else ⟨none, tl, rem - 1, none⟩
    else if t = 1 then
      match tl with
      | [] => ⟨x0, buf, rem, some Error.ErrUnexpectedEndOfBuffer⟩
      | b :: tl2 =>
        if rem < 2 then ⟨x0, buf, rem, some Error.ErrUnexpectedEndOfBuffer⟩
        else ⟨some b, tl2, rem - 2, none⟩
    else ⟨x0, buf, rem, some (Error.ErrTyped 0)⟩

/-- A stand-in digest for concrete evaluation: the length of the data followed
by its first 31 bytes, zero padded. It tells apart any two inputs of at most 31
bytes. -/
def sampleHash (data : Bytes) : id.Hash :=
  ⟨((Fin.ofNat (data.length % 256) :: data) ++ List.replicate 32 0).take 32, by
    simp only [List.length_take, List.length_append, List.length_cons, List.length_replicate]
    omega⟩

/-- The sample collaborators: `sampleHash` and the sample typed-value codec. -/
def sampleExternal : External (Option Byte) where
  NewHash := sampleHash
  zero := none
  NewTyped := none
  encode := sampleEncode
  SizeHint := sampleSizeHint
  Marshal := sampleMarshal
  Unmarshal := sampleUnmarshal

/-- The exact encoding of a string: the big-endian `uint32` length, then the bytes. -/
def surge.encodeString (v : Bytes) : Bytes :=
  surge.putU32 (v.length % 4294967296) ++ v

/-- The bounded-encode contract of a marshal function `f` whose exact output is
`e`: it succeeds when buffer and quota have room for `e`, storing `e`, returning
the tail after `e` and the quota lowered by the length of `e`; it fails otherwise. -/
structure Bounded (f : Bytes → Int → Ret) (e : Bytes) : Prop where
  ok : ∀ buf (rem : Int), e.length ≤ buf.length → (e.length : Int) ≤ rem →
    f buf rem = ⟨e, buf.drop e.length, rem - e.length, none⟩
  err : ∀ buf (rem : Int), buf.length < e.length ∨ rem < (e.length : Int) →
    (f buf rem).err ≠ none

/-- The exact encoding of a transaction: the fields in order. -/
def tx.Tx.encode {Typed : Type} (E : External Typed) (t : tx.Tx Typed) : Bytes :=
  (((t.Hash.val ++ surge.encodeString (tx.Version.String t.Version))
    ++ surge.encodeString t.Selector) ++ E.encode t.Input) ++ E.encode t.Output

/-- The bytes the three encodes of the hash computation write: version (through
`Version.Marshal`), selector, input. -/
def tx.hashEncoding {Typed : Type} (E : External Typed) (v : tx.Version) (s : tx.Selector)
    (i : Typed) : Bytes :=
  (surge.encodeString (tx.Version.String v) ++ surge.encodeString s) ++ E.encode i

/-- The bounded-decode contract of an unmarshal function `u` on the encoding `e`
of the value `x`: when the quota has room for `e` it reads `x`, returns what
follows `e` and lowers the quota by the length of `e`; it fails otherwise. -/
structure Decodes {α : Type} (u : α → Bytes → Int → URet α) (e : Bytes) (x : α) : Prop where
  ok : ∀ x0 rest (rem : Int), (e.length : Int) ≤ rem →
    u x0 (e ++ rest) rem = ⟨x, rest, rem - e.length, none⟩
  err : ∀ x0 rest (rem : Int), rem < (e.length : Int) → (u x0 (e ++ rest) rem).err ≠ none

/-- A status-tagged transaction of the sample codec with the given version. -/
def sampleWithStatus (v : tx.Version) : tx.WithStatus (Option Byte) :=
  ⟨⟨id.Hash.zero, v, ascii "BTC/toEthereum", some 7, none⟩, tx.StatusPending⟩

/-- The loop `for i := 0; i < n; i++ { body }` on a state. -/
def forRange {σ : Type} : Nat → (Nat → σ → σ) → σ → σ
  | 0, _, s => s
  | n + 1, body, s => body n (forRange n body s)

namespace tx

/-- The method `Status.String`. -/
def Status.String (status : Status) : Bytes :=
  if status = StatusNil then ascii "nil"
  else if status = StatusConfirming then ascii "confirming"
  else if status = StatusPending then ascii "pending"
  else if status = StatusExecuting then ascii "executing"
  else if status = StatusDone then ascii "done"
  else ascii ""

/-- The method `Status.MarshalText`. -/
def Status.MarshalText (status : Status) : Bytes × Option Error :=
  (Status.String status, none)

/-- The method `Status.UnmarshalText`: the value of the receiver after the call
and the error. -/
def Status.UnmarshalText (status : Status) (data : Bytes) : Status × Option Error :=
  if data = ascii "nil" then (StatusNil, none)
  else if data = ascii "confirming" then (StatusConfirming, none)
  else if data = ascii "pending" then (StatusPending, none)
  else if data = ascii "executing" then (StatusExecuting, none)
  else if data = ascii "done" then (StatusDone, none)
  else (status, some (Error.Errorf (ascii "non-exhaustive pattern: status " ++ data)))

/-- The function `ZipStatus`: a slice of zero values of the length of `txs`,
filled index by index. -/
def ZipStatus {Typed : Type} (E : External Typed) (txs : List (Tx Typed)) (status : Status) :
    List (WithStatus Typed) :=
  forRange txs.length
    (fun i txsWithStatus =>
      txsWithStatus.set i { Tx := txs.getD i (Tx.zero E), Status := status })
    (List.replicate txs.length (WithStatus.zero E))

/-- The function `MapToNoStatus`. -/
def MapToNoStatus {Typed : Type} (E : External Typed) (txsWithStatus : List (WithStatus Typed)) :
    List (Tx Typed) :=
  forRange txsWithStatus.length
    (fun i txs => txs.set i (txsWithStatus.getD i (WithStatus.zero E)).Tx)
    (List.replicate txsWithStatus.length (Tx.zero E))

/-- A pointer `*Tx`: `nil`, or the address of an element of the backing array
of a slice of transactions, given by its index. -/
abbrev TxPtr := Option Nat

/-- The function `MapToPtrs`: `txPtrs[i] = &txs[i]`. -/
def MapToPtrs {Typed : Type} (txs : List (Tx Typed)) : List TxPtr :=
  forRange txs.length (fun i txPtrs => txPtrs.set i (some i)) (List.replicate txs.length none)

/-- The function `MapFromPtrs`: `txs[i] = *txPtrs[i]`, the pointers read in the
memory `mem` they point into. `none` stands for the panic of dereferencing a nil
or dangling pointer. -/
def MapFromPtrs {Typed : Type} (E : External Typed) (mem : List (Tx Typed))
    (txPtrs : List TxPtr) : Option (List (Tx Typed)) :=
  forRange txPtrs.length
    (fun i acc =>
      match acc with
      | none => none
      | some txs =>
        match txPtrs.getD i none with
        | none => none
        | some a =>
          match mem.get? a with
          | none => none
          | some t => some (txs.set i t))
    (some (List.replicate txPtrs.length (Tx.zero E)))

/-- The static registries a selector is classified against: the supported
assets, the origin chain of an asset, and the supported host chains. -/
structure Registry where
  assets : List Bytes
  origin : Bytes → Bytes
  hosts : List Bytes

/-- The classification of a selector token. -/
inductive Parsed where
  | Invalid
  | Lock (asset host : Bytes)
  | Release (asset host : Bytes)
  | Move (asset hostFrom hostTo : Bytes)
deriving DecidableEq, Repr

/-- Split a token on the first occurrence of the byte `c`. -/
def splitFirst (c : Byte) : Bytes → Option (Bytes × Bytes)
  | [] => none
  | x :: xs =>
    if x = c then some ([], xs)
    else
      match splitFirst c xs with
      | none => none
      | some (l, r) => some (x :: l, r)

/-- What follows the literal `p` at the start of `s`, if `s` starts with `p`. -/
def afterPrefix : Bytes → Bytes → Option Bytes
  | [], s => some s
  | _ :: _, [] => none
  | a :: p, b :: s => if a = b then afterPrefix p s else none

/-- Split a token around the first occurrence of the literal `p`. -/
def splitAround (p : Bytes) : Bytes → Option (Bytes × Bytes)
  | [] => (afterPrefix p []).map (fun r => ([], r))
  | x :: xs =>
    match afterPrefix p (x :: xs) with
    | some r => some ([], r)
    | none =>
      match splitAround p xs with
      | none => none
      | some (l, r) => some (x :: l, r)

/-- Modelled from the spec: the matching of the verb of a selector against the
three shapes (selector.go is not among the sources). A verb with the prefix `to`
that has `From` past the prefix is shape 3, `to<HostA>From<HostB>`, with both
hosts registered and different; any other verb with the prefix `to` is shape 1,
`to<Host>`; a verb with the prefix `from` is shape 2, `from<Host>`; the hosts
must be registered. Everything else is invalid. -/
def Selector.classify (R : Registry) (asset verb : Bytes) : Parsed :=
  match afterPrefix (ascii "to") verb with
  | some rest =>
    match splitAround (ascii "From") rest with
    | some (hostA, hostB) =>
      if hostA ∈ R.hosts ∧ hostB ∈ R.hosts ∧ hostA ≠ hostB then
        Parsed.Move asset hostB hostA
      else Parsed.Invalid
    | none => if rest ∈ R.hosts then Parsed.Lock asset rest else Parsed.Invalid
  | none =>
    match afterPrefix (ascii "from") verb with
    | some host => if host ∈ R.hosts then Parsed.Release asset host else Parsed.Invalid
    | none => Parsed.Invalid

/-- Modelled from the spec: the parsing algorithm of a selector (selector.go is
not among the sources). The token is split on the first `/` into the candidate
asset and the verb; a missing `/`, a verb with a further `/`, or an unregistered
asset is invalid; otherwise the verb decides the shape. -/
def Selector.parse (R : Registry) (s : Selector) : Parsed :=
  match splitFirst 47 s with
  | none => Parsed.Invalid
  | some (asset, verb) =>
    if (47 : Byte) ∈ verb then Parsed.Invalid
    else if asset ∉ R.assets then Parsed.Invalid
    else Selector.classify R asset verb

/-- Modelled from the spec: `Selector.Asset` (selector.go is not among the
sources); the asset of a valid selector, the empty asset otherwise. -/
def Selector.Asset (R : Registry) (s : Selector) : Bytes :=
  match Selector.parse R s with
  | Parsed.Invalid => []
  | Parsed.Lock asset _ => asset
  | Parsed.Release asset _ => asset
  | Parsed.Move asset _ _ => asset

/-- Modelled from the spec: `Selector.Source` (selector.go is not among the
sources); shape 1: the origin chain of the asset, shape 2: `Host`, shape 3:
`HostB`, the empty chain for an invalid selector. -/
def Selector.Source (R : Registry) (s : Selector) : Bytes :=
  match Selector.parse R s with
  | Parsed.Invalid => []
  | Parsed.Lock asset _ => R.origin asset
  | Parsed.Release _ host => host
  | Parsed.Move _ hostFrom _ => hostFrom

/-- Modelled from the spec: `Selector.Destination` (selector.go is not among the
sources); shape 1: `Host`, shape 2: the origin chain of the asset, shape 3:
`HostA`, the empty chain for an invalid selector. -/
def Selector.Destination (R : Registry) (s : Selector) : Bytes :=
  match Selector.parse R s with
  | Parsed.Invalid => []
  | Parsed.Lock _ host => host
  | Parsed.Release asset _ => R.origin asset
  | Parsed.Move _ _ hostTo => hostTo

/-- Modelled from the spec: `Selector.IsLock` (selector.go is not among the
sources); true exactly for a valid selector of shape 1. -/
def Selector.IsLock (R : Registry) (s : Selector) : Bool :=
  match Selector.parse R s with
  | Parsed.Lock _ _ => true
  | _ => false

/-- Modelled from the spec: `Selector.String` (selector.go is not among the
sources); the textual form of the selector itself. -/
def Selector.String (s : Selector) : Bytes := s

/-- Well-formed registry names: no asset or host name contains `/`, and no host
name contains `From`. -/
def Registry.WellFormed (R : Registry) : Prop :=
  (∀ a ∈ R.assets, (47 : Byte) ∉ a)
  ∧ (∀ h ∈ R.hosts, (47 : Byte) ∉ h ∧ splitAround (ascii "From") h = none)

/-- The grammar of valid selectors: `a/to<h>`, `a/from<h>` or
`a/to<hA>From<hB>` with `hA` different from `hB`, for a registered asset and
registered hosts. -/
def Selector.Valid (R : Registry) (s : Selector) : Prop :=
  (∃ a ∈ R.assets, ∃ h ∈ R.hosts, s = a ++ ascii "/to" ++ h)
  ∨ (∃ a ∈ R.assets, ∃ h ∈ R.hosts, s = a ++ ascii "/from" ++ h)
  ∨ (∃ a ∈ R.assets, ∃ hA ∈ R.hosts, ∃ hB ∈ R.hosts,
      hA ≠ hB ∧ s = a ++ ascii "/to" ++ hA ++ ascii "From" ++ hB)

/-- The malformed selectors: the empty string, a string with no `/`, a string
with more than one `/`, an unregistered asset, an unregistered host in one of the
three shapes, or a verb that has neither the prefix `to` nor the prefix `from`. -/
def Selector.Malformed (R : Registry) (s : Selector) : Prop :=
  s = []
  ∨ (47 : Byte) ∉ s
  ∨ 1 < s.count 47
  ∨ (∃ a verb, s = a ++ 47 :: verb ∧ (47 : Byte) ∉ a ∧ a ∉ R.assets)
  ∨ (∃ a h, s = a ++ ascii "/to" ++ h ∧ (47 : Byte) ∉ a
      ∧ splitAround (ascii "From") h = none ∧ h ∉ R.hosts)
  ∨ (∃ a h, s = a ++ ascii "/from" ++ h ∧ (47 : Byte) ∉ a ∧ h ∉ R.hosts)
  ∨ (∃ a hA hB, s = a ++ ascii "/to" ++ hA ++ ascii "From" ++ hB ∧ (47 : Byte) ∉ a
      ∧ splitAround (ascii "From") hA = none ∧ (hA ∉ R.hosts ∨ hB ∉ R.hosts))
  ∨ (∃ a verb, s = a ++ 47 :: verb ∧ (47 : Byte) ∉ a
      ∧ afterPrefix (ascii "to") verb = none ∧ afterPrefix (ascii "from") verb = none)

end tx

namespace txutil

/-- The function `SupportedAssets`; an asset of the multichain package is its name. -/
def SupportedAssets : List Bytes :=
  [ascii "BCH", ascii "BTC", ascii "DGB", ascii "DOGE", ascii "FIL", ascii "LUNA", ascii "ZEC"]

/-- The function `SupportedHostChains`; a chain of the multichain package is its name. -/
def SupportedHostChains : List Bytes :=
  [ascii "Arbitrum", ascii "Avalanche", ascii "BinanceSmartChain", ascii "Ethereum",
   ascii "Fantom", ascii "Goerli", ascii "Moonbeam", ascii "Polygon", ascii "Solana"]

/-- The registries of the supported assets and host chains, for a given origin
chain function of the multichain package. -/
def registry (origin : Bytes → Bytes) : tx.Registry :=
  ⟨SupportedAssets, origin, SupportedHostChains⟩

end txutil

/-- Origin chains for concrete evaluation: Bitcoin for BTC, Zcash for ZEC, and
the name of the asset followed by `Chain` for the others. -/
def sampleOrigin (asset : Bytes) : Bytes :=
  if asset = ascii "BTC" then ascii "Bitcoin"
  else if asset = ascii "ZEC" then ascii "Zcash"
  else asset ++ ascii "Chain"

namespace pack

/-- The type `pack.Bytes32`, an array of 32 bytes. -/
abbrev Bytes32 := { l : Bytes // l.length = 32 }

/-- The zero value `pack.Bytes32{}`. -/
def Bytes32.zero : Bytes32 := ⟨List.replicate 32 0, by simp⟩

end pack

/-- The text `fmt.Sprintf("%v", n)` of a non-negative integer: its decimal digits. -/
def sprintInt (n : Nat) : Bytes := ascii (Nat.repr n)

namespace tx

/-- The function `MapToHashes`: `txHashes[i] = pack.Bytes32(txs[i].Hash)`. -/
def MapToHashes {Typed : Type} (E : External Typed) (txs : List (Tx Typed)) :
    List pack.Bytes32 :=
  forRange txs.length (fun i txHashes => txHashes.set i (txs.getD i (Tx.zero E)).Hash)
    (List.replicate txs.length pack.Bytes32.zero)

/-- The function `MapToIDs`: `txHashes[i] = id.Hash(txs[i].Hash)`. -/
def MapToIDs {Typed : Type} (E : External Typed) (txs : List (Tx Typed)) : List id.Hash :=
  forRange txs.length (fun i txHashes => txHashes.set i (txs.getD i (Tx.zero E)).Hash)
    (List.replicate txs.length id.Hash.zero)

/-- The method `Version.Generate`, as a function of the integer `r.Int()` it draws
from the random source (a non-negative `int`) and of `size`. -/
def Version.Generate (rInt : Nat) (_size : Int) : Version :=
  sprintInt (rInt % 1)

end tx

namespace txutil

/-- A map `map[multichain.Chain][]tx.Selector`: the slice stored under a chain,
`nil` under a chain that is not a key. -/
abbrev SelectorMap := Bytes → List tx.Selector

/-- The assignment `selectors[k] = v`. -/
def SelectorMap.set (m : SelectorMap) (k : Bytes) (v : List tx.Selector) : SelectorMap :=
  fun c => if c = k then v else m c

/-- The function `AllSelectors`. -/
def AllSelectors : List tx.Selector :=
  SupportedAssets.foldl (fun selectors asset =>
    SupportedHostChains.foldl (fun selectors host =>
      SupportedHostChains.foldl (fun selectors otherHost =>
          if otherHost = host then selectors
          else selectors ++ [asset ++ ascii "/to" ++ host ++ ascii "From" ++ otherHost])
        ((selectors ++ [asset ++ ascii "/to" ++ host]) ++ [asset ++ ascii "/from" ++ host]))
      selectors) []

/-- The function `SelectorsByDestination`, for the origin chain function
`asset.OriginChain()` of the multichain package. -/
def SelectorsByDestination (origin : Bytes → Bytes) : SelectorMap :=
  let selectors : SelectorMap := fun _ => []
  let selectors := SupportedHostChains.foldl (fun selectors host =>
    SupportedAssets.foldl (fun selectors asset =>
        SelectorMap.set selectors host (selectors host ++ [asset ++ ascii "/to" ++ host]))
      (SelectorMap.set selectors host [])) selectors
  let selectors := SupportedAssets.foldl (fun selectors asset =>
    SupportedHostChains.foldl (fun selectors host =>
        SelectorMap.set selectors (origin asset)
          (selectors (origin asset) ++ [asset ++ ascii "/from" ++ host]))
      (SelectorMap.set selectors (origin asset) [])) selectors
  SupportedHostChains.foldl (fun selectors host =>
    SupportedHostChains.foldl (fun selectors otherHost =>
      SupportedAssets.foldl (fun selectors asset =>
          SelectorMap.set selectors host
            (selectors host ++ [asset ++ ascii "/to" ++ host ++ ascii "From" ++ otherHost]))
        selectors) selectors) selectors

/-- The function `SelectorsBySource`, for the origin chain function
`asset.OriginChain()` of the multichain package. -/
def SelectorsBySource (origin : Bytes → Bytes) : SelectorMap :=
  let selectors : SelectorMap := fun _ => []
  let selectors := SupportedAssets.foldl (fun selectors asset =>
    SupportedHostChains.foldl (fun selectors host =>
        SelectorMap.set selectors (origin asset)
          (selectors (origin asset) ++ [asset ++ ascii "/to" ++ host]))
      (SelectorMap.set selectors (origin asset) [])) selectors
  let selectors := SupportedHostChains.foldl (fun selectors host =>
    forRange SupportedAssets.length (fun i selectors =>
        SelectorMap.set selectors host
          ((selectors host).set i (SupportedAssets.getD i [] ++ ascii "/from" ++ host)))
      (SelectorMap.set selectors host (List.replicate SupportedAssets.length []))) selectors
  SupportedHostChains.foldl (fun selectors host =>
    SupportedHostChains.foldl (fun selectors otherHost =>
      SupportedAssets.foldl (fun selectors asset =>
          SelectorMap.set selectors host
            (selectors host ++ [asset ++ ascii "/to" ++ otherHost ++ ascii "From" ++ host]))
        selectors) selectors) selectors

/-- The function `LockSelectors`, for the origin chain function
`asset.OriginChain()` of the multichain package. -/
def LockSelectors (origin : Bytes → Bytes) : SelectorMap :=
  SupportedAssets.foldl (fun selectors asset =>
    SupportedHostChains.foldl (fun selectors host =>
        SelectorMap.set selectors (origin asset)
          (selectors (origin asset) ++ [asset ++ ascii "/to" ++ host]))
      (SelectorMap.set selectors (origin asset) [])) (fun _ => [])

/-- The function `NonLockSelectors`, for the origin chain function
`asset.OriginChain()` of the multichain package. -/
def NonLockSelectors (origin : Bytes → Bytes) : SelectorMap :=
  let selectors : SelectorMap := fun _ => []
  let selectors := SupportedAssets.foldl (fun selectors asset =>
    SupportedHostChains.foldl (fun selectors host =>
        SelectorMap.set selectors (origin asset)
          (selectors (origin asset) ++ [asset ++ ascii "/from" ++ host]))
      selectors) selectors
  SupportedAssets.foldl (fun selectors asset =>
    SupportedHostChains.foldl (fun selectors host =>
      SupportedHostChains.foldl (fun selectors otherHost =>
          if otherHost = host then selectors
          else SelectorMap.set selectors (origin asset)
            (selectors (origin asset)
              ++ [asset ++ ascii "/to" ++ host ++ ascii "From" ++ otherHost]))
        selectors) selectors) selectors

end txutil

/-! ## Bounded encoding: lemmas -/

theorem Bounded.err_none_iff {f : Bytes → Int → Ret} {e : Bytes} (h : Bounded f e)
    (buf : Bytes) (rem : Int) :
    (f buf rem).err = none ↔ e.length ≤ buf.length ∧ (e.length : Int) ≤ rem := by
  constructor
  · intro hn
    by_contra hc
    have hc2 : buf.length < e.length ∨ rem < (e.length : Int) := by omega
    exact h.err buf rem hc2 hn
  · rintro ⟨h1, h2⟩
    rw [h.ok buf rem h1 h2]

theorem Bounded.andThen {f g : Bytes → Int → Ret} {e1 e2 : Bytes}
    (hf : Bounded f e1) (hg : Bounded g e2) :
    Bounded (fun buf rem => (f buf rem).andThen g) (e1 ++ e2) := by
  constructor
  · intro buf rem h1 h2
    simp only [List.length_append] at h1 h2
    have hf1 := hf.ok buf rem (by omega) (by push_cast at h2; omega)
    have hg1 := hg.ok (buf.drop e1.length) (rem - e1.length)
      (by simp only [List.length_drop]; omega) (by push_cast at h2; omega)
    simp only [Ret.andThen, hf1, hg1, List.drop_drop, List.length_append]
    congr 1
    push_cast; omega
  · intro buf rem h
    simp only [List.length_append] at h
    by_cases hfit : e1.length ≤ buf.length ∧ (e1.length : Int) ≤ rem
    · have hf1 := hf.ok buf rem hfit.1 hfit.2
      have hg1 := hg.err (buf.drop e1.length) (rem - e1.length)
        (by simp only [List.length_drop]; push_cast at h; omega)
      simp only [Ret.andThen, hf1]
      exact hg1
    · have hf1 := hf.err buf rem (by omega)
      simp only [Ret.andThen]
      cases hfe : (f buf rem).err with
      | none => exact absurd hfe hf1
      | some e => simp [hfe]

theorem surge.length_putU32 (x : Nat) : (surge.putU32 x).length = 4 := rfl

theorem surge.length_encodeString (v : Bytes) :
    (surge.encodeString v).length = surge.SizeHintString v := by
  simp [surge.encodeString, surge.SizeHintString, surge.SizeHintU32, surge.length_putU32]

theorem surge.bounded_MarshalU8 (x : Byte) : Bounded (surge.MarshalU8 x) [x] := by
  constructor
  · intro buf rem h1 h2
    simp only [List.length_singleton] at h1 h2
    have hc : ¬ (buf.length < surge.SizeHintU8 ∨ rem < (surge.SizeHintU8 : Int)) := by
      simp only [surge.SizeHintU8]; push_cast at h2 ⊢; omega
    simp only [surge.MarshalU8, if_neg hc]
    simp [surge.SizeHintU8]
  · intro buf rem h
    simp only [List.length_singleton] at h
    have hc : buf.length < surge.SizeHintU8 ∨ rem < (surge.SizeHintU8 : Int) := by
      simp only [surge.SizeHintU8]; push_cast at h ⊢; omega
    simp [surge.MarshalU8, if_pos hc]

theorem surge.bounded_MarshalString (v : Bytes) :
    Bounded (surge.MarshalString v) (surge.encodeString v) := by
  constructor
  · intro buf rem h1 h2
    rw [surge.length_encodeString] at h1 h2
    simp only [surge.SizeHintString, surge.SizeHintU32] at h1 h2
    have hc : ¬ (buf.length < surge.SizeHintU32 ∨ rem < (surge.SizeHintU32 : Int)) := by
      simp only [surge.SizeHintU32]; push_cast at h2 ⊢; omega
    have hc2 : ¬ ((buf.drop surge.SizeHintU32).length < v.length
        ∨ rem - (surge.SizeHintU32 : Int) < (v.length : Int)) := by
      simp only [surge.SizeHintU32, List.length_drop]; push_cast at h2 ⊢; omega
    simp only [surge.MarshalString, surge.MarshalU32, if_neg hc, if_neg hc2]
    simp only [surge.encodeString, Nat.mod_mod, List.drop_drop, surge.length_putU32,
      List.length_append, surge.SizeHintU32]
    congr 1
    push_cast; omega
  · intro buf rem h
    rw [surge.length_encodeString] at h
    simp only [surge.SizeHintString, surge.SizeHintU32] at h
    by_cases hc : buf.length < surge.SizeHintU32 ∨ rem < (surge.SizeHintU32 : Int)
    · simp [surge.MarshalString, surge.MarshalU32, if_pos hc]
    · have hc2 : (buf.drop surge.SizeHintU32).length < v.length
          ∨ rem - (surge.SizeHintU32 : Int) < (v.length : Int) := by
        simp only [surge.SizeHintU32, List.length_drop] at hc ⊢; push_cast at h hc ⊢; omega
      simp only [surge.MarshalString, surge.MarshalU32, if_neg hc, if_pos hc2]
      simp

theorem id.bounded_HashMarshal (h : id.Hash) : Bounded (id.Hash.Marshal h) h.val := by
  constructor
  · intro buf rem h1 h2
    rw [h.property] at h1 h2
    have hc : ¬ (buf.length < 32 ∨ rem < 32) := by push_cast at h2; omega
    simp only [id.Hash.Marshal, if_neg hc, h.property]
    simp
  · intro buf rem hlt
    rw [h.property] at hlt
    have hc : buf.length < 32 ∨ rem < 32 := by push_cast at hlt; omega
    simp [id.Hash.Marshal, if_pos hc]

theorem External.Lawful.bounded {Typed : Type} {E : External Typed} (hE : E.Lawful)
    (x : Typed) : Bounded (E.Marshal x) (E.encode x) := by
  constructor
  · intro buf rem h1 h2
    rw [hE.size_encode] at h1 h2 ⊢
    exact hE.marshal_ok x buf rem h1 h2
  · intro buf rem h
    rw [hE.size_encode] at h
    exact hE.marshal_err x buf rem h

theorem tx.bounded_TxMarshal {Typed : Type} {E : External Typed} (hE : E.Lawful)
    (t : tx.Tx Typed) : Bounded (tx.Tx.Marshal E t) (tx.Tx.encode E t) :=
  ((((id.bounded_HashMarshal t.Hash).andThen
    (surge.bounded_MarshalString (tx.Version.String t.Version))).andThen
    (surge.bounded_MarshalString t.Selector)).andThen (hE.bounded t.Input)).andThen
    (hE.bounded t.Output)

theorem tx.length_TxEncode {Typed : Type} {E : External Typed} (hE : E.Lawful)
    (t : tx.Tx Typed) : (tx.Tx.encode E t).length = tx.Tx.SizeHint E t := by
  simp only [tx.Tx.encode, tx.Tx.SizeHint, List.length_append, surge.length_encodeString,
    hE.size_encode, t.Hash.property, tx.Version.SizeHint, tx.Selector.SizeHint]

theorem tx.bounded_WithStatusMarshal {Typed : Type} {E : External Typed} (hE : E.Lawful)
    (w : tx.WithStatus Typed) :
    Bounded (tx.WithStatus.Marshal E w) (tx.Tx.encode E w.Tx ++ [w.Status]) :=
  (tx.bounded_TxMarshal hE w.Tx).andThen (surge.bounded_MarshalU8 w.Status)

theorem tx.NewTxHashIntoBuffer_eq {Typed : Type} (E : External Typed) (v : tx.Version)
    (s : tx.Selector) (i : Typed) (data : Bytes) :
    tx.NewTxHashIntoBuffer E v s i data =
      match ((tx.Version.Marshal v data surge.MaxBytes).andThen (tx.Selector.Marshal s)).andThen
          (E.Marshal i) with
      | ⟨_, _, _, some e⟩ => (id.Hash.zero, some e)
      | ⟨w, b, _, none⟩ => (E.NewHash (w ++ b), none) := by
  unfold tx.NewTxHashIntoBuffer Ret.andThen
  rcases h1 : tx.Version.Marshal v data surge.MaxBytes with ⟨w1, b1, m1, e1⟩
  cases e1 with
  | some e => rfl
  | none =>
    simp only []
    rcases h2 : tx.Selector.Marshal s b1 m1 with ⟨w2, b2, m2, e2⟩
    cases e2 with
    | some e => rfl
    | none =>
      simp only []
      rcases h3 : E.Marshal i b2 m2 with ⟨w3, b3, m3, e3⟩
      cases e3 with
      | some e => rfl
      | none => simp only [List.append_assoc]

theorem tx.bounded_hashEncoding {Typed : Type} {E : External Typed} (hE : E.Lawful)
    (v : tx.Version) (s : tx.Selector) (i : Typed) :
    Bounded (fun buf rem => ((tx.Version.Marshal v buf rem).andThen (tx.Selector.Marshal s)).andThen
      (E.Marshal i)) (tx.hashEncoding E v s i) :=
  ((surge.bounded_MarshalString (tx.Version.String v)).andThen
    (surge.bounded_MarshalString s)).andThen (hE.bounded i)

theorem tx.length_hashEncoding {Typed : Type} {E : External Typed} (hE : E.Lawful)
    (v : tx.Version) (s : tx.Selector) (i : Typed) :
    (tx.hashEncoding E v s i).length
      = tx.Version.SizeHint v + surge.SizeHintString s + E.SizeHint i := by
  simp only [tx.hashEncoding, List.length_append, surge.length_encodeString, hE.size_encode,
    tx.Version.SizeHint]

theorem tx.NewTxHashIntoBuffer_ok {Typed : Type} {E : External Typed} (hE : E.Lawful)
    (v : tx.Version) (s : tx.Selector) (i : Typed) (data : Bytes)
    (h1 : (tx.hashEncoding E v s i).length ≤ data.length)
    (h2 : ((tx.hashEncoding E v s i).length : Int) ≤ surge.MaxBytes) :
    tx.NewTxHashIntoBuffer E v s i data
      = (E.NewHash (tx.hashEncoding E v s i ++ data.drop (tx.hashEncoding E v s i).length),
          none) := by
  rw [tx.NewTxHashIntoBuffer_eq]
  have h := (tx.bounded_hashEncoding hE v s i).ok data surge.MaxBytes h1 h2
  simp only [] at h
  rw [h]

theorem tx.NewTxHashIntoBuffer_err {Typed : Type} {E : External Typed} (hE : E.Lawful)
    (v : tx.Version) (s : tx.Selector) (i : Typed) (data : Bytes)
    (h1 : data.length < (tx.hashEncoding E v s i).length
      ∨ surge.MaxBytes < ((tx.hashEncoding E v s i).length : Int)) :
    ∃ e, tx.NewTxHashIntoBuffer E v s i data = (id.Hash.zero, some e) := by
  rw [tx.NewTxHashIntoBuffer_eq]
  have h := (tx.bounded_hashEncoding hE v s i).err data surge.MaxBytes h1
  simp only [] at h
  rcases hr : ((tx.Version.Marshal v data surge.MaxBytes).andThen (tx.Selector.Marshal s)).andThen
      (E.Marshal i) with ⟨w, b, m, e⟩
  rw [hr] at h
  cases e with
  | none => exact absurd rfl h
  | some e => exact ⟨e, rfl⟩

theorem tx.length_VersionString_le (v : tx.Version) :
    (tx.Version.String v).length ≤ v.length := by
  unfold tx.Version.String
  split
  · next h => rw [h]; decide
  · split
    · next h => rw [h]; decide
    · simp [ascii]

theorem sampleExternal_lawful : sampleExternal.Lawful := by
  constructor
  · intro x; cases x <;> rfl
  · intro x buf rem h1 h2
    have hc : ¬ (buf.length < sampleSizeHint x ∨ rem < (sampleSizeHint x : Int)) := by
      simp only [sampleExternal] at h1 h2; omega
    simp only [sampleExternal, sampleMarshal, if_neg hc]
  · intro x buf rem h
    have hc : buf.length < sampleSizeHint x ∨ rem < (sampleSizeHint x : Int) := h
    simp only [sampleExternal, sampleMarshal, if_pos hc]
    simp
  · intro x0 x rest rem h
    cases x with
    | none =>
      have hc : ¬ rem < 1 := by simp only [sampleExternal, sampleSizeHint] at h; omega
      simp [sampleExternal, sampleEncode, sampleUnmarshal, sampleSizeHint, if_neg hc]
    | some b =>
      have hc : ¬ rem < 2 := by simp only [sampleExternal, sampleSizeHint] at h; omega
      simp [sampleExternal, sampleEncode, sampleUnmarshal, sampleSizeHint, if_neg hc]
  · intro x0 x rest rem h
    cases x with
    | none =>
      have hc : rem < 1 := by simp only [sampleExternal, sampleSizeHint] at h; omega
      simp [sampleExternal, sampleEncode, sampleUnmarshal, if_pos hc]
    | some b =>
      have hc : rem < 2 := by simp only [sampleExternal, sampleSizeHint] at h; omega
      simp [sampleExternal, sampleEncode, sampleUnmarshal, if_pos hc]

/-- C1 (the code as it stands): for every version `v`, selector and input whose
summed size hints fit the quota, `NewTxHash` succeeds and digests the three
encodings followed by `len(v) - len(v.String())` zero bytes: the buffer is sized
from the raw version string while `Version.Marshal` writes `v.String()`, so for a
version other than "0", "1" and "" the digested buffer has bytes beyond those the
three encodes wrote. -/
theorem tx.NewTxHash_digests_slack {Typed : Type} {E : External Typed} (hE : E.Lawful)
    (v : tx.Version) (s : tx.Selector) (i : Typed)
    (hfit : ((surge.SizeHintString v + surge.SizeHintString s + E.SizeHint i : Nat) : Int)
      ≤ surge.MaxBytes) :
    tx.NewTxHash E v s i
      = (E.NewHash (tx.hashEncoding E v s i
          ++ List.replicate (v.length - (tx.Version.String v).length) 0), none) := by
  have hlen := tx.length_hashEncoding hE v s i
  have hle := tx.length_VersionString_le v
  simp only [tx.Version.SizeHint, surge.SizeHintString, surge.SizeHintU32] at hlen hfit
  unfold tx.NewTxHash
  simp only []
  rw [tx.NewTxHashIntoBuffer_ok hE v s i _
    (by simp only [List.length_replicate, surge.SizeHintString, surge.SizeHintU32]; omega)
    (by push_cast at hfit ⊢; omega)]
  have hdrop : surge.SizeHintString v + surge.SizeHintString s + E.SizeHint i
      - (tx.hashEncoding E v s i).length = v.length - (tx.Version.String v).length := by
    simp only [surge.SizeHintString, surge.SizeHintU32]
    omega
  rw [List.drop_replicate, hdrop]

/-- Witness of C1 at the version "2": the digest is taken of the three encodings
and one more zero byte, and differs from the digest of the three encodings. -/
theorem tx.NewTxHash_digests_slack_witness :
    sampleExternal.Lawful
    ∧ tx.NewTxHash sampleExternal (ascii "2") (ascii "BTC/toEthereum") none
        = (sampleExternal.NewHash
            (tx.hashEncoding sampleExternal (ascii "2") (ascii "BTC/toEthereum") none ++ [0]),
           none)
    ∧ tx.NewTxHash sampleExternal (ascii "2") (ascii "BTC/toEthereum") none
        ≠ (sampleExternal.NewHash
            (tx.hashEncoding sampleExternal (ascii "2") (ascii "BTC/toEthereum") none), none) :=
  ⟨sampleExternal_lawful,
   tx.NewTxHash_digests_slack sampleExternal_lawful (ascii "2") (ascii "BTC/toEthereum") none
     (by decide),
   by decide⟩

/-- C2: if `NewTxHash(Version1, s, in)` returns `h` without error, `NewTx(s, in)`
returns without error the transaction with that hash, `Version1`, `s`, `in` and
the zero output; if it returns the error `e`, `NewTx` returns the zero
transaction together with `e`. -/
theorem tx.NewTx_spec {Typed : Type} (E : External Typed) (s : tx.Selector) (i : Typed) :
    (∀ h, tx.NewTxHash E tx.Version1 s i = (h, none) →
      tx.NewTx E s i
        = ({ Hash := h, Version := tx.Version1, Selector := s, Input := i, Output := E.zero },
           none))
    ∧ (∀ h e, tx.NewTxHash E tx.Version1 s i = (h, some e) →
      tx.NewTx E s i = (tx.Tx.zero E, some e)) := by
  constructor
  · intro h hh
    simp only [tx.NewTx, hh]
  · intro h e hh
    simp only [tx.NewTx, hh]

/-- Witness of C2: the successful case at a concrete selector and input. -/
theorem tx.NewTx_spec_witness :
    tx.NewTxHash sampleExternal tx.Version1 (ascii "BTC/toEthereum") (some 7)
        = (sampleHash (tx.hashEncoding sampleExternal tx.Version1 (ascii "BTC/toEthereum")
            (some 7)), none)
    ∧ tx.NewTx sampleExternal (ascii "BTC/toEthereum") (some 7)
        = ({ Hash := sampleHash (tx.hashEncoding sampleExternal tx.Version1
              (ascii "BTC/toEthereum") (some 7)),
             Version := tx.Version1, Selector := ascii "BTC/toEthereum", Input := some 7,
             Output := none }, none) :=
  ⟨by decide,
   (tx.NewTx_spec sampleExternal (ascii "BTC/toEthereum") (some 7)).1 _ (by decide)⟩

/-- C3: for a transaction `t` returned without error by `NewTx`, and for one
built by `RandomGoodTx`, recomputing `NewTxHash` from `t.Version`, `t.Selector`
and `t.Input` succeeds and returns `t.Hash`, also after `t.Output` has been
replaced by any value. -/
theorem tx.NewTx_hash_reconstructible {Typed : Type} (E : External Typed) (s : tx.Selector)
    (i : Typed) (t : tx.Tx Typed) :
    (tx.NewTx E s i = (t, none) → ∀ out : Typed,
      tx.NewTxHash E ({ t with Output := out }).Version ({ t with Output := out }).Selector
        ({ t with Output := out }).Input = (({ t with Output := out }).Hash, none))
    ∧ (txutil.RandomGoodTx E s i = some t → ∀ out : Typed,
      tx.NewTxHash E ({ t with Output := out }).Version ({ t with Output := out }).Selector
        ({ t with Output := out }).Input = (({ t with Output := out }).Hash, none)) := by
  constructor
  · intro h out
    simp only []
    unfold tx.NewTx at h
    rcases hh : tx.NewTxHash E tx.Version1 s i with ⟨hash, e⟩
    rw [hh] at h
    cases e with
    | some e => simp at h
    | none =>
      simp only [Prod.mk.injEq, and_true] at h
      subst h
      exact hh
  · intro h out
    simp only []
    unfold txutil.RandomGoodTx tx.NewTx at h
    rcases hh : tx.NewTxHash E tx.Version1 s i with ⟨hash, e⟩
    rw [hh] at h
    cases e with
    | some e => simp at h
    | none =>
      simp only [hh, Option.some.injEq] at h
      subst h
      exact hh

/-- Witness of C3: a transaction built by `NewTx` and by `RandomGoodTx`, with its
output replaced. -/
theorem tx.NewTx_hash_reconstructible_witness :
    tx.NewTx sampleExternal (ascii "BTC/toEthereum") (some 7)
        = ((tx.NewTx sampleExternal (ascii "BTC/toEthereum") (some 7)).1, none)
    ∧ tx.NewTxHash sampleExternal
          (tx.NewTx sampleExternal (ascii "BTC/toEthereum") (some 7)).1.Version
          (tx.NewTx sampleExternal (ascii "BTC/toEthereum") (some 7)).1.Selector
          (tx.NewTx sampleExternal (ascii "BTC/toEthereum") (some 7)).1.Input
        = ((tx.NewTx sampleExternal (ascii "BTC/toEthereum") (some 7)).1.Hash, none)
    ∧ txutil.RandomGoodTx sampleExternal (ascii "BTC/toEthereum") (some 7)
        = some { (tx.NewTx sampleExternal (ascii "BTC/toEthereum") (some 7)).1 with
            Output := none } :=
  ⟨by decide,
   (tx.NewTx_hash_reconstructible sampleExternal (ascii "BTC/toEthereum") (some 7)
     (tx.NewTx sampleExternal (ascii "BTC/toEthereum") (some 7)).1).1 (by decide) (some 5),
   by decide⟩

/-- C4: `NewTxHashIntoBuffer` on a freshly allocated (zeroed) buffer of length
`SizeHintString(string(v)) + SizeHintString(string(s)) + SizeHint(in)` returns the
same hash and the same error outcome as `NewTxHash`. -/
theorem tx.NewTxHashIntoBuffer_fresh_eq_NewTxHash {Typed : Type} (E : External Typed)
    (v : tx.Version) (s : tx.Selector) (i : Typed) :
    tx.NewTxHashIntoBuffer E v s i
        (List.replicate (surge.SizeHintString v + surge.SizeHintString s + E.SizeHint i) 0)
      = tx.NewTxHash E v s i := rfl

/-- C5 fails as stated: for the version "2" a buffer one byte shorter than the sum
`SizeHintString(string(v)) + SizeHintString(string(s)) + SizeHint(in)` is accepted,
because `Version.Marshal` writes the empty string. -/
theorem tx.NewTxHashIntoBuffer_accepts_below_raw_sum :
    (List.replicate 23 (0 : Byte)).length
        < surge.SizeHintString (ascii "2") + surge.SizeHintString (ascii "BTC/toEthereum")
          + sampleExternal.SizeHint none
    ∧ (tx.NewTxHashIntoBuffer sampleExternal (ascii "2") (ascii "BTC/toEthereum") none
        (List.replicate 23 0)).2 = none := by
  decide

/-- C5 (amended): a caller buffer strictly shorter than
`Version.SizeHint(v) + SizeHintString(string(s)) + SizeHint(in)`, the sum of the
sizes the three encodes write, makes `NewTxHashIntoBuffer` return an error and
the zero hash. -/
theorem tx.NewTxHashIntoBuffer_rejects_short_buffer {Typed : Type} {E : External Typed}
    (hE : E.Lawful) (v : tx.Version) (s : tx.Selector) (i : Typed) (data : Bytes)
    (hshort : data.length < tx.Version.SizeHint v + surge.SizeHintString s + E.SizeHint i) :
    ∃ e, tx.NewTxHashIntoBuffer E v s i data = (id.Hash.zero, some e) := by
  apply tx.NewTxHashIntoBuffer_err hE
  left
  rw [tx.length_hashEncoding hE]
  exact hshort

/-- Witness of C5 (amended): version "1" and a buffer one byte too short. -/
theorem tx.NewTxHashIntoBuffer_rejects_short_buffer_witness :
    sampleExternal.Lawful
    ∧ (List.replicate 23 (0 : Byte)).length
        < tx.Version.SizeHint tx.Version1 + surge.SizeHintString (ascii "BTC/toEthereum")
          + sampleExternal.SizeHint none
    ∧ ∃ e, tx.NewTxHashIntoBuffer sampleExternal tx.Version1 (ascii "BTC/toEthereum") none
        (List.replicate 23 0) = (id.Hash.zero, some e) :=
  ⟨sampleExternal_lawful, by decide,
   tx.NewTxHashIntoBuffer_rejects_short_buffer sampleExternal_lawful tx.Version1
     (ascii "BTC/toEthereum") none (List.replicate 23 0) (by decide)⟩

theorem surge.getU32_putU32 (n : Nat) (hn : n < 4294967296) (rest : Bytes) :
    surge.getU32 (surge.putU32 n ++ rest) = n := by
  simp only [surge.putU32, surge.getU32, List.cons_append, List.nil_append, Fin.ofNat]
  omega

theorem surge.decodes_UnmarshalString (v : Bytes) (hv : v.length < 4294967296) :
    Decodes surge.UnmarshalString (surge.encodeString v) v := by
  have hmod : v.length % 4294967296 = v.length := Nat.mod_eq_of_lt hv
  have hdrop : ∀ rest : Bytes,
      List.drop 4 (surge.putU32 v.length ++ (v ++ rest)) = v ++ rest := by
    intro rest; rfl
  have hget : ∀ rest : Bytes, surge.getU32 (surge.putU32 v.length ++ (v ++ rest)) = v.length :=
    fun rest => surge.getU32_putU32 v.length hv (v ++ rest)
  constructor
  · intro x0 rest rem h
    rw [surge.length_encodeString] at h
    simp only [surge.SizeHintString, surge.SizeHintU32] at h
    have hc : ¬ ((surge.putU32 v.length ++ (v ++ rest)).length < 4 ∨ rem < ((4 : Nat) : Int)) := by
      simp only [List.length_append, surge.length_putU32]; push_cast at h ⊢; omega
    have hc2 : ¬ ((v ++ rest).length < v.length ∨ rem - ((4 : Nat) : Int) < (v.length : Int)) := by
      simp only [List.length_append]; push_cast at h ⊢; omega
    rw [surge.length_encodeString]
    simp only [surge.UnmarshalString, surge.encodeString, hmod, List.append_assoc,
      surge.SizeHintU32, if_neg hc, hdrop, hget, if_neg hc2, List.take_left', List.drop_left',
      surge.SizeHintString]
    congr 1
    push_cast; omega
  · intro x0 rest rem h
    rw [surge.length_encodeString] at h
    simp only [surge.SizeHintString, surge.SizeHintU32] at h
    by_cases hc : (surge.putU32 v.length ++ (v ++ rest)).length < 4 ∨ rem < ((4 : Nat) : Int)
    · simp only [surge.UnmarshalString, surge.encodeString, hmod, List.append_assoc,
        surge.SizeHintU32, if_pos hc]
      simp
    · have hc2 : (v ++ rest).length < v.length ∨ rem - ((4 : Nat) : Int) < (v.length : Int) := by
        right; push_cast at h ⊢; omega
      simp only [surge.UnmarshalString, surge.encodeString, hmod, List.append_assoc,
        surge.SizeHintU32, if_neg hc, hdrop, hget, if_pos hc2]
      simp

theorem id.decodes_HashUnmarshal (h : id.Hash) : Decodes id.Hash.Unmarshal h.val h := by
  constructor
  · intro x0 rest rem hr
    rw [h.property] at hr
    have hc : ¬ ((h.val ++ rest).length < 32 ∨ rem < 32) := by
      simp only [List.length_append, h.property]; push_cast at hr; omega
    simp only [id.Hash.Unmarshal, dif_neg hc]
    have ht : List.take 32 (h.val ++ rest) = h.val := List.take_left' h.property
    have hd : List.drop 32 (h.val ++ rest) = rest := List.drop_left' h.property
    simp only [ht, hd, h.property]
    rfl
  · intro x0 rest rem hr
    rw [h.property] at hr
    have hc : (h.val ++ rest).length < 32 ∨ rem < 32 := by
      right; push_cast at hr; omega
    simp only [id.Hash.Unmarshal, dif_pos hc]
    simp

theorem External.Lawful.decodes {Typed : Type} {E : External Typed} (hE : E.Lawful)
    (x : Typed) : Decodes E.Unmarshal (E.encode x) x := by
  constructor
  · intro x0 rest rem h
    rw [hE.size_encode] at h ⊢
    exact hE.unmarshal_ok x0 x rest rem h
  · intro x0 rest rem h
    rw [hE.size_encode] at h
    exact hE.unmarshal_err x0 x rest rem h

theorem tx.length_VersionString_lt (v : tx.Version) :
    (tx.Version.String v).length < 4294967296 := by
  unfold tx.Version.String
  split
  · decide
  · split <;> decide

theorem tx.decodes_TxUnmarshal {Typed : Type} {E : External Typed} (hE : E.Lawful)
    (t : tx.Tx Typed) (hs : t.Selector.length < 4294967296) :
    Decodes (tx.Tx.Unmarshal E) (tx.Tx.encode E t)
      { t with Version := tx.Version.String t.Version } := by
  have d1 := id.decodes_HashUnmarshal t.Hash
  have d2 := surge.decodes_UnmarshalString (tx.Version.String t.Version)
    (tx.length_VersionString_lt t.Version)
  have d3 := surge.decodes_UnmarshalString t.Selector hs
  have d4 := hE.decodes t.Input
  have d5 := hE.decodes t.Output
  constructor
  · intro t0 rest rem h
    simp only [tx.Tx.encode, List.length_append] at h ⊢
    push_cast at h
    have e1 := fun x0 => d1.ok x0 (surge.encodeString (tx.Version.String t.Version)
      ++ (surge.encodeString t.Selector ++ (E.encode t.Input ++ (E.encode t.Output ++ rest))))
      rem (by omega)
    have e2 := fun x0 => d2.ok x0 (surge.encodeString t.Selector
      ++ (E.encode t.Input ++ (E.encode t.Output ++ rest))) (rem - t.Hash.val.length) (by omega)
    have e3 := fun x0 => d3.ok x0 (E.encode t.Input ++ (E.encode t.Output ++ rest))
      (rem - t.Hash.val.length - (surge.encodeString (tx.Version.String t.Version)).length)
      (by omega)
    have e4 := fun x0 => d4.ok x0 (E.encode t.Output ++ rest)
      (rem - t.Hash.val.length - (surge.encodeString (tx.Version.String t.Version)).length
        - (surge.encodeString t.Selector).length) (by omega)
    have e5 := fun x0 => d5.ok x0 rest
      (rem - t.Hash.val.length - (surge.encodeString (tx.Version.String t.Version)).length
        - (surge.encodeString t.Selector).length - (E.encode t.Input).length) (by omega)
    simp only [tx.Tx.Unmarshal, tx.Version.Unmarshal, tx.Selector.Unmarshal, List.append_assoc,
      e1, e2, e3, e4, e5]
    congr 1
    push_cast; omega
  · intro t0 rest rem h
    simp only [tx.Tx.encode, List.length_append] at h ⊢
    push_cast at h
    simp only [tx.Tx.Unmarshal, tx.Version.Unmarshal, tx.Selector.Unmarshal, List.append_assoc]
    by_cases c1 : (t.Hash.val.length : Int) ≤ rem
    · have e1 := fun x0 => d1.ok x0 (surge.encodeString (tx.Version.String t.Version)
        ++ (surge.encodeString t.Selector ++ (E.encode t.Input ++ (E.encode t.Output ++ rest))))
        rem c1
      simp only [e1]
      by_cases c2 : ((surge.encodeString (tx.Version.String t.Version)).length : Int)
          ≤ rem - t.Hash.val.length
      · have e2 := fun x0 => d2.ok x0 (surge.encodeString t.Selector
          ++ (E.encode t.Input ++ (E.encode t.Output ++ rest))) (rem - t.Hash.val.length) c2
        simp only [e2]
        by_cases c3 : ((surge.encodeString t.Selector).length : Int)
            ≤ rem - t.Hash.val.length
              - (surge.encodeString (tx.Version.String t.Version)).length
        · have e3 := fun x0 => d3.ok x0 (E.encode t.Input ++ (E.encode t.Output ++ rest))
            (rem - t.Hash.val.length - (surge.encodeString (tx.Version.String t.Version)).length)
            c3
          simp only [e3]
          by_cases c4 : ((E.encode t.Input).length : Int)
              ≤ rem - t.Hash.val.length
                - (surge.encodeString (tx.Version.String t.Version)).length
                - (surge.encodeString t.Selector).length
          · have e4 := fun x0 => d4.ok x0 (E.encode t.Output ++ rest)
              (rem - t.Hash.val.length
                - (surge.encodeString (tx.Version.String t.Version)).length
                - (surge.encodeString t.Selector).length) c4
            simp only [e4]
            exact d5.err _ rest _ (by omega)
          · have f4 := d4.err t0.Input (E.encode t.Output ++ rest)
              (rem - t.Hash.val.length
                - (surge.encodeString (tx.Version.String t.Version)).length
                - (surge.encodeString t.Selector).length) (by omega)
            cases hr : (E.Unmarshal t0.Input (E.encode t.Input ++ (E.encode t.Output ++ rest))
                (rem - t.Hash.val.length
                  - (surge.encodeString (tx.Version.String t.Version)).length
                  - (surge.encodeString t.Selector).length)).err with
            | none => exact absurd hr f4
            | some e => simp
        · have f3 := d3.err t0.Selector (E.encode t.Input ++ (E.encode t.Output ++ rest))
            (rem - t.Hash.val.length - (surge.encodeString (tx.Version.String t.Version)).length)
            (by omega)
          cases hr : (surge.UnmarshalString t0.Selector
              (surge.encodeString t.Selector ++ (E.encode t.Input ++ (E.encode t.Output ++ rest)))
              (rem - t.Hash.val.length
                - (surge.encodeString (tx.Version.String t.Version)).length)).err with
          | none => exact absurd hr f3
          | some e => simp
      · have f2 := d2.err t0.Version (surge.encodeString t.Selector
          ++ (E.encode t.Input ++ (E.encode t.Output ++ rest))) (rem - t.Hash.val.length)
          (by omega)
        cases hr : (surge.UnmarshalString t0.Version
            (surge.encodeString (tx.Version.String t.Version) ++ (surge.encodeString t.Selector
              ++ (E.encode t.Input ++ (E.encode t.Output ++ rest))))
            (rem - t.Hash.val.length)).err with
        | none => exact absurd hr f2
        | some e => simp
    · have f1 := d1.err t0.Hash (surge.encodeString (tx.Version.String t.Version)
        ++ (surge.encodeString t.Selector ++ (E.encode t.Input ++ (E.encode t.Output ++ rest))))
        rem (by omega)
      cases hr : (id.Hash.Unmarshal t0.Hash (t.Hash.val
          ++ (surge.encodeString (tx.Version.String t.Version) ++ (surge.encodeString t.Selector
            ++ (E.encode t.Input ++ (E.encode t.Output ++ rest))))) rem).err with
      | none => exact absurd hr f1
      | some e => simp

theorem tx.WithStatusUnmarshal_ok {Typed : Type} {E : External Typed} (hE : E.Lawful)
    (w : tx.WithStatus Typed) (hs : w.Tx.Selector.length < 4294967296)
    (w0 : tx.WithStatus Typed) (rest : Bytes) (rem : Int)
    (h : (tx.WithStatus.SizeHint E w : Int) ≤ rem) :
    tx.WithStatus.Unmarshal E w0 ((tx.Tx.encode E w.Tx ++ [w.Status]) ++ rest) rem
      = ⟨{ Tx := { w.Tx with Version := tx.Version.String w.Tx.Version }, Status := w.Status },
          rest, rem - tx.WithStatus.SizeHint E w, none⟩ := by
  have hlen := tx.length_TxEncode hE w.Tx
  simp only [tx.WithStatus.SizeHint, surge.SizeHintU8] at h ⊢
  have e1 := (tx.decodes_TxUnmarshal hE w.Tx hs).ok w0.Tx (w.Status :: rest) rem
    (by rw [hlen]; push_cast at h; omega)
  have hc : ¬ (rem - ((tx.Tx.encode E w.Tx).length : Int) < ((1 : Nat) : Int)) := by
    rw [hlen]; push_cast at h ⊢; omega
  simp only [tx.WithStatus.Unmarshal, List.append_assoc, List.singleton_append, e1,
    surge.UnmarshalU8, surge.SizeHintU8, if_neg hc]
  congr 1
  rw [hlen]; push_cast; omega

theorem tx.WithStatusUnmarshal_truncated {Typed : Type} {E : External Typed} (hE : E.Lawful)
    (w : tx.WithStatus Typed) (hs : w.Tx.Selector.length < 4294967296)
    (w0 : tx.WithStatus Typed) (rem : Int) :
    (tx.WithStatus.Unmarshal E w0 (tx.Tx.encode E w.Tx) rem).err ≠ none := by
  have hd := tx.decodes_TxUnmarshal hE w.Tx hs
  have happ : tx.Tx.encode E w.Tx = tx.Tx.encode E w.Tx ++ [] := (List.append_nil _).symm
  rw [happ]
  by_cases c : ((tx.Tx.encode E w.Tx).length : Int) ≤ rem
  · have e1 := hd.ok w0.Tx [] rem c
    simp only [tx.WithStatus.Unmarshal, e1, surge.UnmarshalU8]
    simp
  · have f1 := hd.err w0.Tx [] rem (by omega)
    simp only [tx.WithStatus.Unmarshal]
    cases hr : (tx.Tx.Unmarshal E w0.Tx (tx.Tx.encode E w.Tx ++ []) rem).err with
    | none => exact absurd hr f1
    | some e => simp

theorem tx.WithStatusUnmarshal_quota {Typed : Type} {E : External Typed} (hE : E.Lawful)
    (w : tx.WithStatus Typed) (hs : w.Tx.Selector.length < 4294967296)
    (w0 : tx.WithStatus Typed) :
    (tx.WithStatus.Unmarshal E w0 (tx.Tx.encode E w.Tx ++ [w.Status])
      ((tx.Tx.encode E w.Tx).length : Int)).err ≠ none := by
  have e1 := (tx.decodes_TxUnmarshal hE w.Tx hs).ok w0.Tx [w.Status]
    ((tx.Tx.encode E w.Tx).length : Int) (le_refl _)
  simp only [tx.WithStatus.Unmarshal, e1, surge.UnmarshalU8, surge.SizeHintU8]
  simp

theorem tx.length_Selector_lt {Typed : Type} (E : External Typed) (w : tx.WithStatus Typed)
    (h : (tx.WithStatus.SizeHint E w : Int) ≤ surge.MaxBytes) :
    w.Tx.Selector.length < 4294967296 := by
  simp only [tx.WithStatus.SizeHint, tx.Tx.SizeHint, tx.Selector.SizeHint, surge.SizeHintString,
    surge.MaxBytes] at h
  push_cast at h
  omega

/-- C6 fails as stated: a `WithStatus` with the version "2" is marshaled into a
buffer of `SizeHint(w)` bytes without error, the bytes unmarshal without error,
and the value read back has the empty version, not "2". -/
theorem tx.WithStatus_roundtrip_loses_unknown_version :
    (tx.WithStatus.Marshal sampleExternal (sampleWithStatus (ascii "2"))
        (List.replicate (tx.WithStatus.SizeHint sampleExternal (sampleWithStatus (ascii "2"))) 0)
        surge.MaxBytes).err = none
    ∧ (tx.WithStatus.Unmarshal sampleExternal (tx.WithStatus.zero sampleExternal)
        (tx.WithStatus.Marshal sampleExternal (sampleWithStatus (ascii "2"))
          (List.replicate (tx.WithStatus.SizeHint sampleExternal (sampleWithStatus (ascii "2"))) 0)
          surge.MaxBytes).written surge.MaxBytes).err = none
    ∧ (tx.WithStatus.Unmarshal sampleExternal (tx.WithStatus.zero sampleExternal)
        (tx.WithStatus.Marshal sampleExternal (sampleWithStatus (ascii "2"))
          (List.replicate (tx.WithStatus.SizeHint sampleExternal (sampleWithStatus (ascii "2"))) 0)
          surge.MaxBytes).written surge.MaxBytes).val ≠ sampleWithStatus (ascii "2")
    ∧ (tx.WithStatus.Unmarshal sampleExternal (tx.WithStatus.zero sampleExternal)
        (tx.WithStatus.Marshal sampleExternal (sampleWithStatus (ascii "2"))
          (List.replicate (tx.WithStatus.SizeHint sampleExternal (sampleWithStatus (ascii "2"))) 0)
          surge.MaxBytes).written surge.MaxBytes).val = sampleWithStatus (ascii "") := by
  decide

/-- C6 (amended): for a `WithStatus` whose version is "0", "1" or the empty
string and whose size fits the quota, marshaling into a buffer of `SizeHint(w)`
bytes succeeds and fills the buffer, and unmarshaling the bytes into a fresh
`WithStatus` succeeds, consumes all of them and yields `w`. -/
theorem tx.WithStatus_roundtrip {Typed : Type} {E : External Typed} (hE : E.Lawful)
    (w : tx.WithStatus Typed) (buf : Bytes) (rem rem' : Int)
    (hv : w.Tx.Version = tx.Version0 ∨ w.Tx.Version = tx.Version1 ∨ w.Tx.Version = [])
    (hbuf : buf.length = tx.WithStatus.SizeHint E w)
    (hrem : (tx.WithStatus.SizeHint E w : Int) ≤ rem) (hmax : rem ≤ surge.MaxBytes)
    (hrem' : (tx.WithStatus.SizeHint E w : Int) ≤ rem') :
    (tx.WithStatus.Marshal E w buf rem).err = none
    ∧ (tx.WithStatus.Marshal E w buf rem).buf = []
    ∧ tx.WithStatus.Unmarshal E (tx.WithStatus.zero E) (tx.WithStatus.Marshal E w buf rem).written
        rem' = ⟨w, [], rem' - tx.WithStatus.SizeHint E w, none⟩ := by
  have hs := tx.length_Selector_lt E w (le_trans hrem hmax)
  have hB := tx.bounded_WithStatusMarshal hE w
  have hlen : (tx.Tx.encode E w.Tx ++ [w.Status]).length = tx.WithStatus.SizeHint E w := by
    simp only [List.length_append, List.length_singleton, tx.length_TxEncode hE,
      tx.WithStatus.SizeHint, surge.SizeHintU8]
  have hm := hB.ok buf rem (by rw [hlen, hbuf]) (by rw [hlen]; exact hrem)
  have hvs : tx.Version.String w.Tx.Version = w.Tx.Version := by
    rcases hv with h | h | h <;> rw [h] <;> decide
  rw [hm]
  refine ⟨rfl, ?_, ?_⟩
  · simp only [hlen, ← hbuf, List.drop_length]
  · have hu := tx.WithStatusUnmarshal_ok hE w hs (tx.WithStatus.zero E) [] rem' hrem'
    rw [List.append_nil] at hu
    simp only [hu, hvs]

/-- Witness of C6 (amended): the round trip at version "1". -/
theorem tx.WithStatus_roundtrip_witness :
    sampleExternal.Lawful
    ∧ (tx.WithStatus.Marshal sampleExternal (sampleWithStatus tx.Version1)
        (List.replicate 59 0) 100).err = none
    ∧ (tx.WithStatus.Marshal sampleExternal (sampleWithStatus tx.Version1)
        (List.replicate 59 0) 100).buf = []
    ∧ tx.WithStatus.Unmarshal sampleExternal (tx.WithStatus.zero sampleExternal)
        (tx.WithStatus.Marshal sampleExternal (sampleWithStatus tx.Version1)
          (List.replicate 59 0) 100).written 59
        = ⟨sampleWithStatus tx.Version1, [],
            59 - tx.WithStatus.SizeHint sampleExternal (sampleWithStatus tx.Version1), none⟩ :=
  ⟨sampleExternal_lawful,
   tx.WithStatus_roundtrip sampleExternal_lawful (sampleWithStatus tx.Version1)
     (List.replicate 59 0) 100 59 (by decide) (by decide) (by decide) (by decide) (by decide)⟩

/-- C7: with buffer and quota large enough, `WithStatus.Marshal` succeeds and the
bytes it writes are the bytes written by marshaling `w.Tx` (hash, version,
selector, input, output, in that order) followed by exactly one byte, the numeric
value of `w.Status`; the named statuses have the values 0, 1, 2, 3 and 4. -/
theorem tx.WithStatus_Marshal_layout {Typed : Type} {E : External Typed} (hE : E.Lawful)
    (w : tx.WithStatus Typed) (buf : Bytes) (rem : Int)
    (hbuf : tx.WithStatus.SizeHint E w ≤ buf.length)
    (hrem : (tx.WithStatus.SizeHint E w : Int) ≤ rem) :
    (tx.WithStatus.Marshal E w buf rem).err = none
    ∧ (tx.WithStatus.Marshal E w buf rem).written
        = (tx.Tx.Marshal E w.Tx buf rem).written ++ [w.Status]
    ∧ (tx.Tx.Marshal E w.Tx buf rem).written
        = w.Tx.Hash.val ++ (tx.Version.Marshal w.Tx.Version buf rem).written
          ++ (tx.Selector.Marshal w.Tx.Selector buf rem).written
          ++ E.encode w.Tx.Input ++ E.encode w.Tx.Output
    ∧ (tx.Version.Marshal w.Tx.Version buf rem).written
        = surge.putU32 (tx.Version.String w.Tx.Version).length ++ tx.Version.String w.Tx.Version
    ∧ (tx.StatusNil.val = 0 ∧ tx.StatusConfirming.val = 1 ∧ tx.StatusPending.val = 2
        ∧ tx.StatusExecuting.val = 3 ∧ tx.StatusDone.val = 4) := by
  have hB := tx.bounded_WithStatusMarshal hE w
  have hT := tx.bounded_TxMarshal hE w.Tx
  have hlenT := tx.length_TxEncode hE w.Tx
  have hlen : (tx.Tx.encode E w.Tx ++ [w.Status]).length = tx.WithStatus.SizeHint E w := by
    simp only [List.length_append, List.length_singleton, hlenT,
      tx.WithStatus.SizeHint, surge.SizeHintU8]
  have hsz : tx.Tx.SizeHint E w.Tx + 1 = tx.WithStatus.SizeHint E w := rfl
  have hm := hB.ok buf rem (by rw [hlen]; exact hbuf) (by rw [hlen]; exact hrem)
  have ht := hT.ok buf rem (by rw [hlenT]; omega) (by rw [hlenT]; omega)
  have hszT : tx.Tx.SizeHint E w.Tx = 32 + tx.Version.SizeHint w.Tx.Version
      + tx.Selector.SizeHint w.Tx.Selector + E.SizeHint w.Tx.Input + E.SizeHint w.Tx.Output :=
    rfl
  have hv := (surge.bounded_MarshalString (tx.Version.String w.Tx.Version)).ok buf rem
    (by rw [surge.length_encodeString]; simp only [tx.Version.SizeHint] at hszT; omega)
    (by rw [surge.length_encodeString]; simp only [tx.Version.SizeHint] at hszT; omega)
  have hs := (surge.bounded_MarshalString w.Tx.Selector).ok buf rem
    (by rw [surge.length_encodeString]; simp only [tx.Selector.SizeHint] at hszT; omega)
    (by rw [surge.length_encodeString]; simp only [tx.Selector.SizeHint] at hszT; omega)
  have hmod : (tx.Version.String w.Tx.Version).length % 4294967296
      = (tx.Version.String w.Tx.Version).length :=
    Nat.mod_eq_of_lt (tx.length_VersionString_lt _)
  refine ⟨by rw [hm], by rw [hm, ht], ?_, ?_, by decide⟩
  · rw [ht]
    simp only [tx.Version.Marshal, tx.Selector.Marshal, hv, hs, tx.Tx.encode]
  · simp only [tx.Version.Marshal, hv, surge.encodeString, hmod]

/-- Witness of C7: a concrete status-tagged transaction, marshaled into a longer
buffer. -/
theorem tx.WithStatus_Marshal_layout_witness :
    sampleExternal.Lawful
    ∧ (tx.WithStatus.Marshal sampleExternal (sampleWithStatus tx.Version1)
        (List.replicate 64 9) 100).err = none
    ∧ (tx.WithStatus.Marshal sampleExternal (sampleWithStatus tx.Version1)
        (List.replicate 64 9) 100).written
      = (tx.Tx.Marshal sampleExternal (sampleWithStatus tx.Version1).Tx
          (List.replicate 64 9) 100).written ++ [2]
    ∧ (tx.WithStatus.Marshal sampleExternal (sampleWithStatus tx.Version1)
        (List.replicate 64 9) 100).written
      = List.replicate 32 0 ++ [0, 0, 0, 1, 49] ++ ([0, 0, 0, 14] ++ ascii "BTC/toEthereum")
        ++ [1, 7] ++ [0] ++ [2] :=
  ⟨sampleExternal_lawful,
   (tx.WithStatus_Marshal_layout sampleExternal_lawful (sampleWithStatus tx.Version1)
      (List.replicate 64 9) 100 (by decide) (by decide)).1,
   (tx.WithStatus_Marshal_layout sampleExternal_lawful (sampleWithStatus tx.Version1)
      (List.replicate 64 9) 100 (by decide) (by decide)).2.1,
   by decide⟩

/-- C8: `WithStatus.SizeHint(w)` is `SizeHint(w.Tx) + 1`, and every successful
`WithStatus.Marshal` writes exactly `SizeHint(w)` bytes, returns the buffer
advanced by that many bytes and the quota lowered by `SizeHint(w)`. -/
theorem tx.WithStatus_SizeHint_exact {Typed : Type} {E : External Typed} (hE : E.Lawful)
    (w : tx.WithStatus Typed) :
    tx.WithStatus.SizeHint E w = tx.Tx.SizeHint E w.Tx + 1
    ∧ ∀ (buf : Bytes) (rem : Int), (tx.WithStatus.Marshal E w buf rem).err = none →
        (tx.WithStatus.Marshal E w buf rem).written.length = tx.WithStatus.SizeHint E w
        ∧ (tx.WithStatus.Marshal E w buf rem).buf = buf.drop (tx.WithStatus.SizeHint E w)
        ∧ (tx.WithStatus.Marshal E w buf rem).rem = rem - tx.WithStatus.SizeHint E w := by
  refine ⟨rfl, ?_⟩
  intro buf rem hok
  have hB := tx.bounded_WithStatusMarshal hE w
  have hlen : (tx.Tx.encode E w.Tx ++ [w.Status]).length = tx.WithStatus.SizeHint E w := by
    simp only [List.length_append, List.length_singleton, tx.length_TxEncode hE,
      tx.WithStatus.SizeHint, surge.SizeHintU8]
  have hfit := (hB.err_none_iff buf rem).1 hok
  have hm := hB.ok buf rem hfit.1 hfit.2
  rw [hm]
  simp only [hlen, and_self]

/-- Witness of C8: a successful marshal into a longer buffer. -/
theorem tx.WithStatus_SizeHint_exact_witness :
    sampleExternal.Lawful
    ∧ (tx.WithStatus.Marshal sampleExternal (sampleWithStatus tx.Version1)
        (List.replicate 64 9) 100).err = none
    ∧ (tx.WithStatus.Marshal sampleExternal (sampleWithStatus tx.Version1)
        (List.replicate 64 9) 100).written.length = 59
    ∧ (tx.WithStatus.Marshal sampleExternal (sampleWithStatus tx.Version1)
        (List.replicate 64 9) 100).buf = List.replicate 5 9
    ∧ (tx.WithStatus.Marshal sampleExternal (sampleWithStatus tx.Version1)
        (List.replicate 64 9) 100).rem = 41 :=
  ⟨sampleExternal_lawful, by decide,
   (tx.WithStatus_SizeHint_exact sampleExternal_lawful (sampleWithStatus tx.Version1)).2
     (List.replicate 64 9) 100 (by decide)⟩

/-- C9: `WithStatus.Marshal` fails when the buffer has `SizeHint(w) - 1` bytes,
whatever the quota, and when the quota is `SizeHint(w) - 1`, whatever the buffer;
this is the case where only the final status byte does not fit. -/
theorem tx.WithStatus_Marshal_one_short {Typed : Type} {E : External Typed} (hE : E.Lawful)
    (w : tx.WithStatus Typed) :
    (∀ (buf : Bytes) (rem : Int), buf.length = tx.WithStatus.SizeHint E w - 1 →
        (tx.WithStatus.Marshal E w buf rem).err ≠ none)
    ∧ (∀ (buf : Bytes) (rem : Int), rem = (tx.WithStatus.SizeHint E w : Int) - 1 →
        (tx.WithStatus.Marshal E w buf rem).err ≠ none) := by
  have hB := tx.bounded_WithStatusMarshal hE w
  have hlen : (tx.Tx.encode E w.Tx ++ [w.Status]).length = tx.WithStatus.SizeHint E w := by
    simp only [List.length_append, List.length_singleton, tx.length_TxEncode hE,
      tx.WithStatus.SizeHint, surge.SizeHintU8]
  have hpos : 1 ≤ tx.WithStatus.SizeHint E w := by
    simp only [tx.WithStatus.SizeHint, surge.SizeHintU8]; omega
  constructor
  · intro buf rem h
    exact hB.err buf rem (by rw [hlen]; left; omega)
  · intro buf rem h
    exact hB.err buf rem (by rw [hlen]; right; omega)

/-- Witness of C9: a buffer, and a quota, one byte short. -/
theorem tx.WithStatus_Marshal_one_short_witness :
    sampleExternal.Lawful
    ∧ (tx.WithStatus.Marshal sampleExternal (sampleWithStatus tx.Version1)
        (List.replicate 58 0) 100).err ≠ none
    ∧ (tx.WithStatus.Marshal sampleExternal (sampleWithStatus tx.Version1)
        (List.replicate 64 0) 58).err ≠ none :=
  ⟨sampleExternal_lawful,
   (tx.WithStatus_Marshal_one_short sampleExternal_lawful (sampleWithStatus tx.Version1)).1
     (List.replicate 58 0) 100 (by decide),
   (tx.WithStatus_Marshal_one_short sampleExternal_lawful (sampleWithStatus tx.Version1)).2
     (List.replicate 64 0) 58 (by decide)⟩

/-- C10: for a `WithStatus` whose encoding `e`, of length `n = SizeHint(w)`, was
produced within the quota, `WithStatus.Unmarshal` fails when given only the first
`n - 1` bytes of `e` (whatever the quota) and when given all of `e` with a quota
of `n - 1`. -/
theorem tx.WithStatus_Unmarshal_one_short {Typed : Type} {E : External Typed} (hE : E.Lawful)
    (w : tx.WithStatus Typed) (buf : Bytes) (rem : Int) (hmax : rem ≤ surge.MaxBytes)
    (hok : (tx.WithStatus.Marshal E w buf rem).err = none) :
    (tx.WithStatus.Marshal E w buf rem).written.length = tx.WithStatus.SizeHint E w
    ∧ (∀ (w0 : tx.WithStatus Typed) (rem' : Int),
        (tx.WithStatus.Unmarshal E w0
          ((tx.WithStatus.Marshal E w buf rem).written.take (tx.WithStatus.SizeHint E w - 1))
          rem').err ≠ none)
    ∧ (∀ (w0 : tx.WithStatus Typed),
        (tx.WithStatus.Unmarshal E w0 (tx.WithStatus.Marshal E w buf rem).written
          ((tx.WithStatus.SizeHint E w : Int) - 1)).err ≠ none) := by
  have hB := tx.bounded_WithStatusMarshal hE w
  have hlenT := tx.length_TxEncode hE w.Tx
  have hlen : (tx.Tx.encode E w.Tx ++ [w.Status]).length = tx.WithStatus.SizeHint E w := by
    simp only [List.length_append, List.length_singleton, hlenT,
      tx.WithStatus.SizeHint, surge.SizeHintU8]
  have hfit := (hB.err_none_iff buf rem).1 hok
  have hm := hB.ok buf rem hfit.1 hfit.2
  have hs := tx.length_Selector_lt E w (by rw [← hlen]; exact le_trans hfit.2 hmax)
  have hsz : tx.WithStatus.SizeHint E w - 1 = (tx.Tx.encode E w.Tx).length := by
    rw [hlenT]; rfl
  rw [hm]
  refine ⟨hlen, ?_, ?_⟩
  · intro w0 rem'
    simp only [hsz, List.take_left']
    exact tx.WithStatusUnmarshal_truncated hE w hs w0 rem'
  · intro w0
    have hq : ((tx.WithStatus.SizeHint E w : Int) - 1) = ((tx.Tx.encode E w.Tx).length : Int) := by
      rw [hlenT]; simp only [tx.WithStatus.SizeHint, surge.SizeHintU8]; push_cast; omega
    simp only [hq]
    exact tx.WithStatusUnmarshal_quota hE w hs w0

/-- Witness of C10: the encoding of a concrete value, cut by one byte and read
with a quota one byte short. -/
theorem tx.WithStatus_Unmarshal_one_short_witness :
    sampleExternal.Lawful
    ∧ (tx.WithStatus.Marshal sampleExternal (sampleWithStatus tx.Version1)
        (List.replicate 59 0) 59).written.length = 59
    ∧ (tx.WithStatus.Unmarshal sampleExternal (tx.WithStatus.zero sampleExternal)
        ((tx.WithStatus.Marshal sampleExternal (sampleWithStatus tx.Version1)
          (List.replicate 59 0) 59).written.take 58) 100).err ≠ none
    ∧ (tx.WithStatus.Unmarshal sampleExternal (tx.WithStatus.zero sampleExternal)
        (tx.WithStatus.Marshal sampleExternal (sampleWithStatus tx.Version1)
          (List.replicate 59 0) 59).written 58).err ≠ none :=
  ⟨sampleExternal_lawful,
   (tx.WithStatus_Unmarshal_one_short sampleExternal_lawful (sampleWithStatus tx.Version1)
      (List.replicate 59 0) 59 (by decide) (by decide)).1,
   (tx.WithStatus_Unmarshal_one_short sampleExternal_lawful (sampleWithStatus tx.Version1)
      (List.replicate 59 0) 59 (by decide) (by decide)).2.1
      (tx.WithStatus.zero sampleExternal) 100,
   (tx.WithStatus_Unmarshal_one_short sampleExternal_lawful (sampleWithStatus tx.Version1)
      (List.replicate 59 0) 59 (by decide) (by decide)).2.2
      (tx.WithStatus.zero sampleExternal)⟩

/-! ## Status text form and version string -/

theorem tx.Status_String_out_of_range (s : tx.Status) (hs : 5 ≤ s.val) :
    tx.Status.String s = ascii "" := by
  have h0 : s ≠ tx.StatusNil := by intro h; rw [h] at hs; revert hs; decide
  have h1 : s ≠ tx.StatusConfirming := by intro h; rw [h] at hs; revert hs; decide
  have h2 : s ≠ tx.StatusPending := by intro h; rw [h] at hs; revert hs; decide
  have h3 : s ≠ tx.StatusExecuting := by intro h; rw [h] at hs; revert hs; decide
  have h4 : s ≠ tx.StatusDone := by intro h; rw [h] at hs; revert hs; decide
  simp only [tx.Status.String, if_neg h0, if_neg h1, if_neg h2, if_neg h3, if_neg h4]

theorem tx.Status_UnmarshalText_empty (s0 : tx.Status) :
    tx.Status.UnmarshalText s0 (ascii "")
      = (s0, some (Error.Errorf (ascii "non-exhaustive pattern: status "))) := by
  rfl

/-- C11: `Status.String` returns "nil" for 0, "confirming" for 1, "pending" for
2, "executing" for 3, "done" for 4 and the empty string for every value 5..255;
`Status.MarshalText` returns the bytes of that string and no error, for every
status value. -/
theorem tx.Status_String_table :
    tx.Status.String 0 = ascii "nil"
    ∧ tx.Status.String 1 = ascii "confirming"
    ∧ tx.Status.String 2 = ascii "pending"
    ∧ tx.Status.String 3 = ascii "executing"
    ∧ tx.Status.String 4 = ascii "done"
    ∧ (∀ s : tx.Status, 5 ≤ s.val → tx.Status.String s = ascii "")
    ∧ (∀ s : tx.Status, tx.Status.MarshalText s = (tx.Status.String s, none)) :=
  ⟨by decide, by decide, by decide, by decide, by decide,
   tx.Status_String_out_of_range, fun _ => rfl⟩

/-- Witness of C11: the unknown status 255 of the test table. -/
theorem tx.Status_String_table_witness :
    5 ≤ (255 : tx.Status).val ∧ tx.Status.String 255 = ascii ""
    ∧ tx.Status.MarshalText 255 = (ascii "", none) :=
  ⟨by decide, tx.Status_String_table.2.2.2.2.2.1 255 (by decide), by decide⟩

/-- C12: for each of the five named statuses `s` (0..4), `UnmarshalText` applied
to `MarshalText(s)` succeeds and sets the receiver to `s`; for every other status
(5..255), `MarshalText(s)` is the empty text and `UnmarshalText` applied to it
fails. -/
theorem tx.Status_text_roundtrip (s : tx.Status) :
    (s.val ≤ 4 → ∀ s0 : tx.Status,
      tx.Status.UnmarshalText s0 (tx.Status.MarshalText s).1 = (s, none))
    ∧ (5 ≤ s.val → (tx.Status.MarshalText s).1 = ascii ""
        ∧ ∀ s0 : tx.Status, (tx.Status.UnmarshalText s0 (tx.Status.MarshalText s).1).2 ≠ none) := by
  constructor
  · intro hs s0
    rcases s with ⟨n, hn⟩
    simp only at hs
    interval_cases n <;> rfl
  · intro hs
    have he : (tx.Status.MarshalText s).1 = ascii "" := tx.Status_String_out_of_range s hs
    refine ⟨he, ?_⟩
    intro s0
    rw [he, tx.Status_UnmarshalText_empty]
    simp

/-- Witness of C12: the status `StatusDone` and the unknown status 9. -/
theorem tx.Status_text_roundtrip_witness :
    tx.Status.UnmarshalText 0 (tx.Status.MarshalText tx.StatusDone).1 = (tx.StatusDone, none)
    ∧ (tx.Status.MarshalText 9).1 = ascii ""
    ∧ (tx.Status.UnmarshalText 0 (tx.Status.MarshalText 9).1).2 ≠ none :=
  ⟨(tx.Status_text_roundtrip tx.StatusDone).1 (by decide) 0,
   ((tx.Status_text_roundtrip 9).2 (by decide)).1,
   ((tx.Status_text_roundtrip 9).2 (by decide)).2 0⟩

/-- C13: `UnmarshalText(data)` succeeds if and only if `data` is one of "nil",
"confirming", "pending", "executing", "done" (the empty text and "Nil" are
rejected); for every other `data` it returns the error with the message
"non-exhaustive pattern: status " followed by `data`, and the receiver keeps its
value. -/
theorem tx.Status_UnmarshalText_spec (s0 : tx.Status) (data : Bytes) :
    ((tx.Status.UnmarshalText s0 data).2 = none ↔
      (data = ascii "nil" ∨ data = ascii "confirming" ∨ data = ascii "pending"
        ∨ data = ascii "executing" ∨ data = ascii "done"))
    ∧ (¬ (data = ascii "nil" ∨ data = ascii "confirming" ∨ data = ascii "pending"
          ∨ data = ascii "executing" ∨ data = ascii "done") →
        tx.Status.UnmarshalText s0 data
          = (s0, some (Error.Errorf (ascii "non-exhaustive pattern: status " ++ data))))
    ∧ (tx.Status.UnmarshalText s0 (ascii "")).2 ≠ none
    ∧ (tx.Status.UnmarshalText s0 (ascii "Nil")).2 ≠ none := by
  refine ⟨?_, ?_, ?_, ?_⟩
  · unfold tx.Status.UnmarshalText
    split_ifs with h1 h2 h3 h4 h5 <;> simp [*]
  · intro h
    simp only [not_or] at h
    simp only [tx.Status.UnmarshalText, if_neg h.1, if_neg h.2.1, if_neg h.2.2.1,
      if_neg h.2.2.2.1, if_neg h.2.2.2.2]
  · rw [tx.Status_UnmarshalText_empty]; simp
  · have h : tx.Status.UnmarshalText s0 (ascii "Nil")
        = (s0, some (Error.Errorf (ascii "non-exhaustive pattern: status Nil"))) := rfl
    rw [h]; simp

/-- Witness of C13: the text "Done" is rejected with its message and the
receiver 7 keeps its value. -/
theorem tx.Status_UnmarshalText_spec_witness :
    ¬ (ascii "Done" = ascii "nil" ∨ ascii "Done" = ascii "confirming"
        ∨ ascii "Done" = ascii "pending" ∨ ascii "Done" = ascii "executing"
        ∨ ascii "Done" = ascii "done")
    ∧ tx.Status.UnmarshalText 7 (ascii "Done")
        = (7, some (Error.Errorf (ascii "non-exhaustive pattern: status Done"))) :=
  ⟨by decide, (tx.Status_UnmarshalText_spec 7 (ascii "Done")).2.1 (by decide)⟩

/-- C14: `Version.String` returns "0" for `Version0`, "1" for `Version1`, and the
empty string for every other version, for example "2", "3" and "". -/
theorem tx.Version_String_table :
    tx.Version.String tx.Version0 = ascii "0"
    ∧ tx.Version.String tx.Version1 = ascii "1"
    ∧ (∀ v : tx.Version, v ≠ tx.Version0 → v ≠ tx.Version1 → tx.Version.String v = ascii "")
    ∧ tx.Version.String (ascii "2") = ascii ""
    ∧ tx.Version.String (ascii "3") = ascii ""
    ∧ tx.Version.String (ascii "") = ascii "" := by
  refine ⟨by decide, by decide, ?_, by decide, by decide, by decide⟩
  intro v h0 h1
  simp only [tx.Version.String, if_neg h0, if_neg h1]

/-- Witness of C14: the unknown version "2". -/
theorem tx.Version_String_table_witness :
    ascii "2" ≠ tx.Version0 ∧ ascii "2" ≠ tx.Version1
    ∧ tx.Version.String (ascii "2") = ascii "" :=
  ⟨by decide, by decide,
   tx.Version_String_table.2.2.1 (ascii "2") (by decide) (by decide)⟩

/-! ## Slices filled index by index -/

theorem forRange_set_upto {β : Type} (f : Nat → β) (n : Nat) (z : β) (k : Nat) (hk : k ≤ n) :
    forRange k (fun i out => List.set out i (f i)) (List.replicate n z)
      = (List.range k).map f ++ List.replicate (n - k) z := by
  induction k with
  | zero => simp [forRange]
  | succ k ih =>
    have ih2 := ih (by omega)
    have hlen : ((List.range k).map f).length ≤ k := by simp
    have hrep : List.replicate (n - k) z = z :: List.replicate (n - (k + 1)) z := by
      have hnk : n - k = (n - (k + 1)) + 1 := by omega
      rw [hnk, List.replicate_succ]
    simp only [forRange, ih2]
    rw [List.set_append_right k (f k) hlen, hrep]
    simp [List.range_succ]

theorem forRange_set_eq_map {α β : Type} (g : α → β) (l : List α) (d : α) (z : β) :
    forRange l.length (fun i out => List.set out i (g (l.getD i d))) (List.replicate l.length z)
      = l.map g := by
  rw [forRange_set_upto (fun i => g (l.getD i d)) l.length z l.length (le_refl _)]
  simp only [Nat.sub_self, List.replicate_zero, List.append_nil]
  apply List.ext_getElem?
  intro i
  by_cases hi : i < l.length
  · simp [List.getElem?_map, List.getElem?_range hi, List.getElem?_eq_getElem hi]
  · have h1 : l[i]? = none := List.getElem?_eq_none (by omega)
    have h2 : (List.range l.length)[i]? = none :=
      List.getElem?_eq_none (by simp only [List.length_range]; omega)
    simp [List.getElem?_map, h1, h2]

theorem tx.ZipStatus_eq_map {Typed : Type} (E : External Typed) (txs : List (tx.Tx Typed))
    (st : tx.Status) :
    tx.ZipStatus E txs st = txs.map (fun t => { Tx := t, Status := st }) :=
  forRange_set_eq_map (fun t => ({ Tx := t, Status := st } : tx.WithStatus Typed)) txs
    (tx.Tx.zero E) (tx.WithStatus.zero E)

theorem tx.MapToNoStatus_eq_map {Typed : Type} (E : External Typed)
    (ws : List (tx.WithStatus Typed)) :
    tx.MapToNoStatus E ws = ws.map (fun w => w.Tx) :=
  forRange_set_eq_map (fun w : tx.WithStatus Typed => w.Tx) ws (tx.WithStatus.zero E)
    (tx.Tx.zero E)

theorem tx.MapToPtrs_eq_range {Typed : Type} (txs : List (tx.Tx Typed)) :
    tx.MapToPtrs txs = (List.range txs.length).map some := by
  unfold tx.MapToPtrs
  rw [forRange_set_upto (fun i => (some i : tx.TxPtr)) txs.length none txs.length (le_refl _)]
  simp

theorem tx.MapFromPtrs_upto {Typed : Type} (E : External Typed) (mem : List (tx.Tx Typed))
    (k : Nat) (hk : k ≤ mem.length) :
    forRange k
      (fun i acc =>
        match acc with
        | none => none
        | some txs =>
          match ((List.range mem.length).map some).getD i none with
          | none => none
          | some a =>
            match mem.get? a with
            | none => none
            | some t => some (List.set txs i t))
      (some (List.replicate mem.length (tx.Tx.zero E)))
      = some (forRange k (fun i out => List.set out i (mem.getD i (tx.Tx.zero E)))
          (List.replicate mem.length (tx.Tx.zero E))) := by
  induction k with
  | zero => rfl
  | succ k ih =>
    have hk2 : k < mem.length := by omega
    have hptr : ((List.range mem.length).map some).getD k none = some k := by
      simp [List.getElem?_map, List.getElem?_range hk2]
    have hmem : mem.get? k = some (mem.getD k (tx.Tx.zero E)) := by
      simp [List.getElem?_eq_getElem hk2]
    simp only [forRange, ih (by omega), hptr, hmem]

/-- C19: `ZipStatus(txs, st)` has the length of `txs`, its i-th element is
`WithStatus{Tx: txs[i], Status: st}`, and `MapToNoStatus(ZipStatus(txs, st))`
equals `txs`. -/
theorem tx.ZipStatus_spec {Typed : Type} (E : External Typed) (txs : List (tx.Tx Typed))
    (st : tx.Status) :
    (tx.ZipStatus E txs st).length = txs.length
    ∧ (∀ i : Nat, (tx.ZipStatus E txs st)[i]?
        = (txs[i]?).map (fun t => ({ Tx := t, Status := st } : tx.WithStatus Typed)))
    ∧ tx.MapToNoStatus E (tx.ZipStatus E txs st) = txs := by
  rw [tx.MapToNoStatus_eq_map, tx.ZipStatus_eq_map]
  refine ⟨by simp, fun i => by simp [List.getElem?_map], ?_⟩
  simp [List.map_map, Function.comp_def]

/-- C20: `MapFromPtrs(MapToPtrs(txs))` equals `txs`: the pointers to the elements
of `txs`, read back in the memory of `txs`, give the same transactions in the
same order, and `MapToPtrs(txs)` has the length of `txs`. -/
theorem tx.MapFromPtrs_MapToPtrs {Typed : Type} (E : External Typed)
    (txs : List (tx.Tx Typed)) :
    (tx.MapToPtrs txs).length = txs.length
    ∧ tx.MapFromPtrs E txs (tx.MapToPtrs txs) = some txs := by
  rw [tx.MapToPtrs_eq_range]
  refine ⟨by simp, ?_⟩
  unfold tx.MapFromPtrs
  simp only [List.length_map, List.length_range]
  refine (tx.MapFromPtrs_upto E txs txs.length (le_refl _)).trans ?_
  rw [forRange_set_eq_map (fun t => t) txs (tx.Tx.zero E) (tx.Tx.zero E)]
  simp

/-! ## Selector parsing: lemmas on the scans -/

theorem ascii_From : ascii "From" = [70, 114, 111, 109] := by decide

theorem ascii_from : ascii "from" = [102, 114, 111, 109] := by decide

theorem ascii_to : ascii "to" = [116, 111] := by decide

theorem ascii_slash_to : ascii "/to" = 47 :: ascii "to" := by decide

theorem ascii_slash_from : ascii "/from" = 47 :: ascii "from" := by decide

theorem tx.splitFirst_append (c : Byte) (a r : Bytes) (h : c ∉ a) :
    tx.splitFirst c (a ++ c :: r) = some (a, r) := by
  induction a with
  | nil => simp [tx.splitFirst]
  | cons x t ih =>
    have hx : x ≠ c := fun e => h (by rw [e]; exact List.mem_cons_self _ _)
    have ht : c ∉ t := fun e => h (List.mem_cons_of_mem _ e)
    rw [List.cons_append]
    simp only [tx.splitFirst, if_neg hx, ih ht]

theorem tx.splitFirst_none (c : Byte) (s : Bytes) (h : c ∉ s) : tx.splitFirst c s = none := by
  induction s with
  | nil => rfl
  | cons x t ih =>
    have hx : x ≠ c := fun e => h (by rw [e]; exact List.mem_cons_self _ _)
    have ht : c ∉ t := fun e => h (List.mem_cons_of_mem _ e)
    simp only [tx.splitFirst, if_neg hx, ih ht]

theorem tx.splitFirst_some (c : Byte) (s l r : Bytes) (h : tx.splitFirst c s = some (l, r)) :
    s = l ++ c :: r ∧ c ∉ l := by
  induction s generalizing l r with
  | nil => simp [tx.splitFirst] at h
  | cons x t ih =>
    by_cases hx : x = c
    · simp only [tx.splitFirst, if_pos hx, Option.some.injEq, Prod.mk.injEq] at h
      rw [← h.1, ← h.2, hx]
      simp
    · simp only [tx.splitFirst, if_neg hx] at h
      cases hrec : tx.splitFirst c t with
      | none => rw [hrec] at h; simp at h
      | some p =>
        rcases p with ⟨l2, r2⟩
        rw [hrec] at h
        simp only [Option.some.injEq, Prod.mk.injEq] at h
        have := ih l2 r2 hrec
        rw [← h.1, ← h.2, this.1]
        refine ⟨by simp, ?_⟩
        intro hm
        rcases List.mem_cons.1 hm with e | e
        · exact hx e.symm
        · exact this.2 e

theorem tx.afterPrefix_append (p r : Bytes) : tx.afterPrefix p (p ++ r) = some r := by
  induction p with
  | nil => cases r <;> rfl
  | cons a t ih =>
    rw [List.cons_append]
    simp only [tx.afterPrefix, if_true, ih]

theorem tx.afterPrefix_some (p s r : Bytes) (h : tx.afterPrefix p s = some r) : s = p ++ r := by
  induction p generalizing s with
  | nil =>
    cases s <;> simp only [tx.afterPrefix, Option.some.injEq] at h <;> rw [← h] <;> rfl
  | cons a t ih =>
    cases s with
    | nil => simp [tx.afterPrefix] at h
    | cons b u =>
      by_cases hab : a = b
      · simp only [tx.afterPrefix, if_pos hab] at h
        rw [ih u h, hab]; rfl
      · simp [tx.afterPrefix, if_neg hab] at h

theorem tx.splitAround_some (p s l r : Bytes) (h : tx.splitAround p s = some (l, r)) :
    s = l ++ p ++ r := by
  induction s generalizing l r with
  | nil =>
    simp only [tx.splitAround, Option.map_eq_some'] at h
    rcases h with ⟨r2, h1, h2⟩
    simp only [Prod.mk.injEq] at h2
    have := tx.afterPrefix_some p [] r2 h1
    rw [← h2.1, ← h2.2]
    simpa using this
  | cons x t ih =>
    cases hp : tx.afterPrefix p (x :: t) with
    | some r2 =>
      simp only [tx.splitAround, hp, Option.some.injEq, Prod.mk.injEq] at h
      rw [← h.1, ← h.2]
      simpa using tx.afterPrefix_some p (x :: t) r2 hp
    | none =>
      simp only [tx.splitAround, hp] at h
      cases hrec : tx.splitAround p t with
      | none => rw [hrec] at h; simp at h
      | some q =>
        rcases q with ⟨l2, r2⟩
        rw [hrec] at h
        simp only [Option.some.injEq, Prod.mk.injEq] at h
        rw [← h.1, ← h.2, ih l2 r2 hrec]
        simp

theorem tx.afterPrefix_From_border (x : Byte) (t rest : Bytes)
    (h : tx.afterPrefix [70, 114, 111, 109] (x :: t) = none) :
    tx.afterPrefix [70, 114, 111, 109] (x :: t ++ ([70, 114, 111, 109] ++ rest)) = none := by
  rcases t with _ | ⟨y, _ | ⟨z, _ | ⟨w, u⟩⟩⟩
  · simp only [List.cons_append, List.nil_append, tx.afterPrefix]
    split_ifs <;> first | rfl | (exfalso; revert ‹(114 : Byte) = 70›; decide)
  · simp only [List.cons_append, List.nil_append, tx.afterPrefix]
    split_ifs <;> first | rfl | (exfalso; revert ‹(111 : Byte) = 70›; decide)
  · simp only [List.cons_append, List.nil_append, tx.afterPrefix]
    split_ifs <;> first | rfl | (exfalso; revert ‹(109 : Byte) = 70›; decide)
  · simp only [List.cons_append, tx.afterPrefix] at h ⊢
    split_ifs at h ⊢ <;> rfl

theorem tx.splitAround_From_append (hA hB : Bytes)
    (h : tx.splitAround (ascii "From") hA = none) :
    tx.splitAround (ascii "From") (hA ++ ascii "From" ++ hB) = some (hA, hB) := by
  rw [ascii_From] at h ⊢
  induction hA with
  | nil => rfl
  | cons x t ih =>
    cases hp : tx.afterPrefix [70, 114, 111, 109] (x :: t) with
    | some r => simp [tx.splitAround, hp] at h
    | none =>
      simp only [tx.splitAround, hp] at h
      have ht : tx.splitAround [70, 114, 111, 109] t = none := by
        cases hrec : tx.splitAround [70, 114, 111, 109] t with
        | none => rfl
        | some q => rw [hrec] at h; simp at h
      have hb := tx.afterPrefix_From_border x t hB hp
      have ih2 := ih ht
      simp only [List.append_assoc, List.cons_append, List.nil_append] at ih2 hb ⊢
      simp only [tx.splitAround, hb, ih2]

/-! ## Selector classification -/

theorem tx.parse_split (R : tx.Registry) (a verb : Bytes) (ha : (47 : Byte) ∉ a) :
    tx.Selector.parse R (a ++ 47 :: verb)
      = if (47 : Byte) ∈ verb then tx.Parsed.Invalid
        else if a ∉ R.assets then tx.Parsed.Invalid
        else tx.Selector.classify R a verb := by
  simp only [tx.Selector.parse, tx.splitFirst_append 47 a verb ha]

theorem tx.classify_lock (R : tx.Registry) (a h : Bytes)
    (hF : tx.splitAround (ascii "From") h = none) :
    tx.Selector.classify R a (ascii "to" ++ h)
      = if h ∈ R.hosts then tx.Parsed.Lock a h else tx.Parsed.Invalid := by
  simp only [tx.Selector.classify, tx.afterPrefix_append, hF]

theorem tx.classify_move (R : tx.Registry) (a hA hB : Bytes)
    (hF : tx.splitAround (ascii "From") hA = none) :
    tx.Selector.classify R a (ascii "to" ++ (hA ++ ascii "From" ++ hB))
      = if hA ∈ R.hosts ∧ hB ∈ R.hosts ∧ hA ≠ hB then tx.Parsed.Move a hB hA
        else tx.Parsed.Invalid := by
  simp only [tx.Selector.classify, tx.afterPrefix_append, tx.splitAround_From_append hA hB hF]

theorem tx.afterPrefix_to_from (h : Bytes) :
    tx.afterPrefix (ascii "to") (ascii "from" ++ h) = none := by
  rw [ascii_to, ascii_from]; rfl

theorem tx.classify_release (R : tx.Registry) (a h : Bytes) :
    tx.Selector.classify R a (ascii "from" ++ h)
      = if h ∈ R.hosts then tx.Parsed.Release a h else tx.Parsed.Invalid := by
  simp only [tx.Selector.classify, tx.afterPrefix_to_from, tx.afterPrefix_append]

theorem tx.classify_garbage (R : tx.Registry) (a verb : Bytes)
    (h1 : tx.afterPrefix (ascii "to") verb = none)
    (h2 : tx.afterPrefix (ascii "from") verb = none) :
    tx.Selector.classify R a verb = tx.Parsed.Invalid := by
  simp only [tx.Selector.classify, h1, h2]

theorem tx.not_mem_slash_verb (kw h : Bytes) (hk : (47 : Byte) ∉ kw) (hh : (47 : Byte) ∉ h) :
    (47 : Byte) ∉ kw ++ h := by
  intro hm
  rcases List.mem_append.1 hm with e | e
  · exact hk e
  · exact hh e

theorem tx.slash_not_mem_to : (47 : Byte) ∉ ascii "to" := by decide

theorem tx.slash_not_mem_from : (47 : Byte) ∉ ascii "from" := by decide

theorem tx.slash_not_mem_From : (47 : Byte) ∉ ascii "From" := by decide

theorem tx.selector_to_eq (a h : Bytes) :
    a ++ ascii "/to" ++ h = a ++ 47 :: (ascii "to" ++ h) := by
  rw [ascii_slash_to]; simp

theorem tx.selector_from_eq (a h : Bytes) :
    a ++ ascii "/from" ++ h = a ++ 47 :: (ascii "from" ++ h) := by
  rw [ascii_slash_from]; simp

theorem tx.selector_move_eq (a hA hB : Bytes) :
    a ++ ascii "/to" ++ hA ++ ascii "From" ++ hB
      = a ++ 47 :: (ascii "to" ++ (hA ++ ascii "From" ++ hB)) := by
  rw [ascii_slash_to]; simp

theorem tx.parse_lock (R : tx.Registry) (hR : R.WellFormed) (a h : Bytes)
    (ha : a ∈ R.assets) (hh : h ∈ R.hosts) :
    tx.Selector.parse R (a ++ ascii "/to" ++ h) = tx.Parsed.Lock a h := by
  have hv := tx.not_mem_slash_verb (ascii "to") h tx.slash_not_mem_to (hR.2 h hh).1
  rw [tx.selector_to_eq, tx.parse_split R a _ (hR.1 a ha), if_neg hv,
    if_neg (not_not.mpr ha), tx.classify_lock R a h (hR.2 h hh).2, if_pos hh]

theorem tx.parse_release (R : tx.Registry) (hR : R.WellFormed) (a h : Bytes)
    (ha : a ∈ R.assets) (hh : h ∈ R.hosts) :
    tx.Selector.parse R (a ++ ascii "/from" ++ h) = tx.Parsed.Release a h := by
  have hv := tx.not_mem_slash_verb (ascii "from") h tx.slash_not_mem_from (hR.2 h hh).1
  rw [tx.selector_from_eq, tx.parse_split R a _ (hR.1 a ha), if_neg hv,
    if_neg (not_not.mpr ha), tx.classify_release R a h, if_pos hh]

theorem tx.parse_move (R : tx.Registry) (hR : R.WellFormed) (a hA hB : Bytes)
    (ha : a ∈ R.assets) (hhA : hA ∈ R.hosts) (hhB : hB ∈ R.hosts) :
    tx.Selector.parse R (a ++ ascii "/to" ++ hA ++ ascii "From" ++ hB)
      = if hA ≠ hB then tx.Parsed.Move a hB hA else tx.Parsed.Invalid := by
  have hv : (47 : Byte) ∉ ascii "to" ++ (hA ++ ascii "From" ++ hB) :=
    tx.not_mem_slash_verb _ _ tx.slash_not_mem_to
      (tx.not_mem_slash_verb _ _
        (tx.not_mem_slash_verb _ _ (hR.2 hA hhA).1 tx.slash_not_mem_From) (hR.2 hB hhB).1)
  rw [tx.selector_move_eq, tx.parse_split R a _ (hR.1 a ha), if_neg hv,
    if_neg (not_not.mpr ha), tx.classify_move R a hA hB (hR.2 hA hhA).2]
  simp only [hhA, hhB, true_and]

theorem txutil.registry_wellFormed (origin : Bytes → Bytes) :
    (txutil.registry origin).WellFormed := by
  simp only [tx.Registry.WellFormed, txutil.registry]
  decide

theorem tx.classify_cases (R : tx.Registry) (a verb : Bytes) :
    tx.Selector.classify R a verb = tx.Parsed.Invalid
    ∨ (∃ h ∈ R.hosts, verb = ascii "to" ++ h ∧ tx.Selector.classify R a verb = tx.Parsed.Lock a h)
    ∨ (∃ h ∈ R.hosts, verb = ascii "from" ++ h
        ∧ tx.Selector.classify R a verb = tx.Parsed.Release a h)
    ∨ (∃ hA ∈ R.hosts, ∃ hB ∈ R.hosts, hA ≠ hB ∧ verb = ascii "to" ++ (hA ++ ascii "From" ++ hB)
        ∧ tx.Selector.classify R a verb = tx.Parsed.Move a hB hA) := by
  cases hto : tx.afterPrefix (ascii "to") verb with
  | some rest =>
    have hverb := tx.afterPrefix_some _ _ _ hto
    cases hsa : tx.splitAround (ascii "From") rest with
    | some q =>
      rcases q with ⟨hA, hB⟩
      have hrest := tx.splitAround_some _ _ _ _ hsa
      by_cases hc : hA ∈ R.hosts ∧ hB ∈ R.hosts ∧ hA ≠ hB
      · right; right; right
        refine ⟨hA, hc.1, hB, hc.2.1, hc.2.2, by rw [hverb, hrest], ?_⟩
        simp only [tx.Selector.classify, hto, hsa, if_pos hc]
      · left
        simp only [tx.Selector.classify, hto, hsa, if_neg hc]
    | none =>
      by_cases hc : rest ∈ R.hosts
      · right; left
        refine ⟨rest, hc, hverb, ?_⟩
        simp only [tx.Selector.classify, hto, hsa, if_pos hc]
      · left
        simp only [tx.Selector.classify, hto, hsa, if_neg hc]
  | none =>
    cases hfrom : tx.afterPrefix (ascii "from") verb with
    | some host =>
      have hverb := tx.afterPrefix_some _ _ _ hfrom
      by_cases hc : host ∈ R.hosts
      · right; right; left
        refine ⟨host, hc, hverb, ?_⟩
        simp only [tx.Selector.classify, hto, hfrom, if_pos hc]
      · left
        simp only [tx.Selector.classify, hto, hfrom, if_neg hc]
    | none =>
      left
      simp only [tx.Selector.classify, hto, hfrom]

theorem tx.parse_cases (R : tx.Registry) (s : tx.Selector) :
    tx.Selector.parse R s = tx.Parsed.Invalid
    ∨ (∃ a ∈ R.assets, ∃ h ∈ R.hosts, s = a ++ ascii "/to" ++ h
        ∧ tx.Selector.parse R s = tx.Parsed.Lock a h)
    ∨ (∃ a ∈ R.assets, ∃ h ∈ R.hosts, s = a ++ ascii "/from" ++ h
        ∧ tx.Selector.parse R s = tx.Parsed.Release a h)
    ∨ (∃ a ∈ R.assets, ∃ hA ∈ R.hosts, ∃ hB ∈ R.hosts, hA ≠ hB
        ∧ s = a ++ ascii "/to" ++ hA ++ ascii "From" ++ hB
        ∧ tx.Selector.parse R s = tx.Parsed.Move a hB hA) := by
  cases hsf : tx.splitFirst 47 s with
  | none => left; simp only [tx.Selector.parse, hsf]
  | some q =>
    rcases q with ⟨a, verb⟩
    have hs := (tx.splitFirst_some 47 s a verb hsf).1
    by_cases h47 : (47 : Byte) ∈ verb
    · left; simp only [tx.Selector.parse, hsf, if_pos h47]
    · by_cases ha : a ∈ R.assets
      · have hp : tx.Selector.parse R s = tx.Selector.classify R a verb := by
          simp only [tx.Selector.parse, hsf, if_neg h47, if_neg (not_not.mpr ha)]
        rcases tx.classify_cases R a verb with h | ⟨h, hh, hv, hc⟩ | ⟨h, hh, hv, hc⟩
            | ⟨hA, hhA, hB, hhB, hne, hv, hc⟩
        · left; rw [hp, h]
        · right; left
          exact ⟨a, ha, h, hh, by rw [hs, hv, tx.selector_to_eq], by rw [hp, hc]⟩
        · right; right; left
          exact ⟨a, ha, h, hh, by rw [hs, hv, tx.selector_from_eq], by rw [hp, hc]⟩
        · right; right; right
          exact ⟨a, ha, hA, hhA, hB, hhB, hne, by rw [hs, hv, tx.selector_move_eq],
            by rw [hp, hc]⟩
      · left; simp only [tx.Selector.parse, hsf, if_neg h47, if_pos ha]

theorem tx.parse_invalid_of_not_valid (R : tx.Registry) (s : tx.Selector)
    (h : ¬ tx.Selector.Valid R s) : tx.Selector.parse R s = tx.Parsed.Invalid := by
  rcases tx.parse_cases R s with hp | ⟨a, ha, h1, hh, hs, _⟩ | ⟨a, ha, h1, hh, hs, _⟩
      | ⟨a, ha, hA, hhA, hB, hhB, hne, hs, _⟩
  · exact hp
  · exact absurd (Or.inl ⟨a, ha, h1, hh, hs⟩) h
  · exact absurd (Or.inr (Or.inl ⟨a, ha, h1, hh, hs⟩)) h
  · exact absurd (Or.inr (Or.inr ⟨a, ha, hA, hhA, hB, hhB, hne, hs⟩)) h

theorem tx.parse_invalid_of_malformed (R : tx.Registry) (s : tx.Selector)
    (h : tx.Selector.Malformed R s) : tx.Selector.parse R s = tx.Parsed.Invalid := by
  rcases h with h | h | h | ⟨a, verb, hs, ha, hna⟩ | ⟨a, h1, hs, ha, hF, hnh⟩
      | ⟨a, h1, hs, ha, hnh⟩ | ⟨a, hA, hB, hs, ha, hF, hnh⟩ | ⟨a, verb, hs, ha, h1, h2⟩
  · rw [h]; rfl
  · simp only [tx.Selector.parse, tx.splitFirst_none 47 s h]
  · cases hsf : tx.splitFirst 47 s with
    | none => simp only [tx.Selector.parse, hsf]
    | some q =>
      rcases q with ⟨l, r⟩
      have hd := tx.splitFirst_some 47 s l r hsf
      have hc : s.count 47 = 1 + r.count 47 := by
        rw [hd.1, List.count_append, List.count_eq_zero_of_not_mem hd.2, List.count_cons_self]
        omega
      have hr : (47 : Byte) ∈ r := List.count_pos_iff.1 (by omega)
      simp only [tx.Selector.parse, hsf, if_pos hr]
  · rw [hs, tx.parse_split R a verb ha]
    split_ifs <;> rfl
  · rw [hs, tx.selector_to_eq, tx.parse_split R a _ ha, tx.classify_lock R a h1 hF, if_neg hnh]
    split_ifs <;> rfl
  · rw [hs, tx.selector_from_eq, tx.parse_split R a _ ha, tx.classify_release R a h1,
      if_neg hnh]
    split_ifs <;> rfl
  · have hc : ¬ (hA ∈ R.hosts ∧ hB ∈ R.hosts ∧ hA ≠ hB) := by
      rintro ⟨h1, h2, _⟩
      rcases hnh with e | e
      · exact e h1
      · exact e h2
    rw [hs, tx.selector_move_eq, tx.parse_split R a _ ha, tx.classify_move R a hA hB hF,
      if_neg hc]
    split_ifs <;> rfl
  · rw [hs, tx.parse_split R a verb ha, tx.classify_garbage R a verb h1 h2]
    split_ifs <;> rfl

theorem tx.accessors_of_wellFormed (R : tx.Registry) (hR : R.WellFormed) (a h hA hB : Bytes)
    (ha : a ∈ R.assets) (hh : h ∈ R.hosts) (hhA : hA ∈ R.hosts) (hhB : hB ∈ R.hosts)
    (hne : hA ≠ hB) :
    (tx.Selector.Asset R (a ++ ascii "/to" ++ h) = a
      ∧ tx.Selector.Source R (a ++ ascii "/to" ++ h) = R.origin a
      ∧ tx.Selector.Destination R (a ++ ascii "/to" ++ h) = h)
    ∧ (tx.Selector.Asset R (a ++ ascii "/from" ++ h) = a
      ∧ tx.Selector.Source R (a ++ ascii "/from" ++ h) = h
      ∧ tx.Selector.Destination R (a ++ ascii "/from" ++ h) = R.origin a)
    ∧ (tx.Selector.Asset R (a ++ ascii "/to" ++ hA ++ ascii "From" ++ hB) = a
      ∧ tx.Selector.Source R (a ++ ascii "/to" ++ hA ++ ascii "From" ++ hB) = hB
      ∧ tx.Selector.Destination R (a ++ ascii "/to" ++ hA ++ ascii "From" ++ hB) = hA) := by
  have h1 := tx.parse_lock R hR a h ha hh
  have h2 := tx.parse_release R hR a h ha hh
  have h3 := tx.parse_move R hR a hA hB ha hhA hhB
  rw [if_pos hne] at h3
  simp only [tx.Selector.Asset, tx.Selector.Source, tx.Selector.Destination, h1, h2, h3,
    and_self]

/-- C15: for every supported asset `a` and supported host chains `h`, `hA`, `hB`
with `hA` different from `hB`, whatever the origin chain function: `a/to<h>` has
asset `a`, source the origin chain of `a` and destination `h`; `a/from<h>` has
asset `a`, source `h` and destination the origin chain of `a`;
`a/to<hA>From<hB>` has asset `a`, source `hB` and destination `hA`. -/
theorem tx.Selector_accessors_valid (origin : Bytes → Bytes) (a h hA hB : Bytes)
    (ha : a ∈ txutil.SupportedAssets) (hh : h ∈ txutil.SupportedHostChains)
    (hhA : hA ∈ txutil.SupportedHostChains) (hhB : hB ∈ txutil.SupportedHostChains)
    (hne : hA ≠ hB) :
    (tx.Selector.Asset (txutil.registry origin) (a ++ ascii "/to" ++ h) = a
      ∧ tx.Selector.Source (txutil.registry origin) (a ++ ascii "/to" ++ h) = origin a
      ∧ tx.Selector.Destination (txutil.registry origin) (a ++ ascii "/to" ++ h) = h)
    ∧ (tx.Selector.Asset (txutil.registry origin) (a ++ ascii "/from" ++ h) = a
      ∧ tx.Selector.Source (txutil.registry origin) (a ++ ascii "/from" ++ h) = h
      ∧ tx.Selector.Destination (txutil.registry origin) (a ++ ascii "/from" ++ h) = origin a)
    ∧ (tx.Selector.Asset (txutil.registry origin)
          (a ++ ascii "/to" ++ hA ++ ascii "From" ++ hB) = a
      ∧ tx.Selector.Source (txutil.registry origin)
          (a ++ ascii "/to" ++ hA ++ ascii "From" ++ hB) = hB
      ∧ tx.Selector.Destination (txutil.registry origin)
          (a ++ ascii "/to" ++ hA ++ ascii "From" ++ hB) = hA) :=
  tx.accessors_of_wellFormed (txutil.registry origin) (txutil.registry_wellFormed origin)
    a h hA hB ha hh hhA hhB hne

/-- Witness of C15: the selectors "BTC/toEthereum", "BTC/fromEthereum" and
"BTC/toPolygonFromEthereum". -/
theorem tx.Selector_accessors_valid_witness :
    (tx.Selector.Asset (txutil.registry sampleOrigin) (ascii "BTC/toEthereum") = ascii "BTC"
      ∧ tx.Selector.Source (txutil.registry sampleOrigin) (ascii "BTC/toEthereum")
          = ascii "Bitcoin"
      ∧ tx.Selector.Destination (txutil.registry sampleOrigin) (ascii "BTC/toEthereum")
          = ascii "Ethereum")
    ∧ (tx.Selector.Source (txutil.registry sampleOrigin) (ascii "BTC/fromEthereum")
          = ascii "Ethereum"
      ∧ tx.Selector.Destination (txutil.registry sampleOrigin) (ascii "BTC/fromEthereum")
          = ascii "Bitcoin")
    ∧ (tx.Selector.Source (txutil.registry sampleOrigin) (ascii "BTC/toPolygonFromEthereum")
          = ascii "Ethereum"
      ∧ tx.Selector.Destination (txutil.registry sampleOrigin)
          (ascii "BTC/toPolygonFromEthereum") = ascii "Polygon") :=
  have h := tx.Selector_accessors_valid sampleOrigin (ascii "BTC") (ascii "Ethereum")
    (ascii "Polygon") (ascii "Ethereum") (by decide) (by decide) (by decide) (by decide)
    (by decide)
  ⟨h.1, ⟨h.2.1.2.1, h.2.1.2.2⟩, ⟨h.2.2.2.1, h.2.2.2.2⟩⟩

/-- C16: for every malformed selector (the empty string, no `/`, more than one
`/`, an unregistered asset, an unregistered host, or a verb that matches none of
the three shapes, such as "BTC/randomFn"), and for every selector outside the
grammar, `Asset` is the empty asset, `Source` and `Destination` are the empty
chain and `IsLock` is false; the accessors are total functions. -/
theorem tx.Selector_accessors_malformed (R : tx.Registry) (s : tx.Selector)
    (h : tx.Selector.Malformed R s ∨ ¬ tx.Selector.Valid R s) :
    tx.Selector.Asset R s = [] ∧ tx.Selector.Source R s = []
    ∧ tx.Selector.Destination R s = [] ∧ tx.Selector.IsLock R s = false := by
  have hp : tx.Selector.parse R s = tx.Parsed.Invalid := by
    rcases h with h | h
    · exact tx.parse_invalid_of_malformed R s h
    · exact tx.parse_invalid_of_not_valid R s h
  simp only [tx.Selector.Asset, tx.Selector.Source, tx.Selector.Destination,
    tx.Selector.IsLock, hp, and_self]

/-- Witness of C16: the selector "BTC/randomFn" of the tests, whose verb has
neither the prefix `to` nor the prefix `from`. -/
theorem tx.Selector_accessors_malformed_witness :
    tx.Selector.Malformed (txutil.registry sampleOrigin) (ascii "BTC/randomFn")
    ∧ tx.Selector.Asset (txutil.registry sampleOrigin) (ascii "BTC/randomFn") = []
    ∧ tx.Selector.Source (txutil.registry sampleOrigin) (ascii "BTC/randomFn") = []
    ∧ tx.Selector.Destination (txutil.registry sampleOrigin) (ascii "BTC/randomFn") = []
    ∧ tx.Selector.IsLock (txutil.registry sampleOrigin) (ascii "BTC/randomFn") = false :=
  have hm : tx.Selector.Malformed (txutil.registry sampleOrigin) (ascii "BTC/randomFn") :=
    Or.inr (Or.inr (Or.inr (Or.inr (Or.inr (Or.inr (Or.inr
      ⟨ascii "BTC", ascii "randomFn", by decide, by decide, by decide, by decide⟩))))))
  ⟨hm, tx.Selector_accessors_malformed (txutil.registry sampleOrigin) (ascii "BTC/randomFn")
    (Or.inl hm)⟩

theorem tx.IsLock_of_wellFormed (R : tx.Registry) (hR : R.WellFormed) (s : tx.Selector) :
    (tx.Selector.IsLock R s = true ↔ ∃ a ∈ R.assets, ∃ h ∈ R.hosts, s = a ++ ascii "/to" ++ h)
    ∧ (∀ a ∈ R.assets, ∀ h ∈ R.hosts, tx.Selector.IsLock R (a ++ ascii "/from" ++ h) = false)
    ∧ (∀ a ∈ R.assets, ∀ hA ∈ R.hosts, ∀ hB ∈ R.hosts,
        tx.Selector.IsLock R (a ++ ascii "/to" ++ hA ++ ascii "From" ++ hB) = false)
    ∧ (¬ tx.Selector.Valid R s → tx.Selector.IsLock R s = false) := by
  refine ⟨⟨?_, ?_⟩, ?_, ?_, ?_⟩
  · intro hl
    rcases tx.parse_cases R s with hp | ⟨a, ha, h1, hh, hs, _⟩ | ⟨a, ha, h1, hh, hs, hp⟩
        | ⟨a, ha, hA, hhA, hB, hhB, hne, hs, hp⟩
    · simp [tx.Selector.IsLock, hp] at hl
    · exact ⟨a, ha, h1, hh, hs⟩
    · simp [tx.Selector.IsLock, hp] at hl
    · simp [tx.Selector.IsLock, hp] at hl
  · rintro ⟨a, ha, h1, hh, hs⟩
    simp only [tx.Selector.IsLock, hs, tx.parse_lock R hR a h1 ha hh]
  · intro a ha h1 hh
    simp only [tx.Selector.IsLock, tx.parse_release R hR a h1 ha hh]
  · intro a ha hA hhA hB hhB
    simp only [tx.Selector.IsLock, tx.parse_move R hR a hA hB ha hhA hhB]
    split_ifs <;> rfl
  · intro hv
    simp only [tx.Selector.IsLock, tx.parse_invalid_of_not_valid R s hv]

/-- C17: for every selector string `s`, `IsLock(s)` is true if and only if `s`
is `a/to<h>` for a supported asset `a` and a supported host chain `h`; it is
false for every `a/from<h>`, every `a/to<hA>From<hB>` and every string outside
the grammar. -/
theorem tx.Selector_IsLock_iff (origin : Bytes → Bytes) (s : tx.Selector) :
    (tx.Selector.IsLock (txutil.registry origin) s = true ↔
      ∃ a ∈ txutil.SupportedAssets, ∃ h ∈ txutil.SupportedHostChains, s = a ++ ascii "/to" ++ h)
    ∧ (∀ a ∈ txutil.SupportedAssets, ∀ h ∈ txutil.SupportedHostChains,
        tx.Selector.IsLock (txutil.registry origin) (a ++ ascii "/from" ++ h) = false)
    ∧ (∀ a ∈ txutil.SupportedAssets, ∀ hA ∈ txutil.SupportedHostChains,
        ∀ hB ∈ txutil.SupportedHostChains,
        tx.Selector.IsLock (txutil.registry origin)
          (a ++ ascii "/to" ++ hA ++ ascii "From" ++ hB) = false)
    ∧ (¬ tx.Selector.Valid (txutil.registry origin) s →
        tx.Selector.IsLock (txutil.registry origin) s = false) :=
  tx.IsLock_of_wellFormed (txutil.registry origin) (txutil.registry_wellFormed origin) s

/-- Witness of C17: "BTC/toEthereum" is a lock selector; "BTC/fromEthereum",
"BTC/toPolygonFromEthereum" and "BTC/randomFn" are not. -/
theorem tx.Selector_IsLock_iff_witness :
    tx.Selector.IsLock (txutil.registry sampleOrigin) (ascii "BTC/toEthereum") = true
    ∧ tx.Selector.IsLock (txutil.registry sampleOrigin) (ascii "BTC/fromEthereum") = false
    ∧ tx.Selector.IsLock (txutil.registry sampleOrigin) (ascii "BTC/toPolygonFromEthereum")
        = false
    ∧ ¬ tx.Selector.Valid (txutil.registry sampleOrigin) (ascii "BTC/randomFn")
    ∧ tx.Selector.IsLock (txutil.registry sampleOrigin) (ascii "BTC/randomFn") = false :=
  have hnv : ¬ tx.Selector.Valid (txutil.registry sampleOrigin) (ascii "BTC/randomFn") := by
    intro hv
    have hp : tx.Selector.parse (txutil.registry sampleOrigin) (ascii "BTC/randomFn")
        = tx.Parsed.Invalid := by decide
    rcases hv with ⟨a, ha, h, hh, hs⟩ | ⟨a, ha, h, hh, hs⟩ | ⟨a, ha, hA, hhA, hB, hhB, hne, hs⟩
    · have := tx.parse_lock _ (txutil.registry_wellFormed sampleOrigin) a h ha hh
      rw [← hs, hp] at this
      exact tx.Parsed.noConfusion this
    · have := tx.parse_release _ (txutil.registry_wellFormed sampleOrigin) a h ha hh
      rw [← hs, hp] at this
      exact tx.Parsed.noConfusion this
    · have := tx.parse_move _ (txutil.registry_wellFormed sampleOrigin) a hA hB ha hhA hhB
      rw [← hs, hp, if_pos hne] at this
      exact tx.Parsed.noConfusion this
  ⟨(tx.Selector_IsLock_iff sampleOrigin (ascii "BTC/toEthereum")).1.2
     ⟨ascii "BTC", by decide, ascii "Ethereum", by decide, by decide⟩,
   (tx.Selector_IsLock_iff sampleOrigin (ascii "BTC/toEthereum")).2.1
     (ascii "BTC") (by decide) (ascii "Ethereum") (by decide),
   (tx.Selector_IsLock_iff sampleOrigin (ascii "BTC/toEthereum")).2.2.1
     (ascii "BTC") (by decide) (ascii "Polygon") (by decide) (ascii "Ethereum") (by decide),
   hnv,
   (tx.Selector_IsLock_iff sampleOrigin (ascii "BTC/randomFn")).2.2.2 hnv⟩

/-- C18: `Selector.String(s)` is the selector's own string, byte for byte, for
every selector, valid or not. -/
theorem tx.Selector_String_id (s : tx.Selector) : tx.Selector.String s = s := rfl

/-! ## Hash lists, hashing errors, version encoding, status decoding -/

/-- C21: `MapToHashes(txs)` and `MapToIDs(txs)` both have the length of `txs`,
their i-th element is the 32 bytes of `txs[i].Hash`, and the two results are
equal element by element, in the order of `txs`. -/
theorem tx.MapToHashes_MapToIDs {Typed : Type} (E : External Typed) (txs : List (tx.Tx Typed)) :
    (tx.MapToHashes E txs).length = txs.length
    ∧ (tx.MapToIDs E txs).length = txs.length
    ∧ (∀ i : Nat, (tx.MapToHashes E txs)[i]? = (txs[i]?).map (fun t => t.Hash))
    ∧ (∀ i : Nat, (tx.MapToIDs E txs)[i]? = (txs[i]?).map (fun t => t.Hash))
    ∧ tx.MapToHashes E txs = tx.MapToIDs E txs := by
  have h1 : tx.MapToHashes E txs = txs.map (fun t => t.Hash) :=
    forRange_set_eq_map (fun t : tx.Tx Typed => (t.Hash : pack.Bytes32)) txs (tx.Tx.zero E)
      pack.Bytes32.zero
  have h2 : tx.MapToIDs E txs = txs.map (fun t => t.Hash) :=
    forRange_set_eq_map (fun t : tx.Tx Typed => t.Hash) txs (tx.Tx.zero E) id.Hash.zero
  rw [h1, h2]
  exact ⟨by simp, by simp, fun i => by simp [List.getElem?_map],
    fun i => by simp [List.getElem?_map], rfl⟩

/-- C22: `NewTxHashIntoBuffer` returns the error of the first encode that fails,
with the zero hash (the version first, then the selector on the buffer and quota
the version left, then the input on what the selector left), and returns no
error only when all three encodes succeeded. -/
theorem tx.NewTxHashIntoBuffer_errors {Typed : Type} (E : External Typed) (v : tx.Version)
    (s : tx.Selector) (i : Typed) (data : Bytes) :
    (∀ e, (tx.Version.Marshal v data surge.MaxBytes).err = some e →
      tx.NewTxHashIntoBuffer E v s i data = (id.Hash.zero, some e))
    ∧ ((tx.Version.Marshal v data surge.MaxBytes).err = none →
        ∀ e, (tx.Selector.Marshal s (tx.Version.Marshal v data surge.MaxBytes).buf
              (tx.Version.Marshal v data surge.MaxBytes).rem).err = some e →
          tx.NewTxHashIntoBuffer E v s i data = (id.Hash.zero, some e))
    ∧ ((tx.Version.Marshal v data surge.MaxBytes).err = none →
        (tx.Selector.Marshal s (tx.Version.Marshal v data surge.MaxBytes).buf
              (tx.Version.Marshal v data surge.MaxBytes).rem).err = none →
        ∀ e, (E.Marshal i
              (tx.Selector.Marshal s (tx.Version.Marshal v data surge.MaxBytes).buf
                (tx.Version.Marshal v data surge.MaxBytes).rem).buf
              (tx.Selector.Marshal s (tx.Version.Marshal v data surge.MaxBytes).buf
                (tx.Version.Marshal v data surge.MaxBytes).rem).rem).err = some e →
          tx.NewTxHashIntoBuffer E v s i data = (id.Hash.zero, some e))
    ∧ ((tx.NewTxHashIntoBuffer E v s i data).2 = none →
        (tx.Version.Marshal v data surge.MaxBytes).err = none
        ∧ (tx.Selector.Marshal s (tx.Version.Marshal v data surge.MaxBytes).buf
              (tx.Version.Marshal v data surge.MaxBytes).rem).err = none
        ∧ (E.Marshal i
              (tx.Selector.Marshal s (tx.Version.Marshal v data surge.MaxBytes).buf
                (tx.Version.Marshal v data surge.MaxBytes).rem).buf
              (tx.Selector.Marshal s (tx.Version.Marshal v data surge.MaxBytes).buf
                (tx.Version.Marshal v data surge.MaxBytes).rem).rem).err = none) := by
  unfold tx.NewTxHashIntoBuffer
  rcases h1 : tx.Version.Marshal v data surge.MaxBytes with ⟨w1, b1, m1, e1⟩
  cases e1 with
  | some e => simp
  | none =>
    simp only []
    rcases h2 : tx.Selector.Marshal s b1 m1 with ⟨w2, b2, m2, e2⟩
    cases e2 with
    | some e => simp
    | none =>
      simp only []
      rcases h3 : E.Marshal i b2 m2 with ⟨w3, b3, m3, e3⟩
      cases e3 with
      | some e => simp
      | none => simp

/-- Witness of C22: with an empty buffer the version encode fails and its error is
returned with the zero hash. -/
theorem tx.NewTxHashIntoBuffer_errors_witness :
    (tx.Version.Marshal tx.Version1 [] surge.MaxBytes).err
        = some Error.ErrUnexpectedEndOfBuffer
    ∧ tx.NewTxHashIntoBuffer sampleExternal tx.Version1 (ascii "BTC/toEthereum") none []
        = (id.Hash.zero, some Error.ErrUnexpectedEndOfBuffer) :=
  ⟨by decide,
   (tx.NewTxHashIntoBuffer_errors sampleExternal tx.Version1 (ascii "BTC/toEthereum") none []).1
     _ (by decide)⟩

/-- C23 (the code as it stands): for a caller buffer at least as long as the
three encodings, within the quota, `NewTxHashIntoBuffer` digests the whole buffer,
that is the encodings followed by the bytes of the buffer after them: the hash
depends on the length of the buffer and on its previous contents past the
encodings. -/
theorem tx.NewTxHashIntoBuffer_digests_tail {Typed : Type} {E : External Typed}
    (hE : E.Lawful) (v : tx.Version) (s : tx.Selector) (i : Typed) (data : Bytes)
    (hlen : tx.Version.SizeHint v + surge.SizeHintString s + E.SizeHint i ≤ data.length)
    (hfit : ((tx.Version.SizeHint v + surge.SizeHintString s + E.SizeHint i : Nat) : Int)
      ≤ surge.MaxBytes) :
    tx.NewTxHashIntoBuffer E v s i data
      = (E.NewHash (tx.hashEncoding E v s i
          ++ data.drop (tx.Version.SizeHint v + surge.SizeHintString s + E.SizeHint i)),
         none) := by
  have hl := tx.length_hashEncoding hE v s i
  rw [tx.NewTxHashIntoBuffer_ok hE v s i data (by rw [hl]; exact hlen) (by rw [hl]; exact hfit),
    hl]

/-- Witness of C23: for version "1", two buffers that hold the 24 bytes of the
encodings give different hashes when one has one more byte, and the hash of the
longer buffer is not that of `NewTxHash`. -/
theorem tx.NewTxHashIntoBuffer_digests_tail_witness :
    sampleExternal.Lawful
    ∧ tx.NewTxHashIntoBuffer sampleExternal tx.Version1 (ascii "BTC/toEthereum") none
        (List.replicate 24 0 ++ [9])
      = (sampleExternal.NewHash
          (tx.hashEncoding sampleExternal tx.Version1 (ascii "BTC/toEthereum") none ++ [9]),
         none)
    ∧ tx.NewTxHashIntoBuffer sampleExternal tx.Version1 (ascii "BTC/toEthereum") none
        (List.replicate 24 0 ++ [9])
      ≠ tx.NewTxHashIntoBuffer sampleExternal tx.Version1 (ascii "BTC/toEthereum") none
        (List.replicate 24 0)
    ∧ tx.NewTxHashIntoBuffer sampleExternal tx.Version1 (ascii "BTC/toEthereum") none
        (List.replicate 25 0)
      ≠ tx.NewTxHash sampleExternal tx.Version1 (ascii "BTC/toEthereum") none :=
  ⟨sampleExternal_lawful,
   tx.NewTxHashIntoBuffer_digests_tail sampleExternal_lawful tx.Version1
     (ascii "BTC/toEthereum") none (List.replicate 24 0 ++ [9]) (by decide) (by decide),
   by decide, by decide⟩

/-- C24: with room in buffer and quota, `Version.Marshal(v)` writes the length
prefix and the bytes of `v.String()`, `Version.SizeHint(v)` bytes in all;
unmarshaling these bytes yields `Version(v.String())`, which is `v` exactly when
`v` is "0", "1" or the empty string. -/
theorem tx.Version_Marshal_normalises (v : tx.Version) (buf : Bytes) (rem : Int)
    (hbuf : tx.Version.SizeHint v ≤ buf.length) (hrem : (tx.Version.SizeHint v : Int) ≤ rem) :
    tx.Version.Marshal v buf rem
      = ⟨surge.putU32 (tx.Version.String v).length ++ tx.Version.String v,
          buf.drop (tx.Version.SizeHint v), rem - tx.Version.SizeHint v, none⟩
    ∧ (tx.Version.Marshal v buf rem).written.length = tx.Version.SizeHint v
    ∧ (∀ (v0 : tx.Version) (rest : Bytes) (rem' : Int), (tx.Version.SizeHint v : Int) ≤ rem' →
        tx.Version.Unmarshal v0 ((tx.Version.Marshal v buf rem).written ++ rest) rem'
          = ⟨tx.Version.String v, rest, rem' - tx.Version.SizeHint v, none⟩)
    ∧ (tx.Version.String v = v ↔ (v = tx.Version0 ∨ v = tx.Version1 ∨ v = [])) := by
  have hl := surge.length_encodeString (tx.Version.String v)
  have hm := (surge.bounded_MarshalString (tx.Version.String v)).ok buf rem
    (by rw [hl]; exact hbuf) (by rw [hl]; exact hrem)
  have hmod : (tx.Version.String v).length % 4294967296 = (tx.Version.String v).length :=
    Nat.mod_eq_of_lt (tx.length_VersionString_lt v)
  have hM : tx.Version.Marshal v buf rem
      = ⟨surge.encodeString (tx.Version.String v), buf.drop (tx.Version.SizeHint v),
          rem - tx.Version.SizeHint v, none⟩ := by
    rw [tx.Version.Marshal, hm, hl]; rfl
  refine ⟨?_, ?_, ?_, ?_⟩
  · rw [hM, surge.encodeString, hmod]
  · rw [hM]; exact hl
  · intro v0 rest rem' hr
    rw [hM]
    have hd := (surge.decodes_UnmarshalString (tx.Version.String v)
      (tx.length_VersionString_lt v)).ok v0 rest rem' (by rw [hl]; exact hr)
    rw [hl] at hd
    exact hd
  · constructor
    · intro h
      unfold tx.Version.String at h
      split_ifs at h with h0 h1
      · exact Or.inl h0
      · exact Or.inr (Or.inl h1)
      · exact Or.inr (Or.inr h.symm)
    · rintro (h | h | h) <;> rw [h] <;> decide

/-- Witness of C24: the version "2" is written as the empty string (four zero
bytes) and read back as the empty version. -/
theorem tx.Version_Marshal_normalises_witness :
    tx.Version.Marshal (ascii "2") (List.replicate 8 7) 100
        = ⟨[0, 0, 0, 0], List.replicate 4 7, 96, none⟩
    ∧ tx.Version.Unmarshal (ascii "9")
        ((tx.Version.Marshal (ascii "2") (List.replicate 8 7) 100).written ++ [5]) 50
        = ⟨[], [5], 46, none⟩ :=
  ⟨(tx.Version_Marshal_normalises (ascii "2") (List.replicate 8 7) 100 (by decide)
      (by decide)).1,
   (tx.Version_Marshal_normalises (ascii "2") (List.replicate 8 7) 100 (by decide)
      (by decide)).2.2.1 (ascii "9") [5] 50 (by decide)⟩

/-- C25: whenever `UnmarshalText(data)` succeeds and sets the status to `s`,
`s.String()` is `data` and `s` is one of the five named statuses. -/
theorem tx.Status_UnmarshalText_sound (s0 s : tx.Status) (data : Bytes)
    (h : tx.Status.UnmarshalText s0 data = (s, none)) :
    tx.Status.String s = data
    ∧ (s = tx.StatusNil ∨ s = tx.StatusConfirming ∨ s = tx.StatusPending
        ∨ s = tx.StatusExecuting ∨ s = tx.StatusDone)
    ∧ s.val ≤ 4 := by
  unfold tx.Status.UnmarshalText at h
  split_ifs at h with h1 h2 h3 h4 h5
  · simp only [Prod.mk.injEq, and_true] at h
    rw [← h, h1]; decide
  · simp only [Prod.mk.injEq, and_true] at h
    rw [← h, h2]; decide
  · simp only [Prod.mk.injEq, and_true] at h
    rw [← h, h3]; decide
  · simp only [Prod.mk.injEq, and_true] at h
    rw [← h, h4]; decide
  · simp only [Prod.mk.injEq, and_true] at h
    rw [← h, h5]; decide
  · simp at h

/-- Witness of C25: the text "done". -/
theorem tx.Status_UnmarshalText_sound_witness :
    tx.Status.UnmarshalText 0 (ascii "done") = (tx.StatusDone, none)
    ∧ tx.Status.String tx.StatusDone = ascii "done" :=
  ⟨by decide, (tx.Status_UnmarshalText_sound 0 tx.StatusDone (ascii "done") (by decide)).1⟩

/-! ## Loops that append and loops that assign map entries -/

theorem foldl_append_eq {α β : Type} (body : List β → α → List β) (f : α → List β)
    (hb : ∀ acc x, body acc x = acc ++ f x) (l : List α) (init : List β) :
    l.foldl body init = init ++ l.flatMap f := by
  induction l generalizing init with
  | nil => simp
  | cons x t ih => simp only [List.foldl_cons, hb, ih, List.flatMap_cons, List.append_assoc]

theorem foldl_map_append {α : Type} (body : txutil.SelectorMap → α → txutil.SelectorMap)
    (g : α → Bytes → List tx.Selector) (hb : ∀ m x c, body m x c = m c ++ g x c)
    (l : List α) (m0 : txutil.SelectorMap) (c : Bytes) :
    l.foldl body m0 c = m0 c ++ l.flatMap (fun x => g x c) := by
  induction l generalizing m0 with
  | nil => simp
  | cons x t ih => simp only [List.foldl_cons, hb, ih, List.flatMap_cons, List.append_assoc]

theorem foldl_map_assign_other {α : Type} (body : txutil.SelectorMap → α → txutil.SelectorMap)
    (k : α → Bytes) (v : α → List tx.Selector)
    (hb : ∀ m x c, body m x c = if c = k x then v x else m c)
    (l : List α) (m0 : txutil.SelectorMap) (c : Bytes) (hc : ∀ x ∈ l, k x ≠ c) :
    l.foldl body m0 c = m0 c := by
  induction l generalizing m0 with
  | nil => rfl
  | cons x t ih =>
    have hx : c ≠ k x := fun e => hc x (List.mem_cons_self _ _) e.symm
    rw [List.foldl_cons, ih _ (fun y hy => hc y (List.mem_cons_of_mem _ hy)), hb, if_neg hx]

theorem foldl_map_assign_key {α : Type} (body : txutil.SelectorMap → α → txutil.SelectorMap)
    (k : α → Bytes) (v : α → List tx.Selector)
    (hb : ∀ m x c, body m x c = if c = k x then v x else m c)
    (l : List α) (m0 : txutil.SelectorMap) (c : Bytes) (w : List tx.Selector)
    (hx : ∃ x ∈ l, k x = c) (hv : ∀ y ∈ l, k y = c → v y = w) :
    l.foldl body m0 c = w := by
  induction l generalizing m0 with
  | nil => rcases hx with ⟨x, hx, _⟩; simp at hx
  | cons y t ih =>
    rw [List.foldl_cons]
    by_cases ht : ∃ z ∈ t, k z = c
    · exact ih (body m0 y) ht (fun z hz => hv z (List.mem_cons_of_mem _ hz))
    · have hno : ∀ z ∈ t, k z ≠ c := fun z hz e => ht ⟨z, hz, e⟩
      rw [foldl_map_assign_other body k v hb t _ c hno, hb]
      rcases hx with ⟨x, hx, hkx⟩
      rcases List.mem_cons.1 hx with e | e
      · rw [e] at hkx
        rw [if_pos hkx.symm]
        exact hv y (List.mem_cons_self _ _) hkx
      · exact absurd hkx (hno x e)

theorem forRange_map_entry (n : Nat) (k : Bytes) (f : Nat → List tx.Selector → List tx.Selector)
    (m0 : txutil.SelectorMap) (c : Bytes) :
    forRange n (fun i m => txutil.SelectorMap.set m k (f i (m k))) m0 c
      = if c = k then forRange n f (m0 k) else m0 c := by
  induction n generalizing c with
  | zero =>
    simp only [forRange]
    split_ifs with h
    · rw [h]
    · rfl
  | succ n ih =>
    simp only [forRange, txutil.SelectorMap.set]
    rw [ih k, if_pos rfl]
    split_ifs with h
    · rfl
    · rw [ih c, if_neg h]

theorem flatMap_ite_singleton {α β : Type} (l : List α) (p : Prop) [Decidable p] (f : α → β) :
    l.flatMap (fun a => if p then [f a] else []) = if p then l.map f else [] := by
  induction l with
  | nil => simp
  | cons x t ih =>
    rw [List.flatMap_cons, ih]
    split_ifs <;> simp

theorem txutil.foldl_entry_append {α : Type} (l : List α) (key : Bytes) (x : α → tx.Selector)
    (m : txutil.SelectorMap) (c : Bytes) :
    l.foldl (fun m a => txutil.SelectorMap.set m key (m key ++ [x a])) m c
      = m c ++ (if c = key then l.map x else []) := by
  rw [foldl_map_append _ (fun a c => if c = key then [x a] else []) ?_ l m c,
    flatMap_ite_singleton]
  intro m a c
  simp only [txutil.SelectorMap.set]
  split_ifs with h
  · rw [h]
  · simp

theorem foldl_map_assign_self (body : txutil.SelectorMap → Bytes → txutil.SelectorMap)
    (v : Bytes → List tx.Selector)
    (hb : ∀ m x c, body m x c = if c = x then v x else m c)
    (l : List Bytes) (m0 : txutil.SelectorMap) (c : Bytes) :
    l.foldl body m0 c = if c ∈ l then v c else m0 c := by
  split_ifs with h
  · exact foldl_map_assign_key body (fun x => x) v hb l m0 c (v c) ⟨c, h, rfl⟩
      (fun y _ hy => by rw [show y = c from hy])
  · exact foldl_map_assign_other body (fun x => x) v hb l m0 c
      (fun x hx e => h (by rw [← e]; exact hx))

theorem txutil.AllSelectors_eq :
    txutil.AllSelectors = txutil.SupportedAssets.flatMap (fun a =>
      txutil.SupportedHostChains.flatMap (fun h =>
        [a ++ ascii "/to" ++ h, a ++ ascii "/from" ++ h]
          ++ txutil.SupportedHostChains.flatMap (fun o =>
            if o = h then [] else [a ++ ascii "/to" ++ h ++ ascii "From" ++ o]))) := by
  unfold txutil.AllSelectors
  refine (foldl_append_eq _ (fun a =>
      txutil.SupportedHostChains.flatMap (fun h =>
        [a ++ ascii "/to" ++ h, a ++ ascii "/from" ++ h]
          ++ txutil.SupportedHostChains.flatMap (fun o =>
            if o = h then [] else [a ++ ascii "/to" ++ h ++ ascii "From" ++ o]))) ?_ _ _).trans
    (List.nil_append _)
  intro acc a
  refine foldl_append_eq _ (fun h =>
        [a ++ ascii "/to" ++ h, a ++ ascii "/from" ++ h]
          ++ txutil.SupportedHostChains.flatMap (fun o =>
            if o = h then [] else [a ++ ascii "/to" ++ h ++ ascii "From" ++ o])) ?_ _ _
  intro acc h
  refine (foldl_append_eq _ (fun o =>
            if o = h then [] else [a ++ ascii "/to" ++ h ++ ascii "From" ++ o]) ?_ _ _).trans ?_
  · intro acc o
    by_cases hoh : o = h <;> simp [hoh]
  · simp

theorem txutil.mem_AllSelectors (y : tx.Selector) :
    y ∈ txutil.AllSelectors ↔
      ∃ a ∈ txutil.SupportedAssets, ∃ h ∈ txutil.SupportedHostChains,
        y = a ++ ascii "/to" ++ h ∨ y = a ++ ascii "/from" ++ h
        ∨ ∃ o ∈ txutil.SupportedHostChains, o ≠ h
            ∧ y = a ++ ascii "/to" ++ h ++ ascii "From" ++ o := by
  rw [txutil.AllSelectors_eq]
  simp only [List.mem_flatMap, List.mem_append, List.mem_cons, List.mem_singleton,
    List.not_mem_nil, or_false]
  constructor
  · rintro ⟨a, ha, h, hh, (e | e) | ⟨o, ho, hy⟩⟩
    · exact ⟨a, ha, h, hh, Or.inl e⟩
    · exact ⟨a, ha, h, hh, Or.inr (Or.inl e)⟩
    · by_cases hoh : o = h
      · simp [hoh] at hy
      · simp only [if_neg hoh, List.mem_singleton] at hy
        exact ⟨a, ha, h, hh, Or.inr (Or.inr ⟨o, ho, hoh, hy⟩)⟩
  · rintro ⟨a, ha, h, hh, e | e | ⟨o, ho, hoh, hy⟩⟩
    · exact ⟨a, ha, h, hh, Or.inl (Or.inl e)⟩
    · exact ⟨a, ha, h, hh, Or.inl (Or.inr e)⟩
    · exact ⟨a, ha, h, hh, Or.inr ⟨o, ho, by simp [if_neg hoh, hy]⟩⟩

/-! ## The selector maps of txutil, chain by chain -/

theorem txutil.stage_to_by_host (m : txutil.SelectorMap) (host c : Bytes) :
    txutil.SupportedAssets.foldl (fun selectors asset =>
        txutil.SelectorMap.set selectors host (selectors host ++ [asset ++ ascii "/to" ++ host]))
      (txutil.SelectorMap.set m host []) c
      = if c = host then txutil.SupportedAssets.map (fun a => a ++ ascii "/to" ++ host)
        else m c := by
  rw [txutil.foldl_entry_append]
  simp only [txutil.SelectorMap.set]
  split_ifs <;> simp

theorem txutil.stage_from_by_origin (origin : Bytes → Bytes) (m : txutil.SelectorMap)
    (asset c : Bytes) :
    txutil.SupportedHostChains.foldl (fun selectors host =>
        txutil.SelectorMap.set selectors (origin asset)
          (selectors (origin asset) ++ [asset ++ ascii "/from" ++ host]))
      (txutil.SelectorMap.set m (origin asset) []) c
      = if c = origin asset
        then txutil.SupportedHostChains.map (fun h => asset ++ ascii "/from" ++ h)
        else m c := by
  rw [txutil.foldl_entry_append]
  simp only [txutil.SelectorMap.set]
  split_ifs <;> simp

theorem txutil.stage_to_by_origin (origin : Bytes → Bytes) (m : txutil.SelectorMap)
    (asset c : Bytes) :
    txutil.SupportedHostChains.foldl (fun selectors host =>
        txutil.SelectorMap.set selectors (origin asset)
          (selectors (origin asset) ++ [asset ++ ascii "/to" ++ host]))
      (txutil.SelectorMap.set m (origin asset) []) c
      = if c = origin asset
        then txutil.SupportedHostChains.map (fun h => asset ++ ascii "/to" ++ h)
        else m c := by
  rw [txutil.foldl_entry_append]
  simp only [txutil.SelectorMap.set]
  split_ifs <;> simp

theorem txutil.stage_from_by_host (m : txutil.SelectorMap) (host c : Bytes) :
    forRange txutil.SupportedAssets.length (fun i selectors =>
        txutil.SelectorMap.set selectors host
          ((selectors host).set i (txutil.SupportedAssets.getD i [] ++ ascii "/from" ++ host)))
      (txutil.SelectorMap.set m host (List.replicate txutil.SupportedAssets.length [])) c
      = if c = host then txutil.SupportedAssets.map (fun a => a ++ ascii "/from" ++ host)
        else m c := by
  rw [forRange_map_entry txutil.SupportedAssets.length host
    (fun i l => l.set i (txutil.SupportedAssets.getD i [] ++ ascii "/from" ++ host))]
  simp only [txutil.SelectorMap.set, if_true]
  split_ifs with h
  · exact forRange_set_eq_map (fun a => a ++ ascii "/from" ++ host) txutil.SupportedAssets [] []
  · rfl

theorem txutil.stage_move_by_first (m : txutil.SelectorMap) (c : Bytes) :
    txutil.SupportedHostChains.foldl (fun selectors host =>
      txutil.SupportedHostChains.foldl (fun selectors otherHost =>
        txutil.SupportedAssets.foldl (fun selectors asset =>
            txutil.SelectorMap.set selectors host
              (selectors host ++ [asset ++ ascii "/to" ++ host ++ ascii "From" ++ otherHost]))
          selectors) selectors) m c
      = m c ++ txutil.SupportedHostChains.flatMap (fun host =>
          txutil.SupportedHostChains.flatMap (fun otherHost =>
            if c = host then txutil.SupportedAssets.map (fun asset =>
              asset ++ ascii "/to" ++ host ++ ascii "From" ++ otherHost) else [])) := by
  refine foldl_map_append _ (fun host c => txutil.SupportedHostChains.flatMap (fun otherHost =>
            if c = host then txutil.SupportedAssets.map (fun asset =>
              asset ++ ascii "/to" ++ host ++ ascii "From" ++ otherHost) else [])) ?_ _ m c
  intro m host c
  refine foldl_map_append _ (fun otherHost c =>
            if c = host then txutil.SupportedAssets.map (fun asset =>
              asset ++ ascii "/to" ++ host ++ ascii "From" ++ otherHost) else []) ?_ _ m c
  intro m otherHost c
  exact txutil.foldl_entry_append _ host _ m c

theorem txutil.stage_move_by_second (m : txutil.SelectorMap) (c : Bytes) :
    txutil.SupportedHostChains.foldl (fun selectors host =>
      txutil.SupportedHostChains.foldl (fun selectors otherHost =>
        txutil.SupportedAssets.foldl (fun selectors asset =>
            txutil.SelectorMap.set selectors host
              (selectors host ++ [asset ++ ascii "/to" ++ otherHost ++ ascii "From" ++ host]))
          selectors) selectors) m c
      = m c ++ txutil.SupportedHostChains.flatMap (fun host =>
          txutil.SupportedHostChains.flatMap (fun otherHost =>
            if c = host then txutil.SupportedAssets.map (fun asset =>
              asset ++ ascii "/to" ++ otherHost ++ ascii "From" ++ host) else [])) := by
  refine foldl_map_append _ (fun host c => txutil.SupportedHostChains.flatMap (fun otherHost =>
            if c = host then txutil.SupportedAssets.map (fun asset =>
              asset ++ ascii "/to" ++ otherHost ++ ascii "From" ++ host) else [])) ?_ _ m c
  intro m host c
  refine foldl_map_append _ (fun otherHost c =>
            if c = host then txutil.SupportedAssets.map (fun asset =>
              asset ++ ascii "/to" ++ otherHost ++ ascii "From" ++ host) else []) ?_ _ m c
  intro m otherHost c
  exact txutil.foldl_entry_append _ host _ m c

theorem txutil.mem_SelectorsByDestination (origin : Bytes → Bytes)
    (hinj : ∀ a ∈ txutil.SupportedAssets, ∀ b ∈ txutil.SupportedAssets,
      origin a = origin b → a = b)
    (hdis : ∀ a ∈ txutil.SupportedAssets, origin a ∉ txutil.SupportedHostChains)
    (y c : Bytes) :
    y ∈ txutil.SelectorsByDestination origin c ↔
      (c ∈ txutil.SupportedHostChains ∧ ∃ a ∈ txutil.SupportedAssets, y = a ++ ascii "/to" ++ c)
      ∨ (∃ a ∈ txutil.SupportedAssets, c = origin a
          ∧ ∃ h ∈ txutil.SupportedHostChains, y = a ++ ascii "/from" ++ h)
      ∨ (c ∈ txutil.SupportedHostChains ∧ ∃ o ∈ txutil.SupportedHostChains,
          ∃ a ∈ txutil.SupportedAssets, y = a ++ ascii "/to" ++ c ++ ascii "From" ++ o) := by
  simp only [txutil.SelectorsByDestination]
  rw [txutil.stage_move_by_first, List.mem_append]
  have hT : y ∈ txutil.SupportedHostChains.flatMap (fun host =>
          txutil.SupportedHostChains.flatMap (fun otherHost =>
            if c = host then txutil.SupportedAssets.map (fun asset =>
              asset ++ ascii "/to" ++ host ++ ascii "From" ++ otherHost) else []))
      ↔ (c ∈ txutil.SupportedHostChains ∧ ∃ o ∈ txutil.SupportedHostChains,
          ∃ a ∈ txutil.SupportedAssets, y = a ++ ascii "/to" ++ c ++ ascii "From" ++ o) := by
    simp only [List.mem_flatMap]
    constructor
    · rintro ⟨host, hh, o, ho, hy⟩
      by_cases hc : c = host
      · simp only [if_pos hc, List.mem_map] at hy
        rcases hy with ⟨a, ha, e⟩
        exact ⟨by rw [hc]; exact hh, o, ho, a, ha, by rw [hc]; exact e.symm⟩
      · simp [if_neg hc] at hy
    · rintro ⟨hc, o, ho, a, ha, e⟩
      exact ⟨c, hc, o, ho, by simp only [if_true, List.mem_map]; exact ⟨a, ha, e.symm⟩⟩
  rw [hT]
  by_cases hc : ∃ a ∈ txutil.SupportedAssets, origin a = c
  · rcases hc with ⟨a, ha, hca⟩
    have hm2 := foldl_map_assign_key _ origin
      (fun a => txutil.SupportedHostChains.map (fun h => a ++ ascii "/from" ++ h))
      (fun m x c => txutil.stage_from_by_origin origin m x c) txutil.SupportedAssets
      (txutil.SupportedHostChains.foldl (fun selectors host =>
        txutil.SupportedAssets.foldl (fun selectors asset =>
            txutil.SelectorMap.set selectors host
              (selectors host ++ [asset ++ ascii "/to" ++ host]))
          (txutil.SelectorMap.set selectors host [])) (fun _ => []))
      c (txutil.SupportedHostChains.map (fun h => a ++ ascii "/from" ++ h)) ⟨a, ha, hca⟩
      (fun b hb hbc => by rw [hinj b hb a ha (hbc.trans hca.symm)])
    rw [hm2]
    have hnot : c ∉ txutil.SupportedHostChains := by rw [← hca]; exact hdis a ha
    simp only [List.mem_map, hnot, false_and, false_or, or_false]
    constructor
    · rintro ⟨h, hh, e⟩
      exact ⟨a, ha, hca.symm, h, hh, e.symm⟩
    · rintro ⟨b, hb, hcb, h, hh, e⟩
      have hba : b = a := hinj b hb a ha (hcb.symm.trans hca.symm)
      exact ⟨h, hh, by rw [e, hba]⟩
  · have hno : ∀ x ∈ txutil.SupportedAssets, origin x ≠ c := fun x hx e => hc ⟨x, hx, e⟩
    have hm2 := foldl_map_assign_other _ origin
      (fun a => txutil.SupportedHostChains.map (fun h => a ++ ascii "/from" ++ h))
      (fun m x c => txutil.stage_from_by_origin origin m x c) txutil.SupportedAssets
      (txutil.SupportedHostChains.foldl (fun selectors host =>
        txutil.SupportedAssets.foldl (fun selectors asset =>
            txutil.SelectorMap.set selectors host
              (selectors host ++ [asset ++ ascii "/to" ++ host]))
          (txutil.SelectorMap.set selectors host [])) (fun _ => []))
      c hno
    have hm1 := foldl_map_assign_self _
      (fun host => txutil.SupportedAssets.map (fun a => a ++ ascii "/to" ++ host))
      (fun m x c => txutil.stage_to_by_host m x c) txutil.SupportedHostChains (fun _ => []) c
    rw [hm2, hm1]
    have hno2 : ¬ ∃ a ∈ txutil.SupportedAssets, c = origin a
          ∧ ∃ h ∈ txutil.SupportedHostChains, y = a ++ ascii "/from" ++ h := by
      rintro ⟨a, ha, hca, _⟩
      exact hno a ha hca.symm
    simp only [hno2, false_or]
    by_cases hch : c ∈ txutil.SupportedHostChains
    · rw [if_pos hch, List.mem_map]
      constructor
      · rintro (⟨a, ha, e⟩ | h)
        · exact Or.inl ⟨hch, a, ha, e.symm⟩
        · exact Or.inr h
      · rintro (⟨_, a, ha, e⟩ | h)
        · exact Or.inl ⟨a, ha, e.symm⟩
        · exact Or.inr h
    · rw [if_neg hch]
      simp [hch]

theorem txutil.mem_SelectorsBySource (origin : Bytes → Bytes)
    (hinj : ∀ a ∈ txutil.SupportedAssets, ∀ b ∈ txutil.SupportedAssets,
      origin a = origin b → a = b)
    (hdis : ∀ a ∈ txutil.SupportedAssets, origin a ∉ txutil.SupportedHostChains)
    (y c : Bytes) :
    y ∈ txutil.SelectorsBySource origin c ↔
      (∃ a ∈ txutil.SupportedAssets, c = origin a
          ∧ ∃ h ∈ txutil.SupportedHostChains, y = a ++ ascii "/to" ++ h)
      ∨ (c ∈ txutil.SupportedHostChains
          ∧ ∃ a ∈ txutil.SupportedAssets, y = a ++ ascii "/from" ++ c)
      ∨ (c ∈ txutil.SupportedHostChains ∧ ∃ o ∈ txutil.SupportedHostChains,
          ∃ a ∈ txutil.SupportedAssets, y = a ++ ascii "/to" ++ o ++ ascii "From" ++ c) := by
  simp only [txutil.SelectorsBySource]
  rw [txutil.stage_move_by_second, List.mem_append]
  have hT : y ∈ txutil.SupportedHostChains.flatMap (fun host =>
          txutil.SupportedHostChains.flatMap (fun otherHost =>
            if c = host then txutil.SupportedAssets.map (fun asset =>
              asset ++ ascii "/to" ++ otherHost ++ ascii "From" ++ host) else []))
      ↔ (c ∈ txutil.SupportedHostChains ∧ ∃ o ∈ txutil.SupportedHostChains,
          ∃ a ∈ txutil.SupportedAssets, y = a ++ ascii "/to" ++ o ++ ascii "From" ++ c) := by
    simp only [List.mem_flatMap]
    constructor
    · rintro ⟨host, hh, o, ho, hy⟩
      by_cases hc : c = host
      · simp only [if_pos hc, List.mem_map] at hy
        rcases hy with ⟨a, ha, e⟩
        exact ⟨by rw [hc]; exact hh, o, ho, a, ha, by rw [hc]; exact e.symm⟩
      · simp [if_neg hc] at hy
    · rintro ⟨hc, o, ho, a, ha, e⟩
      exact ⟨c, hc, o, ho, by simp only [if_true, List.mem_map]; exact ⟨a, ha, e.symm⟩⟩
  rw [hT]
  have hm2 := foldl_map_assign_self _
    (fun host => txutil.SupportedAssets.map (fun a => a ++ ascii "/from" ++ host))
    (fun m x c => txutil.stage_from_by_host m x c) txutil.SupportedHostChains
    (txutil.SupportedAssets.foldl (fun selectors asset =>
      txutil.SupportedHostChains.foldl (fun selectors host =>
          txutil.SelectorMap.set selectors (origin asset)
            (selectors (origin asset) ++ [asset ++ ascii "/to" ++ host]))
        (txutil.SelectorMap.set selectors (origin asset) [])) (fun _ => [])) c
  rw [hm2]
  by_cases hch : c ∈ txutil.SupportedHostChains
  · rw [if_pos hch, List.mem_map]
    have hno1 : ¬ ∃ a ∈ txutil.SupportedAssets, c = origin a
          ∧ ∃ h ∈ txutil.SupportedHostChains, y = a ++ ascii "/to" ++ h := by
      rintro ⟨a, ha, hca, _⟩
      exact hdis a ha (by rw [← hca]; exact hch)
    simp only [hno1, false_or]
    constructor
    · rintro (⟨a, ha, e⟩ | h)
      · exact Or.inl ⟨hch, a, ha, e.symm⟩
      · exact Or.inr h
    · rintro (⟨_, a, ha, e⟩ | h)
      · exact Or.inl ⟨a, ha, e.symm⟩
      · exact Or.inr h
  · rw [if_neg hch]
    simp only [hch, false_and, or_false]
    by_cases hc : ∃ a ∈ txutil.SupportedAssets, origin a = c
    · rcases hc with ⟨a, ha, hca⟩
      have hm1 := foldl_map_assign_key _ origin
        (fun a => txutil.SupportedHostChains.map (fun h => a ++ ascii "/to" ++ h))
        (fun m x c => txutil.stage_to_by_origin origin m x c) txutil.SupportedAssets
        (fun _ => []) c (txutil.SupportedHostChains.map (fun h => a ++ ascii "/to" ++ h))
        ⟨a, ha, hca⟩ (fun b hb hbc => by rw [hinj b hb a ha (hbc.trans hca.symm)])
      rw [hm1, List.mem_map]
      constructor
      · rintro ⟨h, hh, e⟩
        exact ⟨a, ha, hca.symm, h, hh, e.symm⟩
      · rintro ⟨b, hb, hcb, h, hh, e⟩
        have hba : b = a := hinj b hb a ha (hcb.symm.trans hca.symm)
        exact ⟨h, hh, by rw [e, hba]⟩
    · have hno : ∀ x ∈ txutil.SupportedAssets, origin x ≠ c := fun x hx e => hc ⟨x, hx, e⟩
      have hm1 := foldl_map_assign_other _ origin
        (fun a => txutil.SupportedHostChains.map (fun h => a ++ ascii "/to" ++ h))
        (fun m x c => txutil.stage_to_by_origin origin m x c) txutil.SupportedAssets
        (fun _ => []) c hno
      rw [hm1]
      constructor
      · intro h; exact absurd h (List.not_mem_nil _)
      · rintro ⟨a, ha, hca, _⟩
        exact absurd hca.symm (hno a ha)

theorem txutil.mem_LockSelectors (origin : Bytes → Bytes)
    (hinj : ∀ a ∈ txutil.SupportedAssets, ∀ b ∈ txutil.SupportedAssets,
      origin a = origin b → a = b)
    (y c : Bytes) :
    y ∈ txutil.LockSelectors origin c ↔
      ∃ a ∈ txutil.SupportedAssets, c = origin a
        ∧ ∃ h ∈ txutil.SupportedHostChains, y = a ++ ascii "/to" ++ h := by
  simp only [txutil.LockSelectors]
  by_cases hc : ∃ a ∈ txutil.SupportedAssets, origin a = c
  · rcases hc with ⟨a, ha, hca⟩
    have hm1 := foldl_map_assign_key _ origin
      (fun a => txutil.SupportedHostChains.map (fun h => a ++ ascii "/to" ++ h))
      (fun m x c => txutil.stage_to_by_origin origin m x c) txutil.SupportedAssets
      (fun _ => []) c (txutil.SupportedHostChains.map (fun h => a ++ ascii "/to" ++ h))
      ⟨a, ha, hca⟩ (fun b hb hbc => by rw [hinj b hb a ha (hbc.trans hca.symm)])
    rw [hm1, List.mem_map]
    constructor
    · rintro ⟨h, hh, e⟩
      exact ⟨a, ha, hca.symm, h, hh, e.symm⟩
    · rintro ⟨b, hb, hcb, h, hh, e⟩
      have hba : b = a := hinj b hb a ha (hcb.symm.trans hca.symm)
      exact ⟨h, hh, by rw [e, hba]⟩
  · have hno : ∀ x ∈ txutil.SupportedAssets, origin x ≠ c := fun x hx e => hc ⟨x, hx, e⟩
    have hm1 := foldl_map_assign_other _ origin
      (fun a => txutil.SupportedHostChains.map (fun h => a ++ ascii "/to" ++ h))
      (fun m x c => txutil.stage_to_by_origin origin m x c) txutil.SupportedAssets
      (fun _ => []) c hno
    rw [hm1]
    constructor
    · intro h; exact absurd h (List.not_mem_nil _)
    · rintro ⟨a, ha, hca, _⟩
      exact absurd hca.symm (hno a ha)

theorem txutil.stage_release_by_origin (origin : Bytes → Bytes) (m : txutil.SelectorMap)
    (c : Bytes) :
    txutil.SupportedAssets.foldl (fun selectors asset =>
      txutil.SupportedHostChains.foldl (fun selectors host =>
          txutil.SelectorMap.set selectors (origin asset)
            (selectors (origin asset) ++ [asset ++ ascii "/from" ++ host]))
        selectors) m c
      = m c ++ txutil.SupportedAssets.flatMap (fun asset =>
          if c = origin asset
          then txutil.SupportedHostChains.map (fun h => asset ++ ascii "/from" ++ h)
          else []) := by
  refine foldl_map_append _ (fun asset c =>
      if c = origin asset
      then txutil.SupportedHostChains.map (fun h => asset ++ ascii "/from" ++ h) else [])
    ?_ _ m c
  intro m asset c
  exact txutil.foldl_entry_append _ (origin asset) _ m c

theorem txutil.stage_move_by_origin (origin : Bytes → Bytes) (m : txutil.SelectorMap)
    (c : Bytes) :
    txutil.SupportedAssets.foldl (fun selectors asset =>
      txutil.SupportedHostChains.foldl (fun selectors host =>
        txutil.SupportedHostChains.foldl (fun selectors otherHost =>
            if otherHost = host then selectors
            else txutil.SelectorMap.set selectors (origin asset)
              (selectors (origin asset)
                ++ [asset ++ ascii "/to" ++ host ++ ascii "From" ++ otherHost]))
          selectors) selectors) m c
      = m c ++ txutil.SupportedAssets.flatMap (fun asset =>
          txutil.SupportedHostChains.flatMap (fun host =>
            txutil.SupportedHostChains.flatMap (fun otherHost =>
              if otherHost = host then []
              else if c = origin asset
                then [asset ++ ascii "/to" ++ host ++ ascii "From" ++ otherHost] else []))) := by
  refine foldl_map_append _ (fun asset c =>
      txutil.SupportedHostChains.flatMap (fun host =>
        txutil.SupportedHostChains.flatMap (fun otherHost =>
          if otherHost = host then []
          else if c = origin asset
            then [asset ++ ascii "/to" ++ host ++ ascii "From" ++ otherHost] else [])))
    ?_ _ m c
  intro m asset c
  refine foldl_map_append _ (fun host c =>
        txutil.SupportedHostChains.flatMap (fun otherHost =>
          if otherHost = host then []
          else if c = origin asset
            then [asset ++ ascii "/to" ++ host ++ ascii "From" ++ otherHost] else []))
    ?_ _ m c
  intro m host c
  refine foldl_map_append _ (fun otherHost c =>
          if otherHost = host then []
          else if c = origin asset
            then [asset ++ ascii "/to" ++ host ++ ascii "From" ++ otherHost] else [])
    ?_ _ m c
  intro m otherHost c
  by_cases hoh : otherHost = host
  · simp [hoh]
  · by_cases hco : c = origin asset
    · simp [txutil.SelectorMap.set, hoh, hco]
    · simp [txutil.SelectorMap.set, hoh, hco]

theorem txutil.mem_NonLockSelectors (origin : Bytes → Bytes) (y c : Bytes) :
    y ∈ txutil.NonLockSelectors origin c ↔
      ∃ a ∈ txutil.SupportedAssets, c = origin a ∧ ∃ h ∈ txutil.SupportedHostChains,
        (y = a ++ ascii "/from" ++ h
          ∨ ∃ o ∈ txutil.SupportedHostChains, o ≠ h
              ∧ y = a ++ ascii "/to" ++ h ++ ascii "From" ++ o) := by
  simp only [txutil.NonLockSelectors]
  rw [txutil.stage_move_by_origin, txutil.stage_release_by_origin]
  simp only [List.nil_append, List.mem_append, List.mem_flatMap]
  constructor
  · rintro (⟨a, ha, hy⟩ | ⟨a, ha, h, hh, o, ho, hy⟩)
    · by_cases hco : c = origin a
      · simp only [if_pos hco, List.mem_map] at hy
        rcases hy with ⟨h, hh, e⟩
        exact ⟨a, ha, hco, h, hh, Or.inl e.symm⟩
      · simp [if_neg hco] at hy
    · by_cases hoh : o = h
      · simp [hoh] at hy
      · by_cases hco : c = origin a
        · simp only [if_neg hoh, if_pos hco, List.mem_singleton] at hy
          exact ⟨a, ha, hco, h, hh, Or.inr ⟨o, ho, hoh, hy⟩⟩
        · simp [if_neg hoh, if_neg hco] at hy
  · rintro ⟨a, ha, hco, h, hh, e | ⟨o, ho, hoh, e⟩⟩
    · left
      exact ⟨a, ha, by simp only [if_pos hco, List.mem_map]; exact ⟨h, hh, e.symm⟩⟩
    · right
      exact ⟨a, ha, h, hh, o, ho, by simp [if_neg hoh, if_pos hco, e]⟩

/-! ## Selectors of different shapes or names are different strings -/

theorem txutil.lock_ne_release (a h a' h' : Bytes)
    (ha : a ∈ txutil.SupportedAssets) (hh : h ∈ txutil.SupportedHostChains)
    (ha' : a' ∈ txutil.SupportedAssets) (hh' : h' ∈ txutil.SupportedHostChains) :
    a ++ ascii "/to" ++ h ≠ a' ++ ascii "/from" ++ h' := by
  intro e
  have h1 := tx.parse_lock _ (txutil.registry_wellFormed (fun _ => [])) a h ha hh
  have h2 := tx.parse_release _ (txutil.registry_wellFormed (fun _ => [])) a' h' ha' hh'
  rw [e, h2] at h1
  exact tx.Parsed.noConfusion h1

theorem txutil.lock_ne_move (a h a' h' o' : Bytes)
    (ha : a ∈ txutil.SupportedAssets) (hh : h ∈ txutil.SupportedHostChains)
    (ha' : a' ∈ txutil.SupportedAssets) (hh' : h' ∈ txutil.SupportedHostChains)
    (ho' : o' ∈ txutil.SupportedHostChains) :
    a ++ ascii "/to" ++ h ≠ a' ++ ascii "/to" ++ h' ++ ascii "From" ++ o' := by
  intro e
  have h1 := tx.parse_lock _ (txutil.registry_wellFormed (fun _ => [])) a h ha hh
  have h2 := tx.parse_move _ (txutil.registry_wellFormed (fun _ => [])) a' h' o' ha' hh' ho'
  rw [e, h2] at h1
  split_ifs at h1

theorem txutil.release_ne_move (a h a' h' o' : Bytes)
    (ha : a ∈ txutil.SupportedAssets) (hh : h ∈ txutil.SupportedHostChains)
    (ha' : a' ∈ txutil.SupportedAssets) (hh' : h' ∈ txutil.SupportedHostChains)
    (ho' : o' ∈ txutil.SupportedHostChains) :
    a ++ ascii "/from" ++ h ≠ a' ++ ascii "/to" ++ h' ++ ascii "From" ++ o' := by
  intro e
  have h1 := tx.parse_release _ (txutil.registry_wellFormed (fun _ => [])) a h ha hh
  have h2 := tx.parse_move _ (txutil.registry_wellFormed (fun _ => [])) a' h' o' ha' hh' ho'
  rw [e, h2] at h1
  split_ifs at h1

theorem txutil.lock_inj (a h a' h' : Bytes)
    (ha : a ∈ txutil.SupportedAssets) (hh : h ∈ txutil.SupportedHostChains)
    (ha' : a' ∈ txutil.SupportedAssets) (hh' : h' ∈ txutil.SupportedHostChains)
    (e : a ++ ascii "/to" ++ h = a' ++ ascii "/to" ++ h') : a = a' ∧ h = h' := by
  have h1 := tx.parse_lock _ (txutil.registry_wellFormed (fun _ => [])) a h ha hh
  have h2 := tx.parse_lock _ (txutil.registry_wellFormed (fun _ => [])) a' h' ha' hh'
  rw [e, h2] at h1
  injection h1 with e1 e2
  exact ⟨e1.symm, e2.symm⟩

theorem txutil.release_inj (a h a' h' : Bytes)
    (ha : a ∈ txutil.SupportedAssets) (hh : h ∈ txutil.SupportedHostChains)
    (ha' : a' ∈ txutil.SupportedAssets) (hh' : h' ∈ txutil.SupportedHostChains)
    (e : a ++ ascii "/from" ++ h = a' ++ ascii "/from" ++ h') : a = a' ∧ h = h' := by
  have h1 := tx.parse_release _ (txutil.registry_wellFormed (fun _ => [])) a h ha hh
  have h2 := tx.parse_release _ (txutil.registry_wellFormed (fun _ => [])) a' h' ha' hh'
  rw [e, h2] at h1
  injection h1 with e1 e2
  exact ⟨e1.symm, e2.symm⟩

theorem txutil.move_inj (a h o a' h' o' : Bytes)
    (ha : a ∈ txutil.SupportedAssets) (hh : h ∈ txutil.SupportedHostChains)
    (ho : o ∈ txutil.SupportedHostChains)
    (ha' : a' ∈ txutil.SupportedAssets) (hh' : h' ∈ txutil.SupportedHostChains)
    (ho' : o' ∈ txutil.SupportedHostChains) (hne : h ≠ o)
    (e : a ++ ascii "/to" ++ h ++ ascii "From" ++ o
      = a' ++ ascii "/to" ++ h' ++ ascii "From" ++ o') : a = a' ∧ h = h' ∧ o = o' := by
  have h1 := tx.parse_move _ (txutil.registry_wellFormed (fun _ => [])) a h o ha hh ho
  have h2 := tx.parse_move _ (txutil.registry_wellFormed (fun _ => [])) a' h' o' ha' hh' ho'
  rw [if_pos hne] at h1
  rw [e, h2] at h1
  split_ifs at h1
  injection h1 with e1 e2 e3
  exact ⟨e1.symm, e3.symm, e2.symm⟩

/-! ## The generators of txutil against the grammar -/

theorem txutil.SelectorsByDestination_of_move (origin : Bytes → Bytes) (a h o : Bytes)
    (ha : a ∈ txutil.SupportedAssets) (hh : h ∈ txutil.SupportedHostChains)
    (ho : o ∈ txutil.SupportedHostChains) :
    a ++ ascii "/to" ++ h ++ ascii "From" ++ o ∈ txutil.SelectorsByDestination origin h := by
  simp only [txutil.SelectorsByDestination]
  rw [txutil.stage_move_by_first, List.mem_append]
  right
  simp only [List.mem_flatMap]
  exact ⟨h, hh, o, ho, by simp only [if_true, List.mem_map]; exact ⟨a, ha, rfl⟩⟩

theorem txutil.SelectorsBySource_of_move (origin : Bytes → Bytes) (a h o : Bytes)
    (ha : a ∈ txutil.SupportedAssets) (hh : h ∈ txutil.SupportedHostChains)
    (ho : o ∈ txutil.SupportedHostChains) :
    a ++ ascii "/to" ++ o ++ ascii "From" ++ h ∈ txutil.SelectorsBySource origin h := by
  simp only [txutil.SelectorsBySource]
  rw [txutil.stage_move_by_second, List.mem_append]
  right
  simp only [List.mem_flatMap]
  exact ⟨h, hh, o, ho, by simp only [if_true, List.mem_map]; exact ⟨a, ha, rfl⟩⟩

/-- C26 (the code as it stands): for every supported asset `a` and supported host
chain `h`, the form-3 selector `a/to<h>From<h>` with twice the same host is in
`SelectorsByDestination` and in `SelectorsBySource` under `h`, whatever the origin
chains: their loops over the pairs of hosts lack the `otherHost == host` skip of
`AllSelectors`, which produces no such selector. -/
theorem txutil.same_host_move_generated (origin : Bytes → Bytes) (a h : Bytes)
    (ha : a ∈ txutil.SupportedAssets) (hh : h ∈ txutil.SupportedHostChains) :
    a ++ ascii "/to" ++ h ++ ascii "From" ++ h ∈ txutil.SelectorsByDestination origin h
    ∧ a ++ ascii "/to" ++ h ++ ascii "From" ++ h ∈ txutil.SelectorsBySource origin h
    ∧ a ++ ascii "/to" ++ h ++ ascii "From" ++ h ∉ txutil.AllSelectors := by
  refine ⟨txutil.SelectorsByDestination_of_move origin a h h ha hh hh,
    txutil.SelectorsBySource_of_move origin a h h ha hh hh, ?_⟩
  intro hmem
  rcases (txutil.mem_AllSelectors _).1 hmem with ⟨a', ha', h', hh', e | e | ⟨o', ho', hne, e⟩⟩
  · exact txutil.lock_ne_move a' h' a h h ha' hh' ha hh hh e.symm
  · exact txutil.release_ne_move a' h' a h h ha' hh' ha hh hh e.symm
  · have := txutil.move_inj a' h' o' a h h ha' hh' ho' ha hh hh (fun e2 => hne e2.symm) e.symm
    exact hne (this.2.2.trans this.2.1.symm)

/-- Witness of C26: "BTC/toEthereumFromEthereum" is listed under Ethereum by
destination and by source. -/
theorem txutil.same_host_move_generated_witness :
    ascii "BTC/toEthereumFromEthereum"
        ∈ txutil.SelectorsByDestination sampleOrigin (ascii "Ethereum")
    ∧ ascii "BTC/toEthereumFromEthereum"
        ∈ txutil.SelectorsBySource sampleOrigin (ascii "Ethereum")
    ∧ ascii "BTC/toEthereumFromEthereum" ∉ txutil.AllSelectors :=
  txutil.same_host_move_generated sampleOrigin (ascii "BTC") (ascii "Ethereum")
    (by decide) (by decide)

/-- C27: given that the origin chains of the supported assets are pairwise
distinct and none is a supported host chain, every selector of `AllSelectors` is
in `SelectorsByDestination` under exactly one chain: the host for `a/to<Host>`,
the origin chain of `a` for `a/from<Host>`, and `HostA` for
`a/to<HostA>From<HostB>`. -/
theorem txutil.SelectorsByDestination_spec (origin : Bytes → Bytes)
    (hinj : ∀ a ∈ txutil.SupportedAssets, ∀ b ∈ txutil.SupportedAssets,
      origin a = origin b → a = b)
    (hdis : ∀ a ∈ txutil.SupportedAssets, origin a ∉ txutil.SupportedHostChains)
    (s : tx.Selector) (hs : s ∈ txutil.AllSelectors) :
    ∃ a ∈ txutil.SupportedAssets, ∃ h ∈ txutil.SupportedHostChains,
      (s = a ++ ascii "/to" ++ h
        ∧ ∀ c, s ∈ txutil.SelectorsByDestination origin c ↔ c = h)
      ∨ (s = a ++ ascii "/from" ++ h
        ∧ ∀ c, s ∈ txutil.SelectorsByDestination origin c ↔ c = origin a)
      ∨ (∃ o ∈ txutil.SupportedHostChains, o ≠ h
        ∧ s = a ++ ascii "/to" ++ h ++ ascii "From" ++ o
        ∧ ∀ c, s ∈ txutil.SelectorsByDestination origin c ↔ c = h) := by
  rcases (txutil.mem_AllSelectors s).1 hs with ⟨a, ha, h, hh, e | e | ⟨o, ho, hne, e⟩⟩
  · refine ⟨a, ha, h, hh, Or.inl ⟨e, fun c => ?_⟩⟩
    rw [txutil.mem_SelectorsByDestination origin hinj hdis, e]
    constructor
    · rintro (⟨hc, a', ha', e'⟩ | ⟨a', ha', _, h', hh', e'⟩ | ⟨hc, o', ho', a', ha', e'⟩)
      · exact (txutil.lock_inj a h a' c ha hh ha' hc e').2.symm
      · exact absurd e' (txutil.lock_ne_release a h a' h' ha hh ha' hh')
      · exact absurd e' (txutil.lock_ne_move a h a' c o' ha hh ha' hc ho')
    · intro hc
      rw [hc]
      exact Or.inl ⟨hh, a, ha, rfl⟩
  · refine ⟨a, ha, h, hh, Or.inr (Or.inl ⟨e, fun c => ?_⟩)⟩
    rw [txutil.mem_SelectorsByDestination origin hinj hdis, e]
    constructor
    · rintro (⟨hc, a', ha', e'⟩ | ⟨a', ha', hca, h', hh', e'⟩ | ⟨hc, o', ho', a', ha', e'⟩)
      · exact absurd e'.symm (txutil.lock_ne_release a' c a h ha' hc ha hh)
      · rw [hca, (txutil.release_inj a h a' h' ha hh ha' hh' e').1]
      · exact absurd e' (txutil.release_ne_move a h a' c o' ha hh ha' hc ho')
    · intro hc
      exact Or.inr (Or.inl ⟨a, ha, hc, h, hh, rfl⟩)
  · refine ⟨a, ha, h, hh, Or.inr (Or.inr ⟨o, ho, hne, e, fun c => ?_⟩)⟩
    rw [txutil.mem_SelectorsByDestination origin hinj hdis, e]
    constructor
    · rintro (⟨hc, a', ha', e'⟩ | ⟨a', ha', _, h', hh', e'⟩ | ⟨hc, o', ho', a', ha', e'⟩)
      · exact absurd e'.symm (txutil.lock_ne_move a' c a h o ha' hc ha hh ho)
      · exact absurd e'.symm (txutil.release_ne_move a' h' a h o ha' hh' ha hh ho)
      · exact (txutil.move_inj a h o a' c o' ha hh ho ha' hc ho'
          (fun e2 => hne e2.symm) e').2.1.symm
    · intro hc
      rw [hc]
      exact Or.inr (Or.inr ⟨hh, o, ho, a, ha, rfl⟩)

theorem sampleOrigin_inj : ∀ a ∈ txutil.SupportedAssets, ∀ b ∈ txutil.SupportedAssets,
    sampleOrigin a = sampleOrigin b → a = b := by decide

theorem sampleOrigin_disjoint :
    ∀ a ∈ txutil.SupportedAssets, sampleOrigin a ∉ txutil.SupportedHostChains := by decide

theorem txutil.lock_mem_AllSelectors (a h : Bytes) (ha : a ∈ txutil.SupportedAssets)
    (hh : h ∈ txutil.SupportedHostChains) : a ++ ascii "/to" ++ h ∈ txutil.AllSelectors :=
  (txutil.mem_AllSelectors _).2 ⟨a, ha, h, hh, Or.inl rfl⟩

/-- Witness of C27: the selector "BTC/toEthereum" with the sample origin chains. -/
theorem txutil.SelectorsByDestination_spec_witness :
    ascii "BTC" ++ ascii "/to" ++ ascii "Ethereum" ∈ txutil.AllSelectors
    ∧ ∃ a ∈ txutil.SupportedAssets, ∃ h ∈ txutil.SupportedHostChains,
      (ascii "BTC" ++ ascii "/to" ++ ascii "Ethereum" = a ++ ascii "/to" ++ h
        ∧ ∀ c, ascii "BTC" ++ ascii "/to" ++ ascii "Ethereum"
            ∈ txutil.SelectorsByDestination sampleOrigin c ↔ c = h)
      ∨ (ascii "BTC" ++ ascii "/to" ++ ascii "Ethereum" = a ++ ascii "/from" ++ h
        ∧ ∀ c, ascii "BTC" ++ ascii "/to" ++ ascii "Ethereum"
            ∈ txutil.SelectorsByDestination sampleOrigin c ↔ c = sampleOrigin a)
      ∨ (∃ o ∈ txutil.SupportedHostChains, o ≠ h
        ∧ ascii "BTC" ++ ascii "/to" ++ ascii "Ethereum"
            = a ++ ascii "/to" ++ h ++ ascii "From" ++ o
        ∧ ∀ c, ascii "BTC" ++ ascii "/to" ++ ascii "Ethereum"
            ∈ txutil.SelectorsByDestination sampleOrigin c ↔ c = h) :=
  ⟨txutil.lock_mem_AllSelectors (ascii "BTC") (ascii "Ethereum") (by decide) (by decide),
   txutil.SelectorsByDestination_spec sampleOrigin sampleOrigin_inj sampleOrigin_disjoint _
     (txutil.lock_mem_AllSelectors (ascii "BTC") (ascii "Ethereum") (by decide) (by decide))⟩

/-- C28: given that the origin chains of the supported assets are pairwise
distinct and none is a supported host chain, every selector of `AllSelectors` is
in `SelectorsBySource` under exactly one chain: the origin chain of `a` for
`a/to<Host>`, the host for `a/from<Host>`, and `HostB` for
`a/to<HostA>From<HostB>`. -/
theorem txutil.SelectorsBySource_spec (origin : Bytes → Bytes)
    (hinj : ∀ a ∈ txutil.SupportedAssets, ∀ b ∈ txutil.SupportedAssets,
      origin a = origin b → a = b)
    (hdis : ∀ a ∈ txutil.SupportedAssets, origin a ∉ txutil.SupportedHostChains)
    (s : tx.Selector) (hs : s ∈ txutil.AllSelectors) :
    ∃ a ∈ txutil.SupportedAssets, ∃ h ∈ txutil.SupportedHostChains,
      (s = a ++ ascii "/to" ++ h
        ∧ ∀ c, s ∈ txutil.SelectorsBySource origin c ↔ c = origin a)
      ∨ (s = a ++ ascii "/from" ++ h
        ∧ ∀ c, s ∈ txutil.SelectorsBySource origin c ↔ c = h)
      ∨ (∃ o ∈ txutil.SupportedHostChains, o ≠ h
        ∧ s = a ++ ascii "/to" ++ h ++ ascii "From" ++ o
        ∧ ∀ c, s ∈ txutil.SelectorsBySource origin c ↔ c = o) := by
  rcases (txutil.mem_AllSelectors s).1 hs with ⟨a, ha, h, hh, e | e | ⟨o, ho, hne, e⟩⟩
  · refine ⟨a, ha, h, hh, Or.inl ⟨e, fun c => ?_⟩⟩
    rw [txutil.mem_SelectorsBySource origin hinj hdis, e]
    constructor
    · rintro (⟨a', ha', hca, h', hh', e'⟩ | ⟨hc, a', ha', e'⟩ | ⟨hc, o', ho', a', ha', e'⟩)
      · rw [hca, (txutil.lock_inj a h a' h' ha hh ha' hh' e').1]
      · exact absurd e' (txutil.lock_ne_release a h a' c ha hh ha' hc)
      · exact absurd e' (txutil.lock_ne_move a h a' o' c ha hh ha' ho' hc)
    · intro hc
      exact Or.inl ⟨a, ha, hc, h, hh, rfl⟩
  · refine ⟨a, ha, h, hh, Or.inr (Or.inl ⟨e, fun c => ?_⟩)⟩
    rw [txutil.mem_SelectorsBySource origin hinj hdis, e]
    constructor
    · rintro (⟨a', ha', _, h', hh', e'⟩ | ⟨hc, a', ha', e'⟩ | ⟨hc, o', ho', a', ha', e'⟩)
      · exact absurd e'.symm (txutil.lock_ne_release a' h' a h ha' hh' ha hh)
      · exact (txutil.release_inj a h a' c ha hh ha' hc e').2.symm
      · exact absurd e' (txutil.release_ne_move a h a' o' c ha hh ha' ho' hc)
    · intro hc
      rw [hc]
      exact Or.inr (Or.inl ⟨hh, a, ha, rfl⟩)
  · refine ⟨a, ha, h, hh, Or.inr (Or.inr ⟨o, ho, hne, e, fun c => ?_⟩)⟩
    rw [txutil.mem_SelectorsBySource origin hinj hdis, e]
    constructor
    · rintro (⟨a', ha', _, h', hh', e'⟩ | ⟨hc, a', ha', e'⟩ | ⟨hc, o', ho', a', ha', e'⟩)
      · exact absurd e'.symm (txutil.lock_ne_move a' h' a h o ha' hh' ha hh ho)
      · exact absurd e'.symm (txutil.release_ne_move a' c a h o ha' hc ha hh ho)
      · exact (txutil.move_inj a h o a' o' c ha hh ho ha' ho' hc
          (fun e2 => hne e2.symm) e').2.2.symm
    · intro hc
      rw [hc]
      exact Or.inr (Or.inr ⟨ho, h, hh, a, ha, rfl⟩)

/-- Witness of C28: the selector "BTC/toEthereum" with the sample origin chains. -/
theorem txutil.SelectorsBySource_spec_witness :
    ascii "BTC" ++ ascii "/to" ++ ascii "Ethereum" ∈ txutil.AllSelectors
    ∧ ∃ a ∈ txutil.SupportedAssets, ∃ h ∈ txutil.SupportedHostChains,
      (ascii "BTC" ++ ascii "/to" ++ ascii "Ethereum" = a ++ ascii "/to" ++ h
        ∧ ∀ c, ascii "BTC" ++ ascii "/to" ++ ascii "Ethereum"
            ∈ txutil.SelectorsBySource sampleOrigin c ↔ c = sampleOrigin a)
      ∨ (ascii "BTC" ++ ascii "/to" ++ ascii "Ethereum" = a ++ ascii "/from" ++ h
        ∧ ∀ c, ascii "BTC" ++ ascii "/to" ++ ascii "Ethereum"
            ∈ txutil.SelectorsBySource sampleOrigin c ↔ c = h)
      ∨ (∃ o ∈ txutil.SupportedHostChains, o ≠ h
        ∧ ascii "BTC" ++ ascii "/to" ++ ascii "Ethereum"
            = a ++ ascii "/to" ++ h ++ ascii "From" ++ o
        ∧ ∀ c, ascii "BTC" ++ ascii "/to" ++ ascii "Ethereum"
            ∈ txutil.SelectorsBySource sampleOrigin c ↔ c = o) :=
  ⟨txutil.lock_mem_AllSelectors (ascii "BTC") (ascii "Ethereum") (by decide) (by decide),
   txutil.SelectorsBySource_spec sampleOrigin sampleOrigin_inj sampleOrigin_disjoint _
     (txutil.lock_mem_AllSelectors (ascii "BTC") (ascii "Ethereum") (by decide) (by decide))⟩

/-- C29: given that the origin chains of the supported assets are pairwise
distinct, every selector of `AllSelectors`, with asset `a`, is in
`LockSelectors[origin chain of a]` exactly when it has the form `a/to<Host>`, is
otherwise in `NonLockSelectors[origin chain of a]`, and is under no chain in
both. -/
theorem txutil.LockSelectors_partition (origin : Bytes → Bytes)
    (hinj : ∀ a ∈ txutil.SupportedAssets, ∀ b ∈ txutil.SupportedAssets,
      origin a = origin b → a = b)
    (s : tx.Selector) (hs : s ∈ txutil.AllSelectors) :
    (∃ a ∈ txutil.SupportedAssets, ∃ h ∈ txutil.SupportedHostChains,
      (s = a ++ ascii "/to" ++ h
        ∧ s ∈ txutil.LockSelectors origin (origin a)
        ∧ s ∉ txutil.NonLockSelectors origin (origin a))
      ∨ (s = a ++ ascii "/from" ++ h
        ∧ s ∉ txutil.LockSelectors origin (origin a)
        ∧ s ∈ txutil.NonLockSelectors origin (origin a))
      ∨ (∃ o ∈ txutil.SupportedHostChains, o ≠ h
        ∧ s = a ++ ascii "/to" ++ h ++ ascii "From" ++ o
        ∧ s ∉ txutil.LockSelectors origin (origin a)
        ∧ s ∈ txutil.NonLockSelectors origin (origin a)))
    ∧ ∀ c, ¬ (s ∈ txutil.LockSelectors origin c ∧ s ∈ txutil.NonLockSelectors origin c) := by
  have hboth : ∀ c,
      ¬ (s ∈ txutil.LockSelectors origin c ∧ s ∈ txutil.NonLockSelectors origin c) := by
    rintro c ⟨h1, h2⟩
    rcases (txutil.mem_LockSelectors origin hinj s c).1 h1 with ⟨a, ha, _, h, hh, e⟩
    rcases (txutil.mem_NonLockSelectors origin s c).1 h2 with
      ⟨a', ha', _, h', hh', e' | ⟨o', ho', _, e'⟩⟩
    · exact txutil.lock_ne_release a h a' h' ha hh ha' hh' (e.symm.trans e')
    · exact txutil.lock_ne_move a h a' h' o' ha hh ha' hh' ho' (e.symm.trans e')
  refine ⟨?_, hboth⟩
  rcases (txutil.mem_AllSelectors s).1 hs with ⟨a, ha, h, hh, e | e | ⟨o, ho, hne, e⟩⟩
  · have hl : s ∈ txutil.LockSelectors origin (origin a) :=
      (txutil.mem_LockSelectors origin hinj s _).2 ⟨a, ha, rfl, h, hh, e⟩
    exact ⟨a, ha, h, hh, Or.inl ⟨e, hl, fun hn => hboth _ ⟨hl, hn⟩⟩⟩
  · have hn : s ∈ txutil.NonLockSelectors origin (origin a) :=
      (txutil.mem_NonLockSelectors origin s _).2 ⟨a, ha, rfl, h, hh, Or.inl e⟩
    exact ⟨a, ha, h, hh, Or.inr (Or.inl ⟨e, fun hl => hboth _ ⟨hl, hn⟩, hn⟩)⟩
  · have hn : s ∈ txutil.NonLockSelectors origin (origin a) :=
      (txutil.mem_NonLockSelectors origin s _).2
        ⟨a, ha, rfl, h, hh, Or.inr ⟨o, ho, hne, e⟩⟩
    exact ⟨a, ha, h, hh, Or.inr (Or.inr ⟨o, ho, hne, e, fun hl => hboth _ ⟨hl, hn⟩, hn⟩)⟩

/-- Witness of C29: the selector "BTC/toEthereum" with the sample origin chains. -/
theorem txutil.LockSelectors_partition_witness :
    ascii "BTC" ++ ascii "/to" ++ ascii "Ethereum" ∈ txutil.AllSelectors
    ∧ ∀ c, ¬ (ascii "BTC" ++ ascii "/to" ++ ascii "Ethereum" ∈ txutil.LockSelectors sampleOrigin c
        ∧ ascii "BTC" ++ ascii "/to" ++ ascii "Ethereum"
            ∈ txutil.NonLockSelectors sampleOrigin c) :=
  ⟨txutil.lock_mem_AllSelectors (ascii "BTC") (ascii "Ethereum") (by decide) (by decide),
   (txutil.LockSelectors_partition sampleOrigin sampleOrigin_inj _
     (txutil.lock_mem_AllSelectors (ascii "BTC") (ascii "Ethereum") (by decide)
       (by decide))).2⟩

/-! ## Random versions -/

/-- C30: `Version.Generate` returns `Version("0")` for every random integer and
size, the integer being reduced modulo 1; the result is never `Version1`, the
empty version or a version that `Version.String` does not know. -/
theorem tx.Version_Generate_const (rInt : Nat) (size : Int) :
    tx.Version.Generate rInt size = tx.Version0
    ∧ tx.Version.Generate rInt size ≠ tx.Version1
    ∧ tx.Version.Generate rInt size ≠ ascii ""
    ∧ tx.Version.String (tx.Version.Generate rInt size) ≠ ascii "" := by
  have h : tx.Version.Generate rInt size = tx.Version0 := by
    simp only [tx.Version.Generate, Nat.mod_one]
    decide
  rw [h]
  exact ⟨rfl, by decide, by decide, by decide⟩
